import Mathlib

/-!
Shallow embedding of `src/libinput-device.c` (weston input-device layer)

Pointers become `Option Nat` (`none` is `NULL`, `some a` the address of a live or
freed object), heap objects live in stores indexed by address, intrusive
`wl_list`s become Lean lists of the addresses of their members (head first), and
every `notify_*` call of the compositor is recorded in an emission-ordered trace.
A dereference of `NULL` or of a freed object makes the embedded function return
`none`.
-/

namespace Weston

/-! ## libwayland lists -/

/-- Inserts `elm` right after the list head, as `wl_list_insert(list, elm)`
does for a node that is on no list. Inserting a node that is still linked
leaves the lists of the source cyclic, which a list of addresses cannot show;
statements about an insertion are made for an unlinked node. -/
def wl_list_insert (list : List Nat) (elm : Nat) : List Nat := elm :: list

/-- Unlinks the node `elm`, as `wl_list_remove(&elm->link)`. -/
def wl_list_remove (list : List Nat) (elm : Nat) : List Nat :=
  list.filter (fun x => decide (x ≠ elm))

/-- Emptiness test `wl_list_empty(list)`. -/
def wl_list_empty (list : List Nat) : Bool := list.isEmpty

/-! ## Enumerations of headers that are not part of the sources -/

/-- Modelled from the spec: `enum wl_tablet_manager_tablet_type` of the tablet
protocol header; the spec lists the types external, internal and
display-integrated. -/
inductive wl_tablet_manager_tablet_type
  | EXTERNAL
  | INTERNAL
  | DISPLAY
  deriving DecidableEq, Repr

/-- Event kinds of `enum libinput_event_type`: the thirteen kinds named in the
switch of `evdev_device_process_event`, and `OTHER code` for every other value
of the enumeration. -/
inductive libinput_event_type
  | KEYBOARD_KEY
  | POINTER_MOTION
  | POINTER_MOTION_ABSOLUTE
  | POINTER_BUTTON
  | POINTER_AXIS
  | TOUCH_DOWN
  | TOUCH_MOTION
  | TOUCH_UP
  | TOUCH_FRAME
  | TABLET_AXIS
  | TABLET_PROXIMITY_IN
  | TABLET_PROXIMITY_OUT
  | TABLET_BUTTON
  | OTHER (code : Nat)
  deriving DecidableEq, Repr

/-- Tablet axes of `enum libinput_tablet_axis`. -/
inductive libinput_tablet_axis
  | X
  | Y
  | DISTANCE
  | PRESSURE
  | TILT_X
  | TILT_Y
  deriving DecidableEq, Repr

/-- Touch phases passed to `notify_touch`. -/
inductive wl_touch_type
  | WL_TOUCH_DOWN
  | WL_TOUCH_UP
  | WL_TOUCH_MOTION
  deriving DecidableEq, Repr

/-- Key state update modes of `enum weston_key_state_update`. -/
inductive weston_key_state_update
  | STATE_UPDATE_AUTOMATIC
  | STATE_UPDATE_NONE
  deriving DecidableEq, Repr

/-- Button code `BTN_TOUCH` of `linux/input.h`. -/
def BTN_TOUCH : Nat := 0x14a

/-! ## Records -/

/-- The capability bits of `device->seat_caps` (`EVDEV_SEAT_POINTER`,
`EVDEV_SEAT_KEYBOARD`, `EVDEV_SEAT_TOUCH`, `EVDEV_SEAT_TABLET`), one flag per
bit. -/
structure seat_caps where
  pointer : Bool := false
  keyboard : Bool := false
  touch : Bool := false
  tablet : Bool := false
  deriving DecidableEq, Repr

/-- An output: the size of `current_mode` and the coordinate transform
`weston_output_transform_coordinate` of the compositor. -/
structure weston_output where
  width : Nat := 0
  height : Nat := 0
  transform : Int → Int → Int × Int := fun x y => (x, y)

/-- The embedded `struct wl_listener output_destroy_listener` of a device:
whether `notify` is set and the output on whose destroy signal `link` sits. -/
structure wl_listener where
  notify : Bool := false
  link : Option Nat := none
  deriving DecidableEq, Repr

/-- The record `struct evdev_device`. -/
structure evdev_device where
  seat : Nat
  device : Nat
  caps : seat_caps := {}
  output : Option Nat := none
  output_name : Option String := none
  devnode : Option String := none
  tablet : Option Nat := none
  output_destroy_listener : wl_listener := {}
  deriving DecidableEq, Repr

/-- The record `struct weston_tablet`. -/
structure weston_tablet where
  seat : Nat
  type : wl_tablet_manager_tablet_type
  output : Option Nat := none
  device : Option Nat := none
  name : String := ""
  vid : Nat := 0
  pid : Nat := 0
  deriving DecidableEq, Repr

/-- The record `struct tool_destroy_listener`: its own address and the
libinput tool handle it resets. -/
structure tool_destroy_listener where
  addr : Nat
  tool : Nat
  deriving DecidableEq, Repr

/-- The record `struct weston_tablet_tool`, with the listeners of its
`destroy_signal`. -/
structure weston_tablet_tool where
  type : Nat
  serial : Nat
  destroy_signal : List tool_destroy_listener := []
  deriving DecidableEq, Repr

/-- A libinput tool handle: its type, its serial and its user data pointer. -/
structure libinput_tool where
  type : Nat := 0
  serial : Nat := 0
  user_data : Option Nat := none
  deriving DecidableEq, Repr

/-- A libinput device handle as queried by `evdev_device_create`. -/
structure libinput_device where
  id : Nat
  cap_keyboard : Bool := false
  cap_pointer : Bool := false
  cap_touch : Bool := false
  cap_tablet : Bool := false
  name : String := ""
  id_vendor : Nat := 0
  id_product : Nat := 0
  deriving DecidableEq, Repr

/-- The record `struct tablet_output_listener`: its own address and its
`tablet_list` of pending tablets. -/
structure tablet_output_listener where
  addr : Nat
  tablet_list : List Nat := []
  deriving DecidableEq, Repr

/-- The part of `struct weston_seat` this file touches. -/
structure weston_seat where
  keyboard_device_count : Int := 0
  pointer_device_count : Int := 0
  touch_device_count : Int := 0
  tablet_list : List Nat := []
  tablet_tool_list : List Nat := []
  deriving DecidableEq, Repr

/-- One libinput event with the values its accessors return. Coordinates are
given already converted by `wl_fixed_from_double`; the `*_transformed`
accessors take the width or height they scale to. -/
structure libinput_event where
  type : libinput_event_type
  device : Nat
  time : Nat := 0
  key : Nat := 0
  key_state : Nat := 0
  dx : Int := 0
  dy : Int := 0
  absolute_x_transformed : Nat → Int := fun _ => 0
  absolute_y_transformed : Nat → Int := fun _ => 0
  button : Nat := 0
  button_state : Nat := 0
  axis : Nat := 0
  axis_value : Int := 0
  seat_slot : Int := 0
  x_transformed : Nat → Int := fun _ => 0
  y_transformed : Nat → Int := fun _ => 0
  tool : Nat := 0
  axis_has_changed : libinput_tablet_axis → Bool := fun _ => false

/-- The compositor notifications this file emits. Tablet pointers are passed
as they are, so they may be `NULL`. -/
inductive Notification
  | key (seat time key state : Nat) (update : weston_key_state_update)
  | motion (seat time : Nat) (dx dy : Int)
  | motion_absolute (seat time : Nat) (x y : Int)
  | button (seat time button state : Nat)
  | axis (seat time axis : Nat) (value : Int)
  | touch (seat time : Nat) (slot : Int) (x y : Int) (touch_type : wl_touch_type)
  | touch_frame (seat : Nat)
  | tablet_proximity_in (tablet : Option Nat) (time tool : Nat)
  | tablet_motion (tablet : Option Nat) (time : Nat) (x y : Int)
  | tablet_frame (tablet : Option Nat)
  | tablet_proximity_out (tablet : Option Nat) (time : Nat)
  | tablet_button (tablet : Option Nat) (time button state : Nat)
  | tablet_added (tablet : Nat)
  | keyboard_focus_in (seat : Nat) (keys : List Nat) (update : weston_key_state_update)
  deriving DecidableEq, Repr

/-- The state of the compositor as far as this file reads or writes it.
`bind_attempts` and `pend_log` are history variables: the tablets
`tablet_bind_output` was called for, and the tablets inserted into a pending
list, both in the order it happened. `output_destroy_signal o` lists the devices
whose `output_destroy_listener` is linked on the destroy signal of output `o`,
and `device_keys h` is what `libinput_device_get_keys` gives for the libinput
device `h`: its return value and the bytes of the key bitmap it fills. -/
structure World where
  next_addr : Nat := 1
  malloc_script : List Bool := []
  output_list : List Nat := []
  outputs : Nat → weston_output := fun _ => {}
  output_created_signal : List tablet_output_listener := []
  seats : Nat → weston_seat := fun _ => {}
  devices : Nat → Option evdev_device := fun _ => none
  device_user_data : Nat → Option Nat := fun _ => none
  tablets : Nat → Option weston_tablet := fun _ => none
  tools : Nat → Option weston_tablet_tool := fun _ => none
  tool_handles : Nat → libinput_tool := fun _ => {}
  new_tablet_type : wl_tablet_manager_tablet_type := .EXTERNAL
  notifications : List Notification := []
  log : List String := []
  bind_attempts : List Nat := []
  pend_log : List Nat := []
  output_destroy_signal : Nat → List Nat := fun _ => []
  device_keys : Nat → Int × (Nat → Nat) := fun _ => (0, fun _ => 0)

/-- Pointwise update of a store. -/
def setAt {α : Type} (f : Nat → α) (i : Nat) (v : α) : Nat → α :=
  fun j => if j = i then v else f j

/-- One call of `malloc` or `zalloc`: the next entry of `malloc_script` decides
whether it fails; when the script is used up every call succeeds. Each
successful call returns an address never returned before. -/
def malloc (w : World) : Option Nat × World :=
  match w.malloc_script with
  | false :: rest => (none, { w with malloc_script := rest })
  | true :: rest =>
    (some w.next_addr, { w with malloc_script := rest, next_addr := w.next_addr + 1 })
  | [] => (some w.next_addr, { w with next_addr := w.next_addr + 1 })

/-- Records one compositor notification. -/
def notify (w : World) (n : Notification) : World :=
  { w with notifications := w.notifications ++ [n] }

/-- Records one line written by `weston_log`. -/
def weston_log (w : World) (msg : String) : World :=
  { w with log := w.log ++ [msg] }

/-- The device record `libinput_device_get_user_data` points to. -/
def get_device (w : World) (libinput_device : Nat) : Option evdev_device :=
  (w.device_user_data libinput_device).bind w.devices

/-- All tablets that sit on the pending list of some listener. -/
def pending (w : World) : List Nat :=
  (w.output_created_signal.map (fun l => l.tablet_list)).flatten

/-- Unlinks `tablet->link` from whatever list holds it: the pending lists and
the tablet lists of the seats. -/
def wl_list_remove_tablet (w : World) (tablet : Nat) : World :=
  { w with
    output_created_signal := w.output_created_signal.map
      (fun l => { l with tablet_list := wl_list_remove l.tablet_list tablet })
    seats := fun s =>
      { w.seats s with tablet_list := wl_list_remove (w.seats s).tablet_list tablet } }

/-- Inserts a tablet at the head of `seat->tablet_list`. -/
def seat_tablet_list_insert (w : World) (seat tablet : Nat) : World :=
  let s : weston_seat :=
    { w.seats seat with tablet_list := wl_list_insert (w.seats seat).tablet_list tablet }
  { w with seats := setAt w.seats seat s }

/-! ## Event handlers -/

/-- The handler `handle_keyboard_key`. -/
def handle_keyboard_key (w : World) (libinput_device : Nat) (ev : libinput_event) :
    Option World := do
  let device ← get_device w libinput_device
  pure (notify w (.key device.seat ev.time ev.key ev.key_state .STATE_UPDATE_AUTOMATIC))

/-- The handler `handle_pointer_motion`. -/
def handle_pointer_motion (w : World) (libinput_device : Nat) (ev : libinput_event) :
    Option World := do
  let device ← get_device w libinput_device
  pure (notify w (.motion device.seat ev.time ev.dx ev.dy))

/-- The handler `handle_pointer_motion_absolute`. -/
def handle_pointer_motion_absolute (w : World) (libinput_device : Nat)
    (ev : libinput_event) : Option World := do
  let device ← get_device w libinput_device
  match device.output with
  | none => pure w
  | some output =>
    let time := ev.time
    let width := (w.outputs output).width
    let height := (w.outputs output).height
    let x := ev.absolute_x_transformed width
    let y := ev.absolute_y_transformed height
    let p := (w.outputs output).transform x y
    pure (notify w (.motion_absolute device.seat time p.1 p.2))

/-- The handler `handle_pointer_button`. -/
def handle_pointer_button (w : World) (libinput_device : Nat) (ev : libinput_event) :
    Option World := do
  let device ← get_device w libinput_device
  pure (notify w (.button device.seat ev.time ev.button ev.button_state))

/-- The handler `handle_pointer_axis`. -/
def handle_pointer_axis (w : World) (libinput_device : Nat) (ev : libinput_event) :
    Option World := do
  let device ← get_device w libinput_device
  pure (notify w (.axis device.seat ev.time ev.axis ev.axis_value))

/-- The handler `handle_touch_with_coords`. -/
def handle_touch_with_coords (w : World) (libinput_device : Nat) (ev : libinput_event)
    (touch_type : wl_touch_type) : Option World := do
  let device ← get_device w libinput_device
  match device.output with
  | none => pure w
  | some output =>
    let time := ev.time
    let slot := ev.seat_slot
    let width := (w.outputs output).width
    let height := (w.outputs output).height
    let x := ev.x_transformed width
    let y := ev.y_transformed height
    let p := (w.outputs output).transform x y
    pure (notify w (.touch device.seat time slot p.1 p.2 touch_type))

/-- The handler `handle_touch_down`. -/
def handle_touch_down (w : World) (device : Nat) (ev : libinput_event) : Option World :=
  handle_touch_with_coords w device ev .WL_TOUCH_DOWN

/-- The handler `handle_touch_motion`. -/
def handle_touch_motion (w : World) (device : Nat) (ev : libinput_event) : Option World :=
  handle_touch_with_coords w device ev .WL_TOUCH_MOTION

/-- The handler `handle_touch_up`. -/
def handle_touch_up (w : World) (libinput_device : Nat) (ev : libinput_event) :
    Option World := do
  let device ← get_device w libinput_device
  let time := ev.time
  let slot := ev.seat_slot
  pure (notify w (.touch device.seat time slot 0 0 .WL_TOUCH_UP))

/-- The handler `handle_touch_frame`. -/
def handle_touch_frame (w : World) (libinput_device : Nat) (_ev : libinput_event) :
    Option World := do
  let device ← get_device w libinput_device
  let seat := device.seat
  pure (notify w (.touch_frame seat))

/-- The listener callback `reset_libinput_tool_data`: clears the user data of
the tool handle the listener was made for (and frees the listener). -/
def reset_libinput_tool_data (w : World) (listener : tool_destroy_listener) : World :=
  let h : libinput_tool := { w.tool_handles listener.tool with user_data := none }
  { w with tool_handles := setAt w.tool_handles listener.tool h }

/-- Firing of `tool->destroy_signal` (`wl_signal_emit`): every listener of the
signal runs, in list order. -/
def tool_destroy_signal_emit (w : World) (tool : Nat) : Option World := do
  let t ← w.tools tool
  pure (t.destroy_signal.foldl reset_libinput_tool_data w)

/-- The handler `handle_tablet_proximity_in`. -/
def handle_tablet_proximity_in (w : World) (libinput_device : Nat)
    (ev : libinput_event) : Option World := do
  let device ← get_device w libinput_device
  let tablet := device.tablet
  let time := ev.time
  let libinput_tool := ev.tool
  match (w.tool_handles libinput_tool).user_data with
  | some tool => pure (notify w (.tablet_proximity_in tablet time tool))
  | none =>
    match malloc w with
    | (none, w1) =>
      pure (weston_log w1 ("failed to allocate memory for a new tablet " ++
        "tool destroy listener, events with this tool will be dropped\n"))
    | (some listener, w1) =>
      match malloc w1 with
      | (none, w2) =>
        pure (weston_log w2 ("failed to allocate memory for a new " ++
          "tablet tool, events from this tool will be dropped\n"))
      | (some tool, w2) =>
        let t ← tablet
        let tab ← w2.tablets t
        let rec_tool : weston_tablet_tool :=
          { type := (w2.tool_handles libinput_tool).type
            serial := (w2.tool_handles libinput_tool).serial
            destroy_signal := [{ addr := listener, tool := libinput_tool }] }
        let s : weston_seat :=
          { w2.seats tab.seat with
            tablet_tool_list := wl_list_insert (w2.seats tab.seat).tablet_tool_list tool }
        let h : Weston.libinput_tool := { w2.tool_handles libinput_tool with user_data := some tool }
        let w3 : World :=
          { w2 with
            tools := setAt w2.tools tool (some rec_tool)
            seats := setAt w2.seats tab.seat s
            tool_handles := setAt w2.tool_handles libinput_tool h }
        pure (notify w3 (.tablet_proximity_in tablet time tool))

/-- The handler `handle_tablet_axis`. -/
def handle_tablet_axis (w : World) (libinput_device : Nat) (ev : libinput_event) :
    Option World := do
  let device ← get_device w libinput_device
  let tablet := device.tablet
  if ev.axis_has_changed .X || ev.axis_has_changed .Y then
    let time := ev.time
    let t ← tablet
    let tab ← w.tablets t
    let output ← tab.output
    let width := (w.outputs output).width
    let height := (w.outputs output).height
    let x := ev.x_transformed width
    let y := ev.y_transformed height
    pure (notify (notify w (.tablet_motion tablet time x y)) (.tablet_frame tablet))
  else
    pure (notify w (.tablet_frame tablet))

/-- The handler `handle_tablet_proximity_out`. -/
def handle_tablet_proximity_out (w : World) (libinput_device : Nat)
    (ev : libinput_event) : Option World := do
  let device ← get_device w libinput_device
  let tablet := device.tablet
  let time := ev.time
  pure (notify w (.tablet_proximity_out tablet time))

/-- The handler `handle_tablet_button`. -/
def handle_tablet_button (w : World) (libinput_device : Nat) (ev : libinput_event) :
    Option World := do
  let device ← get_device w libinput_device
  let tablet := device.tablet
  let time := ev.time
  let button := ev.button
  let state := ev.button_state
  if button ≠ BTN_TOUCH then
    pure (notify w (.tablet_button tablet time button state))
  else
    pure w

/-- The text `weston_log` prints for an event kind without a case. -/
def unknown_event_msg (code : Nat) : String :=
  "unknown libinput event " ++ toString code ++ "\n"

/-- The dispatcher `evdev_device_process_event`: the result is the value of
`handled` and the new state. -/
def evdev_device_process_event (w : World) (event : libinput_event) :
    Option (Int × World) :=
  let libinput_device := event.device
  match event.type with
  | .KEYBOARD_KEY => (handle_keyboard_key w libinput_device event).map (fun w1 => (1, w1))
  | .POINTER_MOTION => (handle_pointer_motion w libinput_device event).map (fun w1 => (1, w1))
  | .POINTER_MOTION_ABSOLUTE =>
    (handle_pointer_motion_absolute w libinput_device event).map (fun w1 => (1, w1))
  | .POINTER_BUTTON => (handle_pointer_button w libinput_device event).map (fun w1 => (1, w1))
  | .POINTER_AXIS => (handle_pointer_axis w libinput_device event).map (fun w1 => (1, w1))
  | .TOUCH_DOWN => (handle_touch_down w libinput_device event).map (fun w1 => (1, w1))
  | .TOUCH_MOTION => (handle_touch_motion w libinput_device event).map (fun w1 => (1, w1))
  | .TOUCH_UP => (handle_touch_up w libinput_device event).map (fun w1 => (1, w1))
  | .TOUCH_FRAME => (handle_touch_frame w libinput_device event).map (fun w1 => (1, w1))
  | .TABLET_AXIS => (handle_tablet_axis w libinput_device event).map (fun w1 => (1, w1))
  | .TABLET_PROXIMITY_IN =>
    (handle_tablet_proximity_in w libinput_device event).map (fun w1 => (1, w1))
  | .TABLET_PROXIMITY_OUT =>
    (handle_tablet_proximity_out w libinput_device event).map (fun w1 => (1, w1))
  | .TABLET_BUTTON => (handle_tablet_button w libinput_device event).map (fun w1 => (1, w1))
  | .OTHER code => some (0, weston_log w (unknown_event_msg code))

/-! ## Output binding of tablets -/

/-- Inserts a tablet at the head of the `tablet_list` of the first listener of
the output-created signal (the one `wl_signal_get` returned). -/
def pending_insert (sig : List tablet_output_listener) (tablet : Nat) :
    List tablet_output_listener :=
  match sig with
  | [] => []
  | l :: rest => { l with tablet_list := wl_list_insert l.tablet_list tablet } :: rest

/-- The function `tablet_bind_output`: the result is the returned integer and
the new state. All three enumerators of the tablet type share one case body.
`wl_signal_get` finds the first listener of the output-created signal whose
callback is `bind_unbound_tablets`; the unchecked `zalloc` of a new listener
is a `NULL` dereference when it fails. The insertion into the pending list is
the one of a tablet whose link is on no list, as it is when
`evdev_device_create` calls the function for a fresh tablet. -/
def tablet_bind_output (w : World) (tablet : Nat) (output : Option Nat) :
    Option (Int × World) := do
  let tab ← w.tablets tablet
  let w0 : World := { w with bind_attempts := w.bind_attempts ++ [tablet] }
  let out : Option Nat :=
    match tab.type with
    | .EXTERNAL | .INTERNAL | .DISPLAY =>
      match output with
      | some o => some o
      | none => if wl_list_empty w0.output_list then tab.output else w0.output_list.head?
  let w1 : World := { w0 with tablets := setAt w0.tablets tablet (some { tab with output := out }) }
  match out with
  | none =>
    match w1.output_created_signal with
    | [] =>
      match malloc w1 with
      | (none, _) => none
      | (some listener, w2) =>
        let l : tablet_output_listener := { addr := listener, tablet_list := [] }
        let w3 : World := { w2 with output_created_signal := w2.output_created_signal ++ [l] }
        pure (0, { w3 with
          output_created_signal := pending_insert w3.output_created_signal tablet
          pend_log := w3.pend_log ++ [tablet] })
    | _ :: _ =>
      pure (0, { w1 with
        output_created_signal := pending_insert w1.output_created_signal tablet
        pend_log := w1.pend_log ++ [tablet] })
  | some _ => pure (1, w1)

/-- The statement `tablet->device->seat_caps |= EVDEV_SEAT_TABLET`. -/
def set_tablet_cap (w : World) (tablet : Nat) : Option World := do
  let tab ← w.tablets tablet
  let d ← tab.device
  let dev ← w.devices d
  let caps : seat_caps := { dev.caps with tablet := true }
  pure { w with devices := setAt w.devices d (some { dev with caps := caps }) }

/-- One round of the loop of `bind_unbound_tablets`, for the tablet the loop
cursor is at. -/
def bind_unbound_tablets_body (data : Option Nat) (w : World) (tablet : Nat) :
    Option World := do
  let r ← tablet_bind_output w tablet data
  if r.1 ≠ 0 then
    let w1 := r.2
    let w2 := wl_list_remove_tablet w1 tablet
    let tab ← w2.tablets tablet
    let w3 := seat_tablet_list_insert w2 tab.seat tablet
    let w4 ← set_tablet_cap w3 tablet
    pure (notify w4 (.tablet_added tablet))
  else
    pure r.2

/-- The loop `wl_list_for_each_safe` of `bind_unbound_tablets` over the members
the list had when the loop reached them. -/
def bind_unbound_tablets_loop (data : Option Nat) : World → List Nat → Option World
  | w, [] => some w
  | w, tablet :: rest =>
    match bind_unbound_tablets_body data w tablet with
    | none => none
    | some w1 => bind_unbound_tablets_loop data w1 rest

/-- The listener callback `bind_unbound_tablets`; `listener` is the address of
the `tablet_output_listener` it is called for and `data` the new output. -/
def bind_unbound_tablets (w : World) (listener : Nat) (data : Option Nat) :
    Option World := do
  let l ← w.output_created_signal.find? (fun l => l.addr == listener)
  let w1 ← bind_unbound_tablets_loop data w l.tablet_list
  let l1 ← w1.output_created_signal.find? (fun l => l.addr == listener)
  if wl_list_empty l1.tablet_list then
    pure { w1 with
      output_created_signal := w1.output_created_signal.eraseP (fun l => l.addr == listener) }
  else
    pure w1

/-- The loop of `wl_signal_emit` over the listeners of the output-created
signal. -/
def output_created_emit_loop (data : Option Nat) : World → List Nat → Option World
  | w, [] => some w
  | w, listener :: rest =>
    match bind_unbound_tablets w listener data with
    | none => none
    | some w1 => output_created_emit_loop data w1 rest

/-- An output-created event: `wl_signal_emit(&compositor->output_created_signal,
output)` runs the callback of every listener that was on the signal. -/
def output_created_emit (w : World) (output : Nat) : Option World :=
  output_created_emit_loop (some output) w (w.output_created_signal.map (fun l => l.addr))

/-! ## Seat functions of the compositor -/

/-- Modelled from the spec: `weston_seat_init_keyboard` of `input.c`, which
raises the count of keyboard devices of the seat by one. -/
def weston_seat_init_keyboard (w : World) (seat : Nat) : World :=
  let s : weston_seat :=
    { w.seats seat with keyboard_device_count := (w.seats seat).keyboard_device_count + 1 }
  { w with seats := setAt w.seats seat s }

/-- Modelled from the spec: `weston_seat_init_pointer` of `input.c`, which
raises the count of pointer devices of the seat by one. -/
def weston_seat_init_pointer (w : World) (seat : Nat) : World :=
  let s : weston_seat :=
    { w.seats seat with pointer_device_count := (w.seats seat).pointer_device_count + 1 }
  { w with seats := setAt w.seats seat s }

/-- Modelled from the spec: `weston_seat_init_touch` of `input.c`, which
raises the count of touch devices of the seat by one. -/
def weston_seat_init_touch (w : World) (seat : Nat) : World :=
  let s : weston_seat :=
    { w.seats seat with touch_device_count := (w.seats seat).touch_device_count + 1 }
  { w with seats := setAt w.seats seat s }

/-- Modelled from the spec: `weston_seat_release_keyboard` of `input.c`, which
lowers the count of keyboard devices of the seat by one. -/
def weston_seat_release_keyboard (w : World) (seat : Nat) : World :=
  let s : weston_seat :=
    { w.seats seat with keyboard_device_count := (w.seats seat).keyboard_device_count - 1 }
  { w with seats := setAt w.seats seat s }

/-- Modelled from the spec: `weston_seat_release_pointer` of `input.c`, which
lowers the count of pointer devices of the seat by one. -/
def weston_seat_release_pointer (w : World) (seat : Nat) : World :=
  let s : weston_seat :=
    { w.seats seat with pointer_device_count := (w.seats seat).pointer_device_count - 1 }
  { w with seats := setAt w.seats seat s }

/-- Modelled from the spec: `weston_seat_release_touch` of `input.c`, which
lowers the count of touch devices of the seat by one. -/
def weston_seat_release_touch (w : World) (seat : Nat) : World :=
  let s : weston_seat :=
    { w.seats seat with touch_device_count := (w.seats seat).touch_device_count - 1 }
  { w with seats := setAt w.seats seat s }

/-- Modelled from the spec: `weston_seat_add_tablet` of `input.c`, which
allocates a zeroed tablet of the seat: no output, no device, on no list. The
type a fresh tablet has is `new_tablet_type`. -/
def weston_seat_add_tablet (w : World) (seat : Nat) : Option Nat × World :=
  match malloc w with
  | (none, w1) => (none, w1)
  | (some t, w1) =>
    (some t, { w1 with tablets := setAt w1.tablets t (some { seat := seat, type := w1.new_tablet_type }) })

/-- Modelled from the spec: `weston_seat_release_tablet` of `input.c`, which
unlinks the tablet from the list it is on and frees it. -/
def weston_seat_release_tablet (w : World) (tablet : Option Nat) : Option World := do
  let t ← tablet
  let _ ← w.tablets t
  let w1 := wl_list_remove_tablet w t
  pure { w1 with tablets := setAt w1.tablets t none }

/-! ## Device lifecycle -/

/-- The tablet part of `evdev_device_create`: the result is the tablet and
whether the tablet capability bit was set. -/
def evdev_device_create_tablet (w : World) (device : Nat) (libinput_device : libinput_device)
    (seat : Nat) : Option (Nat × Bool × World) :=
  match weston_seat_add_tablet w seat with
  | (none, _) => none
  | (some tablet, w1) => do
    let tab ← w1.tablets tablet
    let named : weston_tablet :=
      { tab with
        name := libinput_device.name
        vid := libinput_device.id_vendor
        pid := libinput_device.id_product }
    let w2 : World := { w1 with tablets := setAt w1.tablets tablet (some named) }
    let r ← tablet_bind_output w2 tablet none
    let bound : Bool := decide (r.1 ≠ 0)
    let w3 : World :=
      if bound then notify (seat_tablet_list_insert r.2 seat tablet) (.tablet_added tablet)
      else r.2
    let tab3 ← w3.tablets tablet
    pure (tablet, bound,
      { w3 with tablets := setAt w3.tablets tablet (some { tab3 with device := some device }) })

/-- The function `evdev_device_create`: the result is the returned pointer and
the new state. The device record is written once all its fields are known;
nothing reads it in between. -/
def evdev_device_create (w : World) (libinput_device : libinput_device) (seat : Nat) :
    Option (Option Nat × World) :=
  match malloc w with
  | (none, w1) => some (none, w1)
  | (some device, w1) => do
    let w2 := if libinput_device.cap_keyboard then weston_seat_init_keyboard w1 seat else w1
    let w3 := if libinput_device.cap_pointer then weston_seat_init_pointer w2 seat else w2
    let w4 := if libinput_device.cap_touch then weston_seat_init_touch w3 seat else w3
    let caps : seat_caps :=
      { keyboard := libinput_device.cap_keyboard
        pointer := libinput_device.cap_pointer
        touch := libinput_device.cap_touch }
    let r ← (if libinput_device.cap_tablet then
        (evdev_device_create_tablet w4 device libinput_device seat).map
          (fun q => (some q.1, q.2.1, q.2.2))
      else some (none, false, w4))
    let w5 := r.2.2
    let dev : evdev_device :=
      { seat := seat
        device := libinput_device.id
        caps := { caps with tablet := r.2.1 }
        tablet := r.1 }
    pure (some device,
      { w5 with
        devices := setAt w5.devices device (some dev)
        device_user_data := setAt w5.device_user_data libinput_device.id (some device) })

/-- Unlinks `device->output_destroy_listener.link` from the destroy signal it
is on (`wl_list_remove`). -/
def output_destroy_listener_remove (w : World) (device : Nat) : World :=
  { w with output_destroy_signal := fun o => wl_list_remove (w.output_destroy_signal o) device }

/-- The function `evdev_device_set_output`. Removing a listener link that is on
no list is a `NULL` dereference; `wl_signal_add` links the listener at the end
of the destroy signal of the output. -/
def evdev_device_set_output (w : World) (device : Nat) (output : Nat) : Option World := do
  let dev ← w.devices device
  let w1 ← (if dev.output_destroy_listener.notify then
      match dev.output_destroy_listener.link with
      | some _ => some (output_destroy_listener_remove w device)
      | none => none
    else some w)
  let dev1 : evdev_device :=
    { dev with output := some output, output_destroy_listener := { notify := true, link := some output } }
  pure { w1 with
    devices := setAt w1.devices device (some dev1)
    output_destroy_signal :=
      setAt w1.output_destroy_signal output (w1.output_destroy_signal output ++ [device]) }

/-- The listener callback `notify_output_destroy`, for the device whose
`output_destroy_listener` it is called with. -/
def notify_output_destroy (w : World) (device : Nat) : Option World := do
  let dev ← w.devices device
  if dev.output_name.isNone && !wl_list_empty w.output_list then
    let output ← w.output_list.head?
    evdev_device_set_output w device output
  else
    pure { w with devices := setAt w.devices device (some { dev with output := none }) }

/-- The function `evdev_device_destroy`. Removing a listener link that is on no
list is a `NULL` dereference. -/
def evdev_device_destroy (w : World) (device : Nat) : Option World := do
  let dev ← w.devices device
  let w1 := if dev.caps.pointer then weston_seat_release_pointer w dev.seat else w
  let w2 := if dev.caps.keyboard then weston_seat_release_keyboard w1 dev.seat else w1
  let w3 := if dev.caps.touch then weston_seat_release_touch w2 dev.seat else w2
  let w4 ← (if dev.caps.tablet then weston_seat_release_tablet w3 dev.tablet else some w3)
  let w5 ← (match dev.output with
    | some _ =>
      match dev.output_destroy_listener.link with
      | some _ => some (output_destroy_listener_remove w4 device)
      | none => none
    | none => some w4)
  pure { w5 with devices := setAt w5.devices device none }

/-! ## Runs -/

/-- The calls and events that drive the device layer. The two `output_list`
steps are the compositor changing its list of outputs; `output_destroy_notify`
is the destroy signal of an output reaching the listener of a device. -/
inductive Step
  | create (libinput_device : libinput_device) (seat : Nat)
  | destroy (device : Nat)
  | output_created (output : Nat)
  | output_list_insert (output : Nat)
  | output_list_remove (output : Nat)
  | set_malloc_script (script : List Bool)
  | set_output (device : Nat) (output : Nat)
  | output_destroy_notify (device : Nat)

/-- Whether a step is a call of `evdev_device_destroy`. -/
def Step.isDestroy : Step → Bool
  | .destroy _ => true
  | _ => false

/-- Runs one step. -/
def step (w : World) : Step → Option World
  | .create d seat => (evdev_device_create w d seat).map (fun r => r.2)
  | .destroy device => evdev_device_destroy w device
  | .output_created output => output_created_emit w output
  | .output_list_insert output => some { w with output_list := w.output_list ++ [output] }
  | .output_list_remove output =>
    some { w with output_list := w.output_list.filter (fun x => decide (x ≠ output)) }
  | .set_malloc_script script => some { w with malloc_script := script }
  | .set_output device output => evdev_device_set_output w device output
  | .output_destroy_notify device => notify_output_destroy w device

/-- Runs a sequence of steps, first to last. -/
def run : World → List Step → Option World
  | w, [] => some w
  | w, s :: rest =>
    match step w s with
    | none => none
    | some w1 => run w1 rest

/-- The state at start-up: nothing allocated, no device, no tablet, no
listener, empty lists, empty traces. Output geometry, the type of fresh
tablets, the tool handles of libinput and the allocator script are free. -/
def World.start (outputs : Nat → weston_output) (ty : wl_tablet_manager_tablet_type)
    (handles : Nat → libinput_tool) (script : List Bool) : World :=
  { outputs := outputs, new_tablet_type := ty, tool_handles := handles, malloc_script := script }

/-! ## Vocabulary of the statements -/

/-- The thirteen event kinds the dispatcher has a case for. -/
def recognised_kinds : List libinput_event_type :=
  [.KEYBOARD_KEY, .POINTER_MOTION, .POINTER_MOTION_ABSOLUTE, .POINTER_BUTTON, .POINTER_AXIS,
   .TOUCH_DOWN, .TOUCH_MOTION, .TOUCH_UP, .TOUCH_FRAME,
   .TABLET_AXIS, .TABLET_PROXIMITY_IN, .TABLET_PROXIMITY_OUT, .TABLET_BUTTON]

/-- What the handler of an event dereferences is there: the device record of
the libinput device, for a tablet axis event with X or Y changed the tablet and
its output, and for a proximity-in event the tablet. -/
def handler_ready (w : World) (event : libinput_event) : Prop :=
  ∃ device, get_device w event.device = some device ∧
    (event.type = .TABLET_AXIS →
      (event.axis_has_changed .X || event.axis_has_changed .Y) = true →
      ∃ t tab o, device.tablet = some t ∧ w.tablets t = some tab ∧ tab.output = some o) ∧
    (event.type = .TABLET_PROXIMITY_IN →
      ∃ t tab, device.tablet = some t ∧ w.tablets t = some tab)

/-- Recognises a `notify_tablet_motion` record. -/
def Notification.is_tablet_motion : Notification → Bool
  | .tablet_motion _ _ _ _ => true
  | _ => false

/-- Recognises a `notify_tablet_frame` record. -/
def Notification.is_tablet_frame : Notification → Bool
  | .tablet_frame _ => true
  | _ => false

/-- No call of `malloc` or `zalloc` fails from this state on. -/
def no_malloc_failure (w : World) : Prop := ∀ b ∈ w.malloc_script, b = true

/-- A sample state: device 1 of libinput device 10 on seat 0, bound to output 7,
with tablet 2 bound to output 7 and on the tablet list of seat 0. -/
def demo_world : World :=
  { next_addr := 3
    output_list := [7]
    outputs := fun _ => { width := 800, height := 600 }
    seats := setAt (fun _ => {}) 0 { tablet_list := [2] }
    devices := setAt (fun _ => none) 1
      (some { seat := 0, device := 10, caps := { tablet := true }, output := some 7,
              tablet := some 2 })
    device_user_data := setAt (fun _ => none) 10 (some 1)
    tablets := setAt (fun _ => none) 2
      (some { seat := 0, type := .EXTERNAL, output := some 7, device := some 1 }) }

/-- The device record of `demo_world`. -/
def demo_device : evdev_device :=
  { seat := 0, device := 10, caps := { tablet := true }, output := some 7, tablet := some 2 }

/-- The tablet record of `demo_world`. -/
def demo_tablet : weston_tablet :=
  { seat := 0, type := .EXTERNAL, output := some 7, device := some 1 }

/-- The invariant of the tablet lists. A live tablet is on the pending list or
on the tablet list of its seat, not on both, and on the tablet list of no other
seat; a tablet that is not live is on no list; no list has a member twice; the
output-created signal has at most one listener; `notify_tablet_added` was
emitted never for a pending tablet, once for a tablet on a seat list and at most
once for any tablet; the pending list holds its members in the reverse of the
order they were put on it. -/
structure Inv (w : World) : Prop where
  live_one : ∀ t tab, w.tablets t = some tab →
    t ∈ pending w ∨ t ∈ (w.seats tab.seat).tablet_list
  live_not_both : ∀ t tab, w.tablets t = some tab → t ∈ pending w →
    t ∉ (w.seats tab.seat).tablet_list
  live_seat : ∀ t tab s, w.tablets t = some tab → s ≠ tab.seat →
    t ∉ (w.seats s).tablet_list
  dead_out : ∀ t, w.tablets t = none → t ∉ pending w ∧ ∀ s, t ∉ (w.seats s).tablet_list
  fresh : ∀ t, w.next_addr ≤ t → w.tablets t = none
  pending_nodup : (pending w).Nodup
  seat_nodup : ∀ s, (w.seats s).tablet_list.Nodup
  one_listener : w.output_created_signal.length ≤ 1
  added_le : ∀ t, w.notifications.count (.tablet_added t) ≤ 1
  added_pending : ∀ t, t ∈ pending w → w.notifications.count (.tablet_added t) = 0
  added_fresh : ∀ t, w.next_addr ≤ t → w.notifications.count (.tablet_added t) = 0
  added_active : ∀ t tab, w.tablets t = some tab → t ∈ (w.seats tab.seat).tablet_list →
    w.notifications.count (.tablet_added t) = 1
  log_nodup : w.pend_log.Nodup
  log_lt : ∀ t, t ∈ w.pend_log → t < w.next_addr
  pending_log : (pending w).Sublist w.pend_log.reverse

/-- The states the device layer can be in: those a run from a start state
ends in. -/
def Reachable (w : World) : Prop :=
  ∃ outputs ty handles script steps, run (World.start outputs ty handles script) steps = some w

/-- The seat of a tablet, when the tablet is live. -/
def tablet_seat (w : World) (t : Nat) : Option Nat := (w.tablets t).map (fun tab => tab.seat)

/-- Two states agree on everything the binding of tablets reads or writes,
apart from the allocator and the device records. -/
structure Agree (w w1 : World) : Prop where
  output_list : w1.output_list = w.output_list
  signal : w1.output_created_signal = w.output_created_signal
  seats : ∀ s, (w1.seats s).tablet_list = (w.seats s).tablet_list
  tablets : w1.tablets = w.tablets
  notifications : w1.notifications = w.notifications
  bind_attempts : w1.bind_attempts = w.bind_attempts
  pend_log : w1.pend_log = w.pend_log

/-- Every pending tablet is live and points to a device that is live. -/
def pending_devices_live (w : World) : Prop :=
  ∀ t, t ∈ pending w → ∃ tab d dev,
    w.tablets t = some tab ∧ tab.device = some d ∧ w.devices d = some dev

/-- A sample start state: all outputs 800 by 600, fresh tablets external, no
allocation failure. -/
def demo_start : World :=
  World.start (fun _ => { width := 800, height := 600 }) .EXTERNAL (fun _ => {}) []

/-- A libinput device with tablet capability only. -/
def demo_tablet_ld (i : Nat) : libinput_device := { id := i, cap_tablet := true }

/-- One tablet device is created while no output exists. -/
def demo_steps_one : List Step := [.create (demo_tablet_ld 10) 0]

/-- The state after `demo_steps_one`: device 1, tablet 2 pending, listener 3. -/
def demo_one_pending : World := (run demo_start demo_steps_one).getD demo_start

/-- Two tablet devices are created while no output exists. -/
def demo_steps_two : List Step :=
  [.create (demo_tablet_ld 10) 0, .create (demo_tablet_ld 11) 0]

/-- The state after `demo_steps_two`: tablet 2 (device 1) was put on the pending
list first, tablet 5 (device 4) second. -/
def demo_two_pending : World := (run demo_start demo_steps_two).getD demo_start

/-- A sample state with output 7 and a live tablet 2 of seat 0 that has no
output and is on no list. -/
def demo_unbound_world : World :=
  { next_addr := 3
    output_list := [7]
    tablets := setAt (fun _ => none) 2 (some { seat := 0, type := .INTERNAL }) }

/-- A sample state without outputs and a live tablet 2 of seat 0 that has no
output and is on no list. -/
def demo_unbound_no_output : World :=
  { next_addr := 3
    tablets := setAt (fun _ => none) 2 (some { seat := 0, type := .DISPLAY }) }

/-- The link of the tablet is on no list: neither on a pending list nor on the
tablet list of a seat. -/
def tablet_unlinked (w : World) (t : Nat) : Prop :=
  t ∉ pending w ∧ ∀ s, t ∉ (w.seats s).tablet_list

/-- A libinput device with keyboard capability only. -/
def demo_keyboard_ld (i : Nat) : libinput_device := { id := i, cap_keyboard := true }

/-- Outputs 7 and 8 exist, device 1 is created and bound to output 7, then
output 7 leaves the output list. -/
def demo_steps_bound : List Step :=
  [.output_list_insert 7, .output_list_insert 8, .create (demo_keyboard_ld 10) 0,
   .set_output 1 7, .output_list_remove 7]

/-- The state after `demo_steps_bound`: device 1 on output 7, its listener on
the destroy signal of output 7, output list `[8]`. -/
def demo_bound_world : World := (run demo_start demo_steps_bound).getD demo_start

/-- Device 1 is created and bound to output 7 while the output list is empty. -/
def demo_steps_bound_alone : List Step :=
  [.create (demo_keyboard_ld 10) 0, .set_output 1 7]

/-- The state after `demo_steps_bound_alone`. -/
def demo_bound_alone : World := (run demo_start demo_steps_bound_alone).getD demo_start

/-- What the seat counts and the tablet lists depend on in a device record: its
seat, its keyboard, pointer and touch capability bits and its tablet. -/
def device_view (dev : evdev_device) : Nat × Bool × Bool × Bool × Option Nat :=
  (dev.seat, dev.caps.keyboard, dev.caps.pointer, dev.caps.touch, dev.tablet)

/-- Two states have the same devices up to the tablet capability bit and the
output fields, and the same device counts on every seat. -/
structure Frame (w w1 : World) : Prop where
  devices : ∀ d, (w1.devices d).map device_view = (w.devices d).map device_view
  keyboard : ∀ s, (w1.seats s).keyboard_device_count = (w.seats s).keyboard_device_count
  pointer : ∀ s, (w1.seats s).pointer_device_count = (w.seats s).pointer_device_count
  touch : ∀ s, (w1.seats s).touch_device_count = (w.seats s).touch_device_count
  next_addr : w.next_addr ≤ w1.next_addr

/-- Whether address `d` holds a live device of seat `s` with capability `cap`. -/
def has_cap (w : World) (cap : seat_caps → Bool) (s d : Nat) : Bool :=
  match w.devices d with
  | some dev => decide (dev.seat = s) && cap dev.caps
  | none => false

/-- The number of live devices of seat `s` with capability `cap`, counted over
the addresses handed out so far. -/
def live_count (w : World) (cap : seat_caps → Bool) (s : Nat) : Nat :=
  (List.range w.next_addr).countP (has_cap w cap s)

/-- The invariant of the device counts: no device lives at an address not yet
handed out, and each count of each seat is the number of live devices of the
seat with that capability. -/
structure CountInv (w : World) : Prop where
  fresh : ∀ d, w.next_addr ≤ d → w.devices d = none
  keyboard : ∀ s, (w.seats s).keyboard_device_count =
    ((live_count w (fun c => c.keyboard) s : Nat) : Int)
  pointer : ∀ s, (w.seats s).pointer_device_count =
    ((live_count w (fun c => c.pointer) s : Nat) : Int)
  touch : ∀ s, (w.seats s).touch_device_count =
    ((live_count w (fun c => c.touch) s : Nat) : Int)

/-! ## Keyboard focus -/

/-- The constant `KEY_CNT` of `linux/input.h`. -/
def KEY_CNT : Nat := 0x300

/-- The length `(KEY_CNT + 7) / 8` of the arrays `evdev_keys` and `all_keys`. -/
def evdev_keys_length : Nat := (KEY_CNT + 7) / 8

/-- A `struct wl_array` of `uint32_t` entries: the bytes in use, the bytes
allocated and the entries stored so far. -/
structure wl_array where
  size : Nat := 0
  alloc : Nat := 0
  data : List Nat := []
  deriving DecidableEq, Repr

/-- The loop `while (alloc < array->size + size) alloc *= 2` of
`wl_array_add`; the first argument bounds the number of rounds. -/
def wl_array_add_alloc : Nat → Nat → Nat → Nat
  | 0, alloc, _ => alloc
  | fuel + 1, alloc, need =>
    if alloc < need then wl_array_add_alloc fuel (alloc * 2) need else alloc

/-- The function `wl_array_add` of libwayland called for one `uint32_t`,
together with the store `*k = v` through the pointer it returns. The array
grows from 16 bytes by doubling; when it has to grow the allocator is asked,
and when that fails `wl_array_add` returns `NULL` and the store is a `NULL`
dereference. -/
def wl_array_add (w : World) (array : wl_array) (v : Nat) : Option (wl_array × World) :=
  let alloc0 : Nat := if array.alloc > 0 then array.alloc else 16
  let alloc : Nat := wl_array_add_alloc (array.size + 4) alloc0 (array.size + 4)
  if array.alloc < alloc then
    match malloc w with
    | (none, _) => none
    | (some _, w1) =>
      some ({ size := array.size + 4, alloc := alloc, data := array.data ++ [v] }, w1)
  else
    some ({ array with size := array.size + 4, data := array.data ++ [v] }, w)

/-- The text `weston_log` prints for a device whose keys cannot be read. -/
def failed_keys_msg (devnode : Option String) : String :=
  "failed to get keys for device " ++ devnode.getD "(null)" ++ "\n"

/-- The loop of `evdev_notify_keyboard_focus` over the devices of the list:
each device is asked for its key bitmap, which a successful query merges into
`all_keys` byte by byte; a failing query is logged and the device skipped. -/
def keyboard_focus_devices : World → (Nat → Nat) → List Nat → Option (World × (Nat → Nat))
  | w, all_keys, [] => some (w, all_keys)
  | w, all_keys, device :: rest =>
    match w.devices device with
    | none => none
    | some dev =>
      let ret : Int := (w.device_keys dev.device).1
      let evdev_keys : Nat → Nat :=
        fun i => if i < evdev_keys_length then (w.device_keys dev.device).2 i % 256 else 0
      if ret < 0 then
        keyboard_focus_devices (weston_log w (failed_keys_msg dev.devnode)) all_keys rest
      else
        keyboard_focus_devices w
          (fun i => if i < evdev_keys_length then all_keys i ||| evdev_keys i else all_keys i)
          rest

/-- The loop of `evdev_notify_keyboard_focus` over the key codes: a code whose
bit is set in `all_keys` is added to the array `keys`. -/
def keyboard_focus_keys : (Nat → Nat) → World → wl_array → List Nat → Option (World × wl_array)
  | _, w, keys, [] => some (w, keys)
  | all_keys, w, keys, i :: rest =>
    let set : Nat := all_keys (i >>> 3) &&& (1 <<< (i &&& 7))
    if set ≠ 0 then
      match wl_array_add w keys i with
      | none => none
      | some (keys1, w1) => keyboard_focus_keys all_keys w1 keys1 rest
    else
      keyboard_focus_keys all_keys w keys rest

/-- The function `evdev_notify_keyboard_focus`. The test
`!seat->keyboard_device_count > 0` negates the count first, so it holds exactly
when the count is 0. -/
def evdev_notify_keyboard_focus (w : World) (seat : Nat) (evdev_devices : List Nat) :
    Option World :=
  let not_count : Int := if (w.seats seat).keyboard_device_count = 0 then 1 else 0
  if not_count > 0 then
    some w
  else
    match keyboard_focus_devices w (fun _ => 0) evdev_devices with
    | none => none
    | some (w1, all_keys) =>
      match keyboard_focus_keys all_keys w1 {} (List.range KEY_CNT) with
      | none => none
      | some (w2, keys) =>
        some (notify w2 (.keyboard_focus_in seat keys.data .STATE_UPDATE_AUTOMATIC))

/-- The key bitmap of a sample device: the bytes 0, 3 and 95 are given. -/
def demo_bitmap (b0 b3 b95 : Nat) : Nat → Nat :=
  fun i => if i = 0 then b0 else if i = 3 then b3 else if i = 95 then b95 else 0

/-- A sample state with three keyboards on seat 0: device 1 holds the keys 1, 2
and 24, the query of device 2 fails, device 3 holds the keys 2 and 767. -/
def demo_keys_world : World :=
  { next_addr := 4
    seats := fun s => if s = 0 then { keyboard_device_count := 3 } else {}
    devices := fun d =>
      if d = 1 ∨ d = 2 ∨ d = 3 then
        some { seat := 0, device := d + 10, caps := { keyboard := true } }
      else none
    device_keys := fun h =>
      if h = 11 then (0, demo_bitmap 6 1 0)
      else if h = 12 then (-1, demo_bitmap 32 0 0)
      else if h = 13 then (0, demo_bitmap 4 0 128)
      else (0, fun _ => 0) }

/-! ## Theorems: the dispatcher and the stateless handlers -/

theorem malloc_tablets (w : World) : (malloc w).2.tablets = w.tablets := by
  unfold malloc
  split <;> rfl

theorem malloc_cases (w : World) :
    (∃ rest, w.malloc_script = false :: rest ∧
      malloc w = (none, { w with malloc_script := rest })) ∨
    (malloc w = (some w.next_addr,
      { w with malloc_script := w.malloc_script.tail, next_addr := w.next_addr + 1 }) ∧
      w.malloc_script.head? ≠ some false) := by
  unfold malloc
  rcases h : w.malloc_script with _ | ⟨b, rest⟩
  · right; simp
  · cases b
    · left; exact ⟨rest, rfl, rfl⟩
    · right; simp

/-- C1: `evdev_device_process_event` returns 1 exactly for the thirteen kinds it
has a case for and 0 for every other kind; for another kind it always returns,
and the state it leaves differs from the one it found only by one more log
line; for a recognised kind it returns whenever what its handler dereferences
is there. -/
theorem process_event_handled (w : World) (event : libinput_event) :
    (∀ r w1, evdev_device_process_event w event = some (r, w1) →
      (r = 1 ↔ event.type ∈ recognised_kinds) ∧ (r = 0 ↔ event.type ∉ recognised_kinds)) ∧
    (event.type ∉ recognised_kinds →
      ∃ code, event.type = .OTHER code ∧
        evdev_device_process_event w event =
          some (0, { w with log := w.log ++ [unknown_event_msg code] })) ∧
    (event.type ∈ recognised_kinds → handler_ready w event →
      ∃ w1, evdev_device_process_event w event = some (1, w1)) := by
  refine ⟨?_, ?_, ?_⟩
  · intro r w1 h
    unfold evdev_device_process_event at h
    cases ht : event.type
    case OTHER code =>
      simp only [ht, Option.some.injEq, Prod.mk.injEq] at h
      obtain ⟨h1, _⟩ := h
      subst h1
      simp [recognised_kinds]
    all_goals
      simp only [ht, Option.map_eq_some', Prod.mk.injEq] at h
      obtain ⟨_, _, h1, _⟩ := h
      subst h1
      simp [recognised_kinds]
  · intro h
    cases ht : event.type <;> simp [ht, recognised_kinds] at h
    rename_i code
    exact ⟨code, rfl, by simp [evdev_device_process_event, ht, weston_log]⟩
  · rintro hmem ⟨device, hd, hax, hprox⟩
    unfold evdev_device_process_event
    cases ht : event.type
    case OTHER code => simp [ht, recognised_kinds] at hmem
    case POINTER_MOTION_ABSOLUTE =>
      cases ho : device.output <;> simp [handle_pointer_motion_absolute, hd, ho]
    case TOUCH_DOWN =>
      cases ho : device.output <;> simp [handle_touch_down, handle_touch_with_coords, hd, ho]
    case TOUCH_MOTION =>
      cases ho : device.output <;> simp [handle_touch_motion, handle_touch_with_coords, hd, ho]
    case TABLET_AXIS =>
      by_cases hc : (event.axis_has_changed .X || event.axis_has_changed .Y) = true
      · obtain ⟨t, tab, o, h1, h2, h3⟩ := hax ht hc
        simp [handle_tablet_axis, hd, hc, h1, h2, h3]
      · simp [handle_tablet_axis, hd, hc]
    case TABLET_PROXIMITY_IN =>
      obtain ⟨t, tab, h1, h2⟩ := hprox ht
      simp only [handle_tablet_proximity_in, hd, Option.bind_eq_bind, Option.some_bind,
        Option.pure_def]
      cases hu : (w.tool_handles event.tool).user_data
      · rcases hm : malloc w with ⟨_ | listener, w1⟩
        · simp
        · rcases hm2 : malloc w1 with ⟨_ | tool, w2⟩
          · simp [hm2]
          · have e1 : w1.tablets = w.tablets := by
              have := malloc_tablets w
              rw [hm] at this
              exact this
            have e2 : w2.tablets = w1.tablets := by
              have := malloc_tablets w1
              rw [hm2] at this
              exact this
            simp [hm2, h1, e2, e1, h2]
      · simp
    case TABLET_BUTTON =>
      by_cases hb : event.button = BTN_TOUCH <;> simp [handle_tablet_button, hd, hb]
    all_goals simp [handle_keyboard_key, handle_pointer_motion, handle_pointer_button,
      handle_pointer_axis, handle_touch_up, handle_touch_frame, handle_tablet_proximity_out, hd]

theorem demo_get_device : get_device demo_world 10 = some demo_device := by
  simp [get_device, demo_world, demo_device, setAt]

theorem demo_tablets : demo_world.tablets 2 = some demo_tablet := by
  simp [demo_world, demo_tablet, setAt]

/-- Witness of C1: an event of kind `OTHER 3` is answered with 0 and a log line,
and a touch-down event for the sample device is answered with 1. -/
theorem process_event_handled_witness :
    (∃ code, (libinput_event_type.OTHER 3) = .OTHER code ∧
      evdev_device_process_event demo_world { type := .OTHER 3, device := 10 } =
        some (0, { demo_world with log := demo_world.log ++ [unknown_event_msg code] })) ∧
    (∃ w1, evdev_device_process_event demo_world { type := .TOUCH_DOWN, device := 10 } =
      some (1, w1)) :=
  ⟨(process_event_handled demo_world { type := .OTHER 3, device := 10 }).2.1
      (by simp [recognised_kinds]),
   (process_event_handled demo_world { type := .TOUCH_DOWN, device := 10 }).2.2
      (by simp [recognised_kinds])
      ⟨demo_device, demo_get_device, by simp, by simp⟩⟩

/-- C2: for a device without output, the handlers of pointer absolute motion,
touch down and touch motion return the state they were given (no notification,
nothing changed); for a device with an output each of them adds exactly one
notification and changes nothing else: `notify_motion_absolute`, `notify_touch`
tagged DOWN, `notify_touch` tagged MOTION. -/
theorem absolute_events_need_output (w : World) (event : libinput_event)
    (device : evdev_device) (hd : get_device w event.device = some device) :
    (device.output = none →
      handle_pointer_motion_absolute w event.device event = some w ∧
      handle_touch_down w event.device event = some w ∧
      handle_touch_motion w event.device event = some w ∧
      (event.type = .POINTER_MOTION_ABSOLUTE ∨ event.type = .TOUCH_DOWN ∨
        event.type = .TOUCH_MOTION → evdev_device_process_event w event = some (1, w))) ∧
    (∀ output, device.output = some output →
      ∃ ax ay tx ty,
        handle_pointer_motion_absolute w event.device event =
          some { w with notifications :=
            w.notifications ++ [.motion_absolute device.seat event.time ax ay] } ∧
        handle_touch_down w event.device event =
          some { w with notifications :=
            w.notifications ++
              [.touch device.seat event.time event.seat_slot tx ty .WL_TOUCH_DOWN] } ∧
        handle_touch_motion w event.device event =
          some { w with notifications :=
            w.notifications ++
              [.touch device.seat event.time event.seat_slot tx ty .WL_TOUCH_MOTION] }) := by
  refine ⟨?_, ?_⟩
  · intro ho
    have h1 : handle_pointer_motion_absolute w event.device event = some w := by
      simp [handle_pointer_motion_absolute, hd, ho]
    have h2 : handle_touch_down w event.device event = some w := by
      simp [handle_touch_down, handle_touch_with_coords, hd, ho]
    have h3 : handle_touch_motion w event.device event = some w := by
      simp [handle_touch_motion, handle_touch_with_coords, hd, ho]
    refine ⟨h1, h2, h3, ?_⟩
    rintro (ht | ht | ht) <;> simp [evdev_device_process_event, ht, h1, h2, h3]
  · intro output ho
    refine ⟨((w.outputs output).transform
        (event.absolute_x_transformed (w.outputs output).width)
        (event.absolute_y_transformed (w.outputs output).height)).1,
      ((w.outputs output).transform
        (event.absolute_x_transformed (w.outputs output).width)
        (event.absolute_y_transformed (w.outputs output).height)).2,
      ((w.outputs output).transform
        (event.x_transformed (w.outputs output).width)
        (event.y_transformed (w.outputs output).height)).1,
      ((w.outputs output).transform
        (event.x_transformed (w.outputs output).width)
        (event.y_transformed (w.outputs output).height)).2, ?_, ?_, ?_⟩
    · simp [handle_pointer_motion_absolute, hd, ho, notify]
    · simp [handle_touch_down, handle_touch_with_coords, hd, ho, notify]
    · simp [handle_touch_motion, handle_touch_with_coords, hd, ho, notify]

/-- Witness of C2: the sample device has output 7, so a touch-down event adds
one `notify_touch` tagged DOWN. -/
theorem absolute_events_need_output_witness :
    ∃ ax ay tx ty,
      handle_pointer_motion_absolute demo_world 10 { type := .TOUCH_DOWN, device := 10 } =
        some { demo_world with notifications :=
          demo_world.notifications ++ [.motion_absolute 0 0 ax ay] } ∧
      handle_touch_down demo_world 10 { type := .TOUCH_DOWN, device := 10 } =
        some { demo_world with notifications :=
          demo_world.notifications ++ [.touch 0 0 0 tx ty .WL_TOUCH_DOWN] } ∧
      handle_touch_motion demo_world 10 { type := .TOUCH_DOWN, device := 10 } =
        some { demo_world with notifications :=
          demo_world.notifications ++ [.touch 0 0 0 tx ty .WL_TOUCH_MOTION] } :=
  (absolute_events_need_output demo_world { type := .TOUCH_DOWN, device := 10 } demo_device
    demo_get_device).2 7 rfl

/-- C3: on a tablet with a bound output `handle_tablet_axis` returns, and the
notifications it adds are the frame notification alone when neither X nor Y
changed and one motion notification followed by the frame notification when X
or Y changed: exactly one frame, emitted last, and a motion (exactly one)
if and only if X or Y changed. An event where only pressure changed adds the
frame notification alone. -/
theorem tablet_axis_frame_last (w : World) (event : libinput_event) (device : evdev_device)
    (t : Nat) (tab : weston_tablet) (o : Nat)
    (hd : get_device w event.device = some device) (ht : device.tablet = some t)
    (htab : w.tablets t = some tab) (ho : tab.output = some o) :
    ∃ new : List Notification,
      handle_tablet_axis w event.device event =
        some { w with notifications := w.notifications ++ new } ∧
      new.countP Notification.is_tablet_frame = 1 ∧
      new.getLast? = some (.tablet_frame (some t)) ∧
      (new.countP Notification.is_tablet_motion = 1 ↔
        (event.axis_has_changed .X = true ∨ event.axis_has_changed .Y = true)) ∧
      (new.countP Notification.is_tablet_motion = 0 ↔
        ¬ (event.axis_has_changed .X = true ∨ event.axis_has_changed .Y = true)) ∧
      (∀ n ∈ new.dropLast, n.is_tablet_motion = true) ∧
      ((∀ a, event.axis_has_changed a = true → a = .PRESSURE) →
        new = [.tablet_frame (some t)]) := by
  by_cases hc : (event.axis_has_changed .X || event.axis_has_changed .Y) = true
  · have hc1 : event.axis_has_changed .X = true ∨ event.axis_has_changed .Y = true := by
      simpa using hc
    refine ⟨[.tablet_motion (some t) event.time (event.x_transformed (w.outputs o).width)
        (event.y_transformed (w.outputs o).height), .tablet_frame (some t)], ?_, ?_, ?_, ?_, ?_,
        ?_, ?_⟩
    · simp [handle_tablet_axis, hd, hc, ht, htab, ho, notify]
    · simp [List.countP_cons, Notification.is_tablet_frame]
    · simp
    · exact ⟨fun _ => hc1, fun _ => by simp [List.countP_cons, Notification.is_tablet_motion]⟩
    · constructor
      · intro h
        simp [List.countP_cons, Notification.is_tablet_motion] at h
      · intro h
        exact absurd hc1 h
    · simp [Notification.is_tablet_motion]
    · intro hp
      rcases hc1 with hx | hy
      · exact absurd (hp _ hx) (by decide)
      · exact absurd (hp _ hy) (by decide)
  · have hc1 : ¬ (event.axis_has_changed .X = true ∨ event.axis_has_changed .Y = true) := by
      simpa using hc
    refine ⟨[.tablet_frame (some t)], ?_, ?_, ?_, ?_, ?_, ?_, ?_⟩
    · simp [handle_tablet_axis, hd, hc, ht, notify]
    · simp [List.countP_cons, Notification.is_tablet_frame]
    · simp
    · constructor
      · intro h
        simp [List.countP_cons, Notification.is_tablet_motion] at h
      · intro h
        exact absurd h hc1
    · exact ⟨fun _ => hc1, fun _ => by simp [List.countP_cons, Notification.is_tablet_motion]⟩
    · simp
    · intro _
      rfl

/-- Witness of C3: a pressure-only axis event on the sample tablet. -/
theorem tablet_axis_frame_last_witness :
    ∃ new : List Notification,
      handle_tablet_axis demo_world 10
          { type := .TABLET_AXIS, device := 10,
            axis_has_changed := fun a => decide (a = .PRESSURE) } =
        some { demo_world with notifications := demo_world.notifications ++ new } ∧
      new.countP Notification.is_tablet_frame = 1 ∧
      new.getLast? = some (.tablet_frame (some 2)) ∧
      (new.countP Notification.is_tablet_motion = 1 ↔
        (decide (libinput_tablet_axis.X = .PRESSURE) = true ∨
          decide (libinput_tablet_axis.Y = .PRESSURE) = true)) ∧
      (new.countP Notification.is_tablet_motion = 0 ↔
        ¬ (decide (libinput_tablet_axis.X = .PRESSURE) = true ∨
          decide (libinput_tablet_axis.Y = .PRESSURE) = true)) ∧
      (∀ n ∈ new.dropLast, n.is_tablet_motion = true) ∧
      ((∀ a : libinput_tablet_axis, decide (a = .PRESSURE) = true → a = .PRESSURE) →
        new = [.tablet_frame (some 2)]) :=
  tablet_axis_frame_last demo_world
    { type := .TABLET_AXIS, device := 10, axis_has_changed := fun a => decide (a = .PRESSURE) }
    demo_device 2 demo_tablet 7 demo_get_device rfl demo_tablets rfl

/-- C4: `handle_tablet_button` adds exactly one `notify_tablet_button` with the
time, button code and button state of the event when the button is not
`BTN_TOUCH`, and returns the state it was given when the button is
`BTN_TOUCH`. -/
theorem tablet_button_forwarded (w : World) (event : libinput_event) (device : evdev_device)
    (hd : get_device w event.device = some device) :
    (event.button ≠ BTN_TOUCH →
      handle_tablet_button w event.device event =
        some { w with notifications := w.notifications ++
          [.tablet_button device.tablet event.time event.button event.button_state] }) ∧
    (event.button = BTN_TOUCH → handle_tablet_button w event.device event = some w) := by
  constructor
  · intro hb
    simp [handle_tablet_button, hd, hb, notify]
  · intro hb
    simp [handle_tablet_button, hd, hb]

/-- Witness of C4: button 0x14b is forwarded, `BTN_TOUCH` is not. -/
theorem tablet_button_forwarded_witness :
    handle_tablet_button demo_world 10
        { type := .TABLET_BUTTON, device := 10, time := 5, button := 0x14b, button_state := 1 } =
      some { demo_world with notifications := demo_world.notifications ++
        [.tablet_button (some 2) 5 0x14b 1] } ∧
    handle_tablet_button demo_world 10
        { type := .TABLET_BUTTON, device := 10, time := 5, button := BTN_TOUCH,
          button_state := 1 } = some demo_world :=
  ⟨(tablet_button_forwarded demo_world
      { type := .TABLET_BUTTON, device := 10, time := 5, button := 0x14b, button_state := 1 }
      demo_device demo_get_device).1 (by decide),
   (tablet_button_forwarded demo_world
      { type := .TABLET_BUTTON, device := 10, time := 5, button := BTN_TOUCH, button_state := 1 }
      demo_device demo_get_device).2 rfl⟩

/-! ## Theorems: the tool registry -/

theorem malloc_ok (w : World) (h : no_malloc_failure w) :
    malloc w = (some w.next_addr,
      { w with malloc_script := w.malloc_script.tail, next_addr := w.next_addr + 1 }) := by
  rcases malloc_cases w with ⟨rest, hr, -⟩ | ⟨hm, -⟩
  · have := h false (by simp [hr])
    simp at this
  · exact hm

theorem no_malloc_failure_tail (w w1 : World) (h : no_malloc_failure w)
    (e : w1.malloc_script = w.malloc_script.tail) : no_malloc_failure w1 := by
  intro b hb
  rw [e] at hb
  exact h b (List.mem_of_mem_tail hb)

/-- What `handle_tablet_proximity_in` does for a tool handle without user data
when both allocations succeed. -/
theorem proximity_in_create (w : World) (ev : libinput_event) (device : evdev_device)
    (t : Nat) (tab : weston_tablet)
    (hd : get_device w ev.device = some device) (ht : device.tablet = some t)
    (htab : w.tablets t = some tab) (hu : (w.tool_handles ev.tool).user_data = none)
    (hok : no_malloc_failure w) :
    ∃ w1, handle_tablet_proximity_in w ev.device ev = some w1 ∧
      w1.next_addr = w.next_addr + 2 ∧
      w1.malloc_script = w.malloc_script.tail.tail ∧
      w1.tools = setAt w.tools (w.next_addr + 1)
        (some { type := (w.tool_handles ev.tool).type
                serial := (w.tool_handles ev.tool).serial
                destroy_signal := [{ addr := w.next_addr, tool := ev.tool }] }) ∧
      w1.seats = setAt w.seats tab.seat
        { w.seats tab.seat with
          tablet_tool_list := (w.next_addr + 1) :: (w.seats tab.seat).tablet_tool_list } ∧
      w1.tool_handles = setAt w.tool_handles ev.tool
        { w.tool_handles ev.tool with user_data := some (w.next_addr + 1) } ∧
      w1.notifications =
        w.notifications ++ [.tablet_proximity_in (some t) ev.time (w.next_addr + 1)] ∧
      w1.tablets = w.tablets ∧ w1.devices = w.devices ∧
      w1.device_user_data = w.device_user_data := by
  have hok1 : no_malloc_failure
      { w with malloc_script := w.malloc_script.tail, next_addr := w.next_addr + 1 } :=
    no_malloc_failure_tail w _ hok rfl
  have m1 := malloc_ok w hok
  have m2 := malloc_ok _ hok1
  simp only [handle_tablet_proximity_in, hd, Option.bind_eq_bind, Option.some_bind,
    Option.pure_def, hu, m1, m2, ht, htab]
  exact ⟨_, rfl, rfl, rfl, rfl, rfl, rfl, rfl, rfl, rfl, rfl⟩

/-- What `handle_tablet_proximity_in` does for a tool handle that has user
data: it only notifies, with the tool the user data points to. -/
theorem proximity_in_reuse (w : World) (ev : libinput_event) (device : evdev_device)
    (tool : Nat) (hd : get_device w ev.device = some device)
    (hu : (w.tool_handles ev.tool).user_data = some tool) :
    handle_tablet_proximity_in w ev.device ev =
      some { w with notifications :=
        w.notifications ++ [.tablet_proximity_in device.tablet ev.time tool] } := by
  simp [handle_tablet_proximity_in, hd, hu, notify]

theorem setAt_same {α : Type} (f : Nat → α) (i : Nat) (v : α) : setAt f i v i = v := by
  simp [setAt]

theorem setAt_other {α : Type} (f : Nat → α) (i j : Nat) (v : α) (h : j ≠ i) :
    setAt f i v j = f j := by
  simp [setAt, h]

theorem demo_no_malloc_failure : no_malloc_failure demo_world := by
  intro b hb
  simp [demo_world] at hb

/-- C5: a first proximity-in event for a tool handle without user data, with no
allocation failure, creates one tool record, with the type and serial of the
handle, puts it at the head of the tool list of the tablet's seat and leaves all
other tool lists and tool records alone; its notification references that tool.
A second proximity-in event carrying the handle, in any later state in which
the user data of the handle is still what the first event left (no destroy
signal reset it), creates nothing (tool lists, tool records and handles stay
as they are) and its notification references the same tool. -/
theorem tool_resolution_idempotent (w : World) (ev1 : libinput_event)
    (device1 : evdev_device) (t1 : Nat) (tab1 : weston_tablet)
    (hd : get_device w ev1.device = some device1) (ht : device1.tablet = some t1)
    (htab : w.tablets t1 = some tab1)
    (hu : (w.tool_handles ev1.tool).user_data = none) (hok : no_malloc_failure w) :
    ∃ (w1 : World) (tool : Nat) (r : weston_tablet_tool),
      handle_tablet_proximity_in w ev1.device ev1 = some w1 ∧
      w1.notifications = w.notifications ++ [.tablet_proximity_in (some t1) ev1.time tool] ∧
      (w1.seats tab1.seat).tablet_tool_list = tool :: (w.seats tab1.seat).tablet_tool_list ∧
      (∀ s, s ≠ tab1.seat → (w1.seats s).tablet_tool_list = (w.seats s).tablet_tool_list) ∧
      w1.tools tool = some r ∧
      r.type = (w.tool_handles ev1.tool).type ∧ r.serial = (w.tool_handles ev1.tool).serial ∧
      (∀ a, a ≠ tool → w1.tools a = w.tools a) ∧
      ∀ (w2 : World) (ev2 : libinput_event) (device2 : evdev_device),
        ev2.tool = ev1.tool → get_device w2 ev2.device = some device2 →
        (w2.tool_handles ev1.tool).user_data = (w1.tool_handles ev1.tool).user_data →
        ∃ w3, handle_tablet_proximity_in w2 ev2.device ev2 = some w3 ∧
          w3.notifications =
            w2.notifications ++ [.tablet_proximity_in device2.tablet ev2.time tool] ∧
          w3.seats = w2.seats ∧ w3.tools = w2.tools ∧ w3.tool_handles = w2.tool_handles := by
  obtain ⟨w1, h1, -, -, htools, hseats, hhandles, hnot, -, -, -⟩ :=
    proximity_in_create w ev1 device1 t1 tab1 hd ht htab hu hok
  refine ⟨w1, w.next_addr + 1,
    { type := (w.tool_handles ev1.tool).type
      serial := (w.tool_handles ev1.tool).serial
      destroy_signal := [{ addr := w.next_addr, tool := ev1.tool }] },
    h1, hnot, ?_, ?_, ?_, rfl, rfl, ?_, ?_⟩
  · rw [hseats, setAt_same]
  · intro s hs
    rw [hseats, setAt_other _ _ _ _ hs]
  · rw [htools, setAt_same]
  · intro a ha
    rw [htools, setAt_other _ _ _ _ ha]
  · intro w2 ev2 device2 he hd2 hsame
    have hu2 : (w2.tool_handles ev2.tool).user_data = some (w.next_addr + 1) := by
      rw [he, hsame, hhandles, setAt_same]
    exact ⟨_, proximity_in_reuse w2 ev2 device2 _ hd2 hu2, rfl, rfl, rfl, rfl⟩

/-- Witness of C5: two proximity-in events with tool handle 0 on the sample
device. -/
theorem tool_resolution_idempotent_witness :
    ∃ (w1 : World) (tool : Nat) (r : weston_tablet_tool),
      handle_tablet_proximity_in demo_world 10 { type := .TABLET_PROXIMITY_IN, device := 10 } =
        some w1 ∧
      w1.notifications = demo_world.notifications ++ [.tablet_proximity_in (some 2) 0 tool] ∧
      (w1.seats 0).tablet_tool_list = tool :: (demo_world.seats 0).tablet_tool_list ∧
      (∀ s, s ≠ 0 → (w1.seats s).tablet_tool_list = (demo_world.seats s).tablet_tool_list) ∧
      w1.tools tool = some r ∧
      r.type = (demo_world.tool_handles 0).type ∧
      r.serial = (demo_world.tool_handles 0).serial ∧
      (∀ a, a ≠ tool → w1.tools a = demo_world.tools a) ∧
      ∀ (w2 : World) (ev2 : libinput_event) (device2 : evdev_device),
        ev2.tool = 0 → get_device w2 ev2.device = some device2 →
        (w2.tool_handles 0).user_data = (w1.tool_handles 0).user_data →
        ∃ w3, handle_tablet_proximity_in w2 ev2.device ev2 = some w3 ∧
          w3.notifications =
            w2.notifications ++ [.tablet_proximity_in device2.tablet ev2.time tool] ∧
          w3.seats = w2.seats ∧ w3.tools = w2.tools ∧ w3.tool_handles = w2.tool_handles :=
  tool_resolution_idempotent demo_world { type := .TABLET_PROXIMITY_IN, device := 10 }
    demo_device 2 demo_tablet demo_get_device rfl demo_tablets rfl demo_no_malloc_failure

/-- C6: once the destroy signal of a tool made by `handle_tablet_proximity_in`
has fired, the user data of the handle the tool was made for is cleared (and
no other handle is touched); the next proximity-in event that carries that
handle, or any handle of the same type and serial that has no user data,
creates a new tool record, different from the old one, with that type and
serial, puts it on the tool list of the seat and references it in its
notification; the old record is not reused and not changed. -/
theorem tool_recreated_after_destroy (w : World) (ev1 : libinput_event)
    (device1 : evdev_device) (t1 : Nat) (tab1 : weston_tablet)
    (hd : get_device w ev1.device = some device1) (ht : device1.tablet = some t1)
    (htab : w.tablets t1 = some tab1)
    (hu : (w.tool_handles ev1.tool).user_data = none) (hok : no_malloc_failure w) :
    ∃ (w1 : World) (tool : Nat) (w2 : World),
      handle_tablet_proximity_in w ev1.device ev1 = some w1 ∧
      (w1.tool_handles ev1.tool).user_data = some tool ∧
      tool_destroy_signal_emit w1 tool = some w2 ∧
      (w2.tool_handles ev1.tool).user_data = none ∧
      (w2.tool_handles ev1.tool).type = (w.tool_handles ev1.tool).type ∧
      (w2.tool_handles ev1.tool).serial = (w.tool_handles ev1.tool).serial ∧
      (∀ h, h ≠ ev1.tool → w2.tool_handles h = w.tool_handles h) ∧
      ∀ (ev2 : libinput_event) (device2 : evdev_device) (t2 : Nat) (tab2 : weston_tablet),
        get_device w2 ev2.device = some device2 → device2.tablet = some t2 →
        w2.tablets t2 = some tab2 →
        (w2.tool_handles ev2.tool).type = (w.tool_handles ev1.tool).type →
        (w2.tool_handles ev2.tool).serial = (w.tool_handles ev1.tool).serial →
        (ev2.tool = ev1.tool ∨ (w2.tool_handles ev2.tool).user_data = none) →
        ∃ (w3 : World) (tool2 : Nat) (r2 : weston_tablet_tool),
          handle_tablet_proximity_in w2 ev2.device ev2 = some w3 ∧
          tool2 ≠ tool ∧
          w3.tools tool2 = some r2 ∧
          r2.type = (w.tool_handles ev1.tool).type ∧
          r2.serial = (w.tool_handles ev1.tool).serial ∧
          w3.tools tool = w1.tools tool ∧
          (w3.seats tab2.seat).tablet_tool_list =
            tool2 :: (w2.seats tab2.seat).tablet_tool_list ∧
          w3.notifications =
            w2.notifications ++ [.tablet_proximity_in (some t2) ev2.time tool2] := by
  obtain ⟨w1, h1, hnext, hscript, htools, -, hhandles, -, -, -, -⟩ :=
    proximity_in_create w ev1 device1 t1 tab1 hd ht htab hu hok
  have hemit : tool_destroy_signal_emit w1 (w.next_addr + 1) =
      some (reset_libinput_tool_data w1 { addr := w.next_addr, tool := ev1.tool }) := by
    simp [tool_destroy_signal_emit, htools, setAt_same]
  have hw2h : (reset_libinput_tool_data w1 { addr := w.next_addr, tool := ev1.tool }).tool_handles
      = setAt w1.tool_handles ev1.tool { w1.tool_handles ev1.tool with user_data := none } := rfl
  refine ⟨w1, w.next_addr + 1, _, h1, ?_, hemit, ?_, ?_, ?_, ?_, ?_⟩
  · rw [hhandles, setAt_same]
  · rw [hw2h, setAt_same]
  · rw [hw2h, setAt_same, hhandles, setAt_same]
  · rw [hw2h, setAt_same, hhandles, setAt_same]
  · intro h hh
    rw [hw2h, setAt_other _ _ _ _ hh, hhandles, setAt_other _ _ _ _ hh]
  · intro ev2 device2 t2 tab2 hd2 ht2 htab2 hty hse hcase
    have hu2 : ((reset_libinput_tool_data w1
        { addr := w.next_addr, tool := ev1.tool }).tool_handles ev2.tool).user_data = none := by
      rcases hcase with he | hn
      · rw [he, hw2h, setAt_same]
      · exact hn
    have hok2 : no_malloc_failure
        (reset_libinput_tool_data w1 { addr := w.next_addr, tool := ev1.tool }) := by
      intro b hb
      have hb1 : b ∈ w.malloc_script.tail.tail := by
        rw [← hscript]
        exact hb
      exact hok b (List.mem_of_mem_tail (List.mem_of_mem_tail hb1))
    obtain ⟨w3, h3, -, -, htools3, hseats3, -, hnot3, -, -, -⟩ :=
      proximity_in_create _ ev2 device2 t2 tab2 hd2 ht2 htab2 hu2 hok2
    have hn2 : (reset_libinput_tool_data w1
        { addr := w.next_addr, tool := ev1.tool }).next_addr = w.next_addr + 2 := hnext
    have htl2 : (reset_libinput_tool_data w1
        { addr := w.next_addr, tool := ev1.tool }).tools = w1.tools := rfl
    refine ⟨w3, w.next_addr + 2 + 1,
      { type := ((reset_libinput_tool_data w1
          { addr := w.next_addr, tool := ev1.tool }).tool_handles ev2.tool).type
        serial := ((reset_libinput_tool_data w1
          { addr := w.next_addr, tool := ev1.tool }).tool_handles ev2.tool).serial
        destroy_signal := [{ addr := (reset_libinput_tool_data w1
          { addr := w.next_addr, tool := ev1.tool }).next_addr, tool := ev2.tool }] },
      h3, by omega, ?_, hty, hse, ?_, ?_, ?_⟩
    · rw [htools3, ← hn2, setAt_same]
    · rw [htools3, hn2, setAt_other _ _ _ _ (by omega), htl2]
    · rw [hseats3, hn2, setAt_same]
    · rw [hnot3, hn2]

/-- Witness of C6: tool handle 0 on the sample device is resolved, and the
destroy signal of the tool made for it clears the user data of the handle. -/
theorem tool_recreated_after_destroy_witness :
    ∃ (w1 : World) (tool : Nat) (w2 : World),
      handle_tablet_proximity_in demo_world 10 { type := .TABLET_PROXIMITY_IN, device := 10 } =
        some w1 ∧
      (w1.tool_handles 0).user_data = some tool ∧
      tool_destroy_signal_emit w1 tool = some w2 ∧
      (w2.tool_handles 0).user_data = none := by
  obtain ⟨w1, tool, w2, h1, h2, h3, h4, -⟩ :=
    tool_recreated_after_destroy demo_world { type := .TABLET_PROXIMITY_IN, device := 10 }
      demo_device 2 demo_tablet demo_get_device rfl demo_tablets rfl demo_no_malloc_failure
  exact ⟨w1, tool, w2, h1, h2, h3, h4⟩

/-! ## Theorems: binding of pending tablets -/

theorem pending_remove (w : World) (t : Nat) :
    pending (wl_list_remove_tablet w t) = wl_list_remove (pending w) t := by
  simp only [pending, wl_list_remove_tablet, wl_list_remove, List.filter_flatten, List.map_map]
  rfl

theorem bind_some (w : World) (t o : Nat) (tab : weston_tablet) (h : w.tablets t = some tab) :
    tablet_bind_output w t (some o) =
      some (1, { w with
        bind_attempts := w.bind_attempts ++ [t]
        tablets := setAt w.tablets t (some { tab with output := some o }) }) := by
  simp only [tablet_bind_output, h, Option.bind_eq_bind, Option.some_bind]
  cases tab.type <;> rfl

theorem bind_dead (w : World) (t : Nat) (o : Option Nat) (h : w.tablets t = none) :
    tablet_bind_output w t o = none := by
  simp [tablet_bind_output, h]

/-- The state after one round of the loop of `bind_unbound_tablets` that binds. -/
theorem body_some (w w1 : World) (t o : Nat)
    (h : bind_unbound_tablets_body (some o) w t = some w1) :
    ∃ tab d dev, w.tablets t = some tab ∧ tab.device = some d ∧ w.devices d = some dev ∧
      w1.output_created_signal = w.output_created_signal.map
        (fun l => { l with tablet_list := wl_list_remove l.tablet_list t }) ∧
      (w1.seats tab.seat).tablet_list = t :: wl_list_remove (w.seats tab.seat).tablet_list t ∧
      (∀ s, s ≠ tab.seat → (w1.seats s).tablet_list = wl_list_remove (w.seats s).tablet_list t) ∧
      w1.tablets = setAt w.tablets t (some { tab with output := some o }) ∧
      w1.notifications = w.notifications ++ [.tablet_added t] ∧
      w1.bind_attempts = w.bind_attempts ++ [t] ∧
      w1.pend_log = w.pend_log ∧ w1.next_addr = w.next_addr ∧
      w1.devices = setAt w.devices d (some { dev with caps := { dev.caps with tablet := true } }) := by
  cases ht : w.tablets t with
  | none => simp [bind_unbound_tablets_body, bind_dead w t _ ht] at h
  | some tab =>
    simp only [bind_unbound_tablets_body, bind_some w t o tab ht, Option.bind_eq_bind,
      Option.some_bind] at h
    simp only [ne_eq, one_ne_zero, not_false_eq_true, ↓reduceIte, wl_list_remove_tablet,
      setAt_same, Option.some_bind, seat_tablet_list_insert, set_tablet_cap,
      Option.bind_eq_bind, Option.pure_def] at h
    cases hd : tab.device with
    | none => simp [hd] at h
    | some d =>
      simp only [hd, Option.some_bind] at h
      cases hdev : w.devices d with
      | none => simp [hdev] at h
      | some dev =>
        simp only [hdev, Option.some_bind, Option.some.injEq] at h
        subst h
        refine ⟨tab, d, dev, rfl, hd, hdev, rfl, ?_, ?_, ?_, rfl, rfl, rfl, rfl, rfl⟩
        · simp [notify, setAt_same, wl_list_insert]
        · intro s hs
          simp [notify, setAt_other _ _ _ _ hs]
        · simp [notify, ← hd]

theorem pending_eq_of_signal (w w1 : World) (t : Nat)
    (h : w1.output_created_signal = w.output_created_signal.map
      (fun l => { l with tablet_list := wl_list_remove l.tablet_list t })) :
    pending w1 = (pending w).filter (fun x => decide (x ≠ t)) := by
  simp only [pending, h, wl_list_remove, List.filter_flatten, List.map_map]
  rfl

theorem body_preserves_inv (w w1 : World) (t o : Nat) (hi : Inv w) (hp : t ∈ pending w)
    (h : bind_unbound_tablets_body (some o) w t = some w1) : Inv w1 := by
  obtain ⟨tab, d, dev, htab, -, -, hsig, hseat, hother, htabs, hnot, -, hlog, hnext, -⟩ :=
    body_some w w1 t o h
  have hP := pending_eq_of_signal w w1 t hsig
  have hS : ∀ s, (w1.seats s).tablet_list =
      if s = tab.seat then t :: (w.seats s).tablet_list.filter (fun x => decide (x ≠ t))
      else (w.seats s).tablet_list.filter (fun x => decide (x ≠ t)) := by
    intro s
    by_cases hs : s = tab.seat
    · subst hs
      simpa [wl_list_remove] using hseat
    · simpa [hs, wl_list_remove] using hother s hs
  have hT : ∀ x, w1.tablets x =
      if x = t then some { tab with output := some o } else w.tablets x := by
    intro x
    rw [htabs]
    rfl
  have hN : ∀ x, w1.notifications.count (.tablet_added x) =
      w.notifications.count (.tablet_added x) + if x = t then 1 else 0 := by
    intro x
    rw [hnot, List.count_append, List.count_singleton]
    by_cases hx : x = t
    · subst hx
      simp
    · have : ¬ (t = x) := fun e => hx e.symm
      simp [hx, this]
  have h0 : w.notifications.count (.tablet_added t) = 0 := hi.added_pending t hp
  constructor
  · intro x tabx hx
    rw [hT] at hx
    rw [hP, hS]
    by_cases hxt : x = t
    · subst hxt
      simp only [↓reduceIte, Option.some.injEq] at hx
      subst hx
      simp
    · simp only [hxt, ↓reduceIte] at hx
      rcases hi.live_one x tabx hx with h1 | h1
      · left
        simp [h1, hxt]
      · right
        split <;> simp [h1, hxt]
  · intro x tabx hx hxp
    rw [hT] at hx
    rw [hP] at hxp
    have hxt : x ≠ t := by
      intro e
      simp [e] at hxp
    simp only [hxt, ↓reduceIte] at hx
    have hxp1 : x ∈ pending w := (List.mem_filter.mp hxp).1
    have := hi.live_not_both x tabx hx hxp1
    rw [hS]
    split <;> simp [this, hxt]
  · intro x tabx s hx hs
    rw [hT] at hx
    rw [hS]
    by_cases hxt : x = t
    · subst hxt
      simp only [↓reduceIte, Option.some.injEq] at hx
      subst hx
      simp [hs]
    · simp only [hxt, ↓reduceIte] at hx
      have := hi.live_seat x tabx s hx hs
      split <;> simp [this, hxt]
  · intro x hx
    rw [hT] at hx
    have hxt : x ≠ t := by
      intro e
      simp [e] at hx
    simp only [hxt, ↓reduceIte] at hx
    obtain ⟨h1, h2⟩ := hi.dead_out x hx
    refine ⟨?_, ?_⟩
    · rw [hP]
      simp [h1]
    · intro s
      rw [hS]
      split <;> simp [h2 s, hxt]
  · intro x hx
    rw [hT]
    rw [hnext] at hx
    have hxt : x ≠ t := by
      intro e
      subst e
      rw [hi.fresh x hx] at htab
      simp at htab
    simp only [hxt, ↓reduceIte]
    exact hi.fresh x hx
  · rw [hP]
    exact hi.pending_nodup.filter _
  · intro s
    rw [hS]
    split
    · rw [List.nodup_cons]
      exact ⟨by simp, (hi.seat_nodup s).filter _⟩
    · exact (hi.seat_nodup s).filter _
  · rw [hsig, List.length_map]
    exact hi.one_listener
  · intro x
    rw [hN]
    by_cases hxt : x = t
    · subst hxt
      simp [h0]
    · simpa [hxt] using hi.added_le x
  · intro x hx
    rw [hP] at hx
    have hxt : x ≠ t := by
      intro e
      simp [e] at hx
    rw [hN]
    simpa [hxt] using hi.added_pending x (List.mem_filter.mp hx).1
  · intro x hx
    rw [hnext] at hx
    rw [hN]
    have hxt : x ≠ t := by
      intro e
      subst e
      rw [hi.fresh x hx] at htab
      simp at htab
    simpa [hxt] using hi.added_fresh x hx
  · intro x tabx hx hxs
    rw [hT] at hx
    rw [hN]
    by_cases hxt : x = t
    · subst hxt
      simp [h0]
    · simp only [hxt, ↓reduceIte] at hx
      rw [hS] at hxs
      have hm : x ∈ (w.seats tabx.seat).tablet_list := by
        split at hxs
        · simp [hxt] at hxs
          exact hxs
        · simp [hxt] at hxs
          exact hxs
      simpa [hxt] using hi.added_active x tabx hx hm
  · rw [hlog]
    exact hi.log_nodup
  · intro x hx
    rw [hlog] at hx
    rw [hnext]
    exact hi.log_lt x hx
  · rw [hP, hlog]
    exact (List.filter_sublist _).trans hi.pending_log

theorem loop_spec (o : Nat) (ts : List Nat) :
    ∀ (w w1 : World), Inv w → ts.Nodup → (∀ t, t ∈ ts → t ∈ pending w) →
      bind_unbound_tablets_loop (some o) w ts = some w1 →
      Inv w1 ∧
      w1.output_created_signal = w.output_created_signal.map
        (fun l => { l with tablet_list := l.tablet_list.filter (fun x => decide (x ∉ ts)) }) ∧
      w1.notifications = w.notifications ++ ts.map .tablet_added ∧
      w1.bind_attempts = w.bind_attempts ++ ts ∧
      w1.pend_log = w.pend_log ∧ w1.next_addr = w.next_addr ∧
      (∀ x, w1.tablets x =
        if x ∈ ts then (w.tablets x).map (fun tab => { tab with output := some o })
        else w.tablets x) := by
  induction ts with
  | nil =>
    intro w w1 hi _ _ h
    simp only [bind_unbound_tablets_loop, Option.some.injEq] at h
    subst h
    refine ⟨hi, ?_, by simp, by simp, rfl, rfl, by simp⟩
    simp
  | cons t rest ih =>
    intro w w1 hi hnd hmem h
    simp only [bind_unbound_tablets_loop] at h
    cases hb : bind_unbound_tablets_body (some o) w t with
    | none => simp [hb] at h
    | some w0 =>
      simp only [hb] at h
      have hi0 := body_preserves_inv w w0 t o hi (hmem t (by simp)) hb
      obtain ⟨tab, d, dev, htab, -, -, hsig, -, -, htabs, hnot, hba, hlog, hnext, -⟩ :=
        body_some w w0 t o hb
      have hP := pending_eq_of_signal w w0 t hsig
      rw [List.nodup_cons] at hnd
      have hmem0 : ∀ x, x ∈ rest → x ∈ pending w0 := by
        intro x hx
        rw [hP]
        refine List.mem_filter.mpr ⟨hmem x (by simp [hx]), ?_⟩
        have : x ≠ t := fun e => hnd.1 (e ▸ hx)
        simpa using this
      obtain ⟨hi1, hsig1, hnot1, hba1, hlog1, hnext1, htabs1⟩ :=
        ih w0 w1 hi0 hnd.2 hmem0 h
      refine ⟨hi1, ?_, ?_, ?_, ?_, ?_, ?_⟩
      · rw [hsig1, hsig, List.map_map]
        apply List.map_congr_left
        intro l _
        simp only [Function.comp, wl_list_remove, List.filter_filter]
        congr 1
        apply List.filter_congr
        intro x _
        by_cases hxt : x = t <;> by_cases hxr : x ∈ rest <;> simp [hxt, hxr]
      · rw [hnot1, hnot]
        simp
      · rw [hba1, hba]
        simp
      · rw [hlog1, hlog]
      · rw [hnext1, hnext]
      · intro x
        rw [htabs1, htabs]
        by_cases hxt : x = t
        · subst hxt
          simp [hnd.1, setAt_same, htab]
        · by_cases hxr : x ∈ rest
          · simp [hxr, hxt, setAt_other _ _ _ _ hxt]
          · simp [hxr, hxt, setAt_other _ _ _ _ hxt]

theorem tablet_seat_some (w : World) (t : Nat) (tab : weston_tablet)
    (h : w.tablets t = some tab) : tablet_seat w t = some tab.seat := by
  simp [tablet_seat, h]

theorem tablet_seat_eq_some (w : World) (t s : Nat) (h : tablet_seat w t = some s) :
    ∃ tab, w.tablets t = some tab ∧ tab.seat = s := by
  simpa [tablet_seat] using h

theorem tablet_seat_none (w : World) (t : Nat) : tablet_seat w t = none ↔ w.tablets t = none := by
  simp [tablet_seat]

/-- The invariant only reads the seats of the live tablets, the lists, the
traces and the allocation mark. -/
theorem Inv_transfer (w w1 : World) (hi : Inv w)
    (hP : pending w1 = pending w)
    (hS : ∀ s, (w1.seats s).tablet_list = (w.seats s).tablet_list)
    (hT : ∀ x, tablet_seat w1 x = tablet_seat w x)
    (hA : w.next_addr ≤ w1.next_addr)
    (hL : w1.output_created_signal.length ≤ 1)
    (hN : w1.notifications = w.notifications)
    (hG : w1.pend_log = w.pend_log) : Inv w1 := by
  have live : ∀ x tab, w1.tablets x = some tab → ∃ tab0, w.tablets x = some tab0 ∧
      tab0.seat = tab.seat := by
    intro x tab hx
    have := hT x
    rw [tablet_seat_some w1 x tab hx] at this
    exact tablet_seat_eq_some w x _ this.symm
  have dead : ∀ x, w1.tablets x = none → w.tablets x = none := by
    intro x hx
    have := hT x
    rw [(tablet_seat_none w1 x).mpr hx] at this
    exact (tablet_seat_none w x).mp this.symm
  have dead2 : ∀ x, w.tablets x = none → w1.tablets x = none := by
    intro x hx
    have := hT x
    rw [(tablet_seat_none w x).mpr hx] at this
    exact (tablet_seat_none w1 x).mp this
  constructor
  · intro x tab hx
    obtain ⟨tab0, h0, hs⟩ := live x tab hx
    rw [hP, hS, ← hs]
    exact hi.live_one x tab0 h0
  · intro x tab hx hp
    obtain ⟨tab0, h0, hs⟩ := live x tab hx
    rw [hS, ← hs]
    rw [hP] at hp
    exact hi.live_not_both x tab0 h0 hp
  · intro x tab s hx hs
    obtain ⟨tab0, h0, hs0⟩ := live x tab hx
    rw [hS]
    exact hi.live_seat x tab0 s h0 (by rw [hs0]; exact hs)
  · intro x hx
    obtain ⟨h1, h2⟩ := hi.dead_out x (dead x hx)
    refine ⟨by rw [hP]; exact h1, ?_⟩
    intro s
    rw [hS]
    exact h2 s
  · intro x hx
    exact dead2 x (hi.fresh x (le_trans hA hx))
  · rw [hP]
    exact hi.pending_nodup
  · intro s
    rw [hS]
    exact hi.seat_nodup s
  · exact hL
  · intro x
    rw [hN]
    exact hi.added_le x
  · intro x hx
    rw [hN]
    rw [hP] at hx
    exact hi.added_pending x hx
  · intro x hx
    rw [hN]
    exact hi.added_fresh x (le_trans hA hx)
  · intro x tab hx hxs
    obtain ⟨tab0, h0, hs⟩ := live x tab hx
    rw [hN]
    rw [hS, ← hs] at hxs
    exact hi.added_active x tab0 h0 hxs
  · rw [hG]
    exact hi.log_nodup
  · intro x hx
    rw [hG] at hx
    exact lt_of_lt_of_le (hi.log_lt x hx) hA
  · rw [hP, hG]
    exact hi.pending_log

/-- What an output-created event does in a state that satisfies the invariant:
every pending tablet is bound to the new output, in the order of the pending
list, and the listener is removed. -/
theorem emit_spec (w w1 : World) (o : Nat) (hi : Inv w)
    (h : output_created_emit w o = some w1) :
    Inv w1 ∧ pending w1 = [] ∧ w1.output_created_signal = [] ∧
      w1.notifications = w.notifications ++ (pending w).map .tablet_added ∧
      w1.bind_attempts = w.bind_attempts ++ pending w ∧
      w1.pend_log = w.pend_log ∧ w1.next_addr = w.next_addr ∧
      (∀ x, w1.tablets x =
        if x ∈ pending w then (w.tablets x).map (fun tab => { tab with output := some o })
        else w.tablets x) := by
  have hlen := hi.one_listener
  rcases hsig : w.output_created_signal with _ | ⟨l, rest⟩
  · have hp : pending w = [] := by simp [pending, hsig]
    simp only [output_created_emit, hsig, List.map_nil, output_created_emit_loop,
      Option.some.injEq] at h
    subst h
    refine ⟨hi, hp, hsig, by simp [hp], by simp [hp], rfl, rfl, by simp [hp]⟩
  · have hrest : rest = [] := by
      rw [hsig] at hlen
      simp only [List.length_cons] at hlen
      exact List.length_eq_zero.mp (by omega)
    subst hrest
    have hp : pending w = l.tablet_list := by simp [pending, hsig]
    simp only [output_created_emit, hsig, List.map_cons, List.map_nil,
      output_created_emit_loop] at h
    cases hb : bind_unbound_tablets w l.addr (some o) with
    | none => simp [hb] at h
    | some w2 =>
      simp only [hb, Option.some.injEq] at h
      subst h
      simp only [bind_unbound_tablets, hsig, List.find?_cons, beq_self_eq_true,
        Option.bind_eq_bind, Option.some_bind] at hb
      cases hl : bind_unbound_tablets_loop (some o) w l.tablet_list with
      | none => simp [hl] at hb
      | some w0 =>
        simp only [hl, Option.some_bind] at hb
        obtain ⟨hi0, hsig0, hnot0, hba0, hlog0, hnext0, htabs0⟩ :=
          loop_spec o l.tablet_list w w0 hi (hp ▸ hi.pending_nodup)
            (fun t ht => hp ▸ ht) hl
        have hsig0' : w0.output_created_signal = [{ l with tablet_list := [] }] := by
          rw [hsig0, hsig]
          simp
        simp only [hsig0', List.find?_cons, beq_self_eq_true, Option.some_bind, wl_list_empty,
          List.isEmpty_nil, ↓reduceIte, Option.pure_def, Option.some.injEq, List.eraseP_cons,
          cond_true] at hb
        subst hb
        have hp0 : pending w0 = [] := by simp [pending, hsig0']
        refine ⟨?_, by simp [pending], rfl, ?_, ?_, hlog0, hnext0, ?_⟩
        · exact Inv_transfer w0 _ hi0 (by simp [pending, hsig0']) (fun _ => rfl)
            (fun _ => rfl) (le_refl _) (by simp) rfl rfl
        · rw [hp]
          exact hnot0
        · rw [hp]
          exact hba0
        · intro x
          rw [hp]
          exact htabs0 x

theorem Inv_new_pending (w w1 : World) (t seat : Nat) (hi : Inv w)
    (ht : w.next_addr ≤ t) (hA : t < w1.next_addr)
    (hP : pending w1 = t :: pending w)
    (hS : ∀ s, (w1.seats s).tablet_list = (w.seats s).tablet_list)
    (hT : ∀ x, tablet_seat w1 x = if x = t then some seat else tablet_seat w x)
    (hL : w1.output_created_signal.length ≤ 1)
    (hN : w1.notifications = w.notifications)
    (hG : w1.pend_log = w.pend_log ++ [t]) : Inv w1 := by
  have hdead := hi.dead_out t (hi.fresh t ht)
  have live : ∀ x tab, w1.tablets x = some tab → x ≠ t → ∃ tab0, w.tablets x = some tab0 ∧
      tab0.seat = tab.seat := by
    intro x tab hx hxt
    have := hT x
    rw [tablet_seat_some w1 x tab hx, if_neg hxt] at this
    exact tablet_seat_eq_some w x _ this.symm
  constructor
  · intro x tab hx
    by_cases hxt : x = t
    · left
      rw [hP, hxt]
      simp
    · obtain ⟨tab0, h0, hs⟩ := live x tab hx hxt
      rw [hP, hS, ← hs]
      rcases hi.live_one x tab0 h0 with h1 | h1
      · left
        simp [h1]
      · right
        exact h1
  · intro x tab hx hp
    rw [hS]
    by_cases hxt : x = t
    · rw [hxt]
      exact hdead.2 _
    · obtain ⟨tab0, h0, hs⟩ := live x tab hx hxt
      rw [hP] at hp
      simp only [List.mem_cons, hxt, false_or] at hp
      rw [← hs]
      exact hi.live_not_both x tab0 h0 hp
  · intro x tab s hx hs
    rw [hS]
    by_cases hxt : x = t
    · rw [hxt]
      exact hdead.2 _
    · obtain ⟨tab0, h0, hs0⟩ := live x tab hx hxt
      exact hi.live_seat x tab0 s h0 (by rw [hs0]; exact hs)
  · intro x hx
    have hxt : x ≠ t := by
      intro e
      have := hT x
      rw [(tablet_seat_none w1 x).mpr hx, if_pos e] at this
      simp at this
    have h0 : w.tablets x = none := by
      have := hT x
      rw [(tablet_seat_none w1 x).mpr hx, if_neg hxt] at this
      exact (tablet_seat_none w x).mp this.symm
    obtain ⟨h1, h2⟩ := hi.dead_out x h0
    refine ⟨by rw [hP]; simp [h1, hxt], ?_⟩
    intro s
    rw [hS]
    exact h2 s
  · intro x hx
    have hxt : x ≠ t := by omega
    have := hT x
    rw [if_neg hxt, (tablet_seat_none w x).mpr (hi.fresh x (by omega))] at this
    exact (tablet_seat_none w1 x).mp this
  · rw [hP, List.nodup_cons]
    exact ⟨hdead.1, hi.pending_nodup⟩
  · intro s
    rw [hS]
    exact hi.seat_nodup s
  · exact hL
  · intro x
    rw [hN]
    exact hi.added_le x
  · intro x hx
    rw [hN]
    rw [hP] at hx
    rcases List.mem_cons.mp hx with e | h1
    · rw [e]
      exact hi.added_fresh t ht
    · exact hi.added_pending x h1
  · intro x hx
    rw [hN]
    exact hi.added_fresh x (by omega)
  · intro x tab hx hxs
    rw [hN]
    rw [hS] at hxs
    by_cases hxt : x = t
    · rw [hxt] at hxs
      exact absurd hxs (hdead.2 _)
    · obtain ⟨tab0, h0, hs⟩ := live x tab hx hxt
      rw [← hs] at hxs
      exact hi.added_active x tab0 h0 hxs
  · rw [hG]
    refine List.Nodup.append hi.log_nodup (by simp) ?_
    intro x hx1 hx2
    simp only [List.mem_singleton] at hx2
    have := hi.log_lt x hx1
    omega
  · intro x hx
    rw [hG] at hx
    rcases List.mem_append.mp hx with h1 | h1
    · have := hi.log_lt x h1
      omega
    · simp only [List.mem_singleton] at h1
      omega
  · rw [hP, hG, List.reverse_append]
    simp only [List.reverse_cons, List.reverse_nil, List.nil_append, List.singleton_append]
    exact hi.pending_log.cons₂ t

theorem Inv_new_active (w w1 : World) (t seat : Nat) (hi : Inv w)
    (ht : w.next_addr ≤ t) (hA : t < w1.next_addr)
    (hP : pending w1 = pending w)
    (hS : ∀ s, (w1.seats s).tablet_list =
      if s = seat then t :: (w.seats s).tablet_list else (w.seats s).tablet_list)
    (hT : ∀ x, tablet_seat w1 x = if x = t then some seat else tablet_seat w x)
    (hL : w1.output_created_signal.length ≤ 1)
    (hN : w1.notifications = w.notifications ++ [.tablet_added t])
    (hG : w1.pend_log = w.pend_log) : Inv w1 := by
  have hdead := hi.dead_out t (hi.fresh t ht)
  have h0c : w.notifications.count (.tablet_added t) = 0 := hi.added_fresh t ht
  have hC : ∀ x, w1.notifications.count (.tablet_added x) =
      w.notifications.count (.tablet_added x) + if x = t then 1 else 0 := by
    intro x
    rw [hN, List.count_append, List.count_singleton]
    by_cases hx : x = t
    · subst hx
      simp
    · have : ¬ (t = x) := fun e => hx e.symm
      simp [hx, this]
  have live : ∀ x tab, w1.tablets x = some tab → x ≠ t → ∃ tab0, w.tablets x = some tab0 ∧
      tab0.seat = tab.seat := by
    intro x tab hx hxt
    have := hT x
    rw [tablet_seat_some w1 x tab hx, if_neg hxt] at this
    exact tablet_seat_eq_some w x _ this.symm
  have tseat : ∀ tab, w1.tablets t = some tab → tab.seat = seat := by
    intro tab hx
    have := hT t
    rw [tablet_seat_some w1 t tab hx, if_pos rfl] at this
    exact Option.some.inj this
  have memS : ∀ x s, x ≠ t → (x ∈ (w1.seats s).tablet_list ↔ x ∈ (w.seats s).tablet_list) := by
    intro x s hxt
    rw [hS]
    split <;> simp [hxt]
  constructor
  · intro x tab hx
    by_cases hxt : x = t
    · right
      subst hxt
      rw [hS, tseat tab hx]
      simp
    · obtain ⟨tab0, h0, hs⟩ := live x tab hx hxt
      rw [hP, memS x _ hxt, ← hs]
      exact hi.live_one x tab0 h0
  · intro x tab hx hp
    rw [hP] at hp
    by_cases hxt : x = t
    · rw [hxt] at hp
      exact absurd hp hdead.1
    · obtain ⟨tab0, h0, hs⟩ := live x tab hx hxt
      rw [memS x _ hxt, ← hs]
      exact hi.live_not_both x tab0 h0 hp
  · intro x tab s hx hs
    by_cases hxt : x = t
    · subst hxt
      rw [tseat tab hx] at hs
      rw [hS, if_neg hs]
      exact hdead.2 s
    · obtain ⟨tab0, h0, hs0⟩ := live x tab hx hxt
      rw [memS x _ hxt]
      exact hi.live_seat x tab0 s h0 (by rw [hs0]; exact hs)
  · intro x hx
    have hxt : x ≠ t := by
      intro e
      have := hT x
      rw [(tablet_seat_none w1 x).mpr hx, if_pos e] at this
      simp at this
    have h0 : w.tablets x = none := by
      have := hT x
      rw [(tablet_seat_none w1 x).mpr hx, if_neg hxt] at this
      exact (tablet_seat_none w x).mp this.symm
    obtain ⟨h1, h2⟩ := hi.dead_out x h0
    refine ⟨by rw [hP]; exact h1, ?_⟩
    intro s
    rw [memS x s hxt]
    exact h2 s
  · intro x hx
    have hxt : x ≠ t := by omega
    have := hT x
    rw [if_neg hxt, (tablet_seat_none w x).mpr (hi.fresh x (by omega))] at this
    exact (tablet_seat_none w1 x).mp this
  · rw [hP]
    exact hi.pending_nodup
  · intro s
    rw [hS]
    split
    · rw [List.nodup_cons]
      exact ⟨hdead.2 s, hi.seat_nodup s⟩
    · exact hi.seat_nodup s
  · exact hL
  · intro x
    rw [hC]
    by_cases hxt : x = t
    · subst hxt
      simp [h0c]
    · simpa [hxt] using hi.added_le x
  · intro x hx
    rw [hP] at hx
    have hxt : x ≠ t := fun e => hdead.1 (e ▸ hx)
    rw [hC]
    simpa [hxt] using hi.added_pending x hx
  · intro x hx
    rw [hC]
    have hxt : x ≠ t := by omega
    simpa [hxt] using hi.added_fresh x (by omega)
  · intro x tab hx hxs
    rw [hC]
    by_cases hxt : x = t
    · subst hxt
      simp [h0c]
    · obtain ⟨tab0, h0, hs⟩ := live x tab hx hxt
      rw [memS x _ hxt, ← hs] at hxs
      simpa [hxt] using hi.added_active x tab0 h0 hxs
  · rw [hG]
    exact hi.log_nodup
  · intro x hx
    rw [hG] at hx
    have := hi.log_lt x hx
    omega
  · rw [hP, hG]
    exact hi.pending_log

theorem Inv_release (w w1 : World) (t : Nat) (hi : Inv w)
    (hP : pending w1 = (pending w).filter (fun x => decide (x ≠ t)))
    (hS : ∀ s, (w1.seats s).tablet_list =
      (w.seats s).tablet_list.filter (fun x => decide (x ≠ t)))
    (hT : ∀ x, tablet_seat w1 x = if x = t then none else tablet_seat w x)
    (hA : w.next_addr ≤ w1.next_addr)
    (hL : w1.output_created_signal.length ≤ 1)
    (hN : w1.notifications = w.notifications)
    (hG : w1.pend_log = w.pend_log) : Inv w1 := by
  have live : ∀ x tab, w1.tablets x = some tab → x ≠ t ∧ ∃ tab0, w.tablets x = some tab0 ∧
      tab0.seat = tab.seat := by
    intro x tab hx
    have := hT x
    rw [tablet_seat_some w1 x tab hx] at this
    by_cases hxt : x = t
    · simp [hxt] at this
    · rw [if_neg hxt] at this
      exact ⟨hxt, tablet_seat_eq_some w x _ this.symm⟩
  have memP : ∀ x, x ≠ t → (x ∈ pending w1 ↔ x ∈ pending w) := by
    intro x hxt
    rw [hP]
    simp [hxt]
  have memS : ∀ x s, x ≠ t → (x ∈ (w1.seats s).tablet_list ↔ x ∈ (w.seats s).tablet_list) := by
    intro x s hxt
    rw [hS]
    simp [hxt]
  constructor
  · intro x tab hx
    obtain ⟨hxt, tab0, h0, hs⟩ := live x tab hx
    rw [memP x hxt, memS x _ hxt, ← hs]
    exact hi.live_one x tab0 h0
  · intro x tab hx hp
    obtain ⟨hxt, tab0, h0, hs⟩ := live x tab hx
    rw [memS x _ hxt, ← hs]
    exact hi.live_not_both x tab0 h0 ((memP x hxt).mp hp)
  · intro x tab s hx hs
    obtain ⟨hxt, tab0, h0, hs0⟩ := live x tab hx
    rw [memS x _ hxt]
    exact hi.live_seat x tab0 s h0 (by rw [hs0]; exact hs)
  · intro x hx
    by_cases hxt : x = t
    · subst hxt
      refine ⟨by rw [hP]; simp, ?_⟩
      intro s
      rw [hS]
      simp
    · have h0 : w.tablets x = none := by
        have := hT x
        rw [(tablet_seat_none w1 x).mpr hx, if_neg hxt] at this
        exact (tablet_seat_none w x).mp this.symm
      obtain ⟨h1, h2⟩ := hi.dead_out x h0
      refine ⟨by rw [memP x hxt]; exact h1, ?_⟩
      intro s
      rw [memS x s hxt]
      exact h2 s
  · intro x hx
    have := hT x
    by_cases hxt : x = t
    · rw [if_pos hxt] at this
      exact (tablet_seat_none w1 x).mp this
    · rw [if_neg hxt, (tablet_seat_none w x).mpr (hi.fresh x (by omega))] at this
      exact (tablet_seat_none w1 x).mp this
  · rw [hP]
    exact hi.pending_nodup.filter _
  · intro s
    rw [hS]
    exact (hi.seat_nodup s).filter _
  · exact hL
  · intro x
    rw [hN]
    exact hi.added_le x
  · intro x hx
    rw [hN]
    rw [hP] at hx
    exact hi.added_pending x (List.mem_filter.mp hx).1
  · intro x hx
    rw [hN]
    exact hi.added_fresh x (by omega)
  · intro x tab hx hxs
    obtain ⟨hxt, tab0, h0, hs⟩ := live x tab hx
    rw [hN]
    rw [memS x _ hxt, ← hs] at hxs
    exact hi.added_active x tab0 h0 hxs
  · rw [hG]
    exact hi.log_nodup
  · intro x hx
    rw [hG] at hx
    have := hi.log_lt x hx
    omega
  · rw [hP, hG]
    exact (List.filter_sublist _).trans hi.pending_log

theorem malloc_some (w w1 : World) (a : Nat) (h : malloc w = (some a, w1)) :
    a = w.next_addr ∧
      w1 = { w with malloc_script := w.malloc_script.tail, next_addr := w.next_addr + 1 } := by
  rcases malloc_cases w with ⟨rest, -, hm⟩ | ⟨hm, -⟩
  · rw [hm] at h
    simp at h
  · rw [hm] at h
    simp only [Prod.mk.injEq, Option.some.injEq] at h
    exact ⟨h.1.symm, h.2.symm⟩

theorem malloc_none (w w1 : World) (h : malloc w = (none, w1)) :
    ∃ rest, w1 = { w with malloc_script := rest } := by
  rcases malloc_cases w with ⟨rest, -, hm⟩ | ⟨hm, -⟩
  · rw [hm] at h
    simp only [Prod.mk.injEq, true_and] at h
    exact ⟨rest, h.symm⟩
  · rw [hm] at h
    simp at h

theorem pending_insert_flatten (sig : List tablet_output_listener) (t : Nat) (h : sig ≠ []) :
    ((pending_insert sig t).map (fun l => l.tablet_list)).flatten =
      t :: (sig.map (fun l => l.tablet_list)).flatten := by
  cases sig with
  | nil => exact absurd rfl h
  | cons l rest => simp [pending_insert, wl_list_insert]

theorem pending_insert_length (sig : List tablet_output_listener) (t : Nat) :
    (pending_insert sig t).length = sig.length := by
  cases sig <;> simp [pending_insert]

/-- What `tablet_bind_output(tablet, NULL)` does for a tablet without output
while the output list is empty. -/
theorem bind_none_empty (w w1 : World) (t : Nat) (r : Int) (tab : weston_tablet)
    (htab : w.tablets t = some tab) (hout : tab.output = none) (hl : w.output_list = [])
    (h : tablet_bind_output w t none = some (r, w1)) :
    r = 0 ∧ pending w1 = t :: pending w ∧
      (w.output_created_signal.length ≤ 1 → w1.output_created_signal.length ≤ 1) ∧
      w1.output_created_signal ≠ [] ∧
      w1.seats = w.seats ∧
      w1.tablets = setAt w.tablets t (some { tab with output := none }) ∧
      w1.notifications = w.notifications ∧
      w1.bind_attempts = w.bind_attempts ++ [t] ∧
      w1.pend_log = w.pend_log ++ [t] ∧
      w.next_addr ≤ w1.next_addr ∧ w1.devices = w.devices ∧
      w1.device_user_data = w.device_user_data ∧ w1.output_list = w.output_list := by
  have hout1 : (match tab.type with
      | .EXTERNAL | .INTERNAL | .DISPLAY =>
        match (none : Option Nat) with
        | some o => some o
        | none => if wl_list_empty ({ w with bind_attempts := w.bind_attempts ++ [t] } : World).output_list
            then tab.output else ({ w with bind_attempts := w.bind_attempts ++ [t] } : World).output_list.head?)
      = none := by
    cases tab.type <;> simp [hl, wl_list_empty, hout]
  simp only [tablet_bind_output, htab, Option.bind_eq_bind, Option.some_bind] at h
  rw [hout1] at h
  simp only at h
  rcases hsig : w.output_created_signal with _ | ⟨l, rest⟩
  · simp only [hsig] at h
    split at h
    · simp at h
    · rename_i listener w2 hm
      obtain ⟨-, hw2⟩ := malloc_some _ _ _ hm
      simp only [Option.pure_def, Option.some.injEq, Prod.mk.injEq] at h
      obtain ⟨hr, hw⟩ := h
      subst hw
      subst hw2
      refine ⟨hr.symm, ?_, ?_, ?_, rfl, rfl, rfl, rfl, rfl, ?_, rfl, rfl, rfl⟩
      · simp [pending, hsig, pending_insert, wl_list_insert]
      · intro _
        simp [hsig, pending_insert]
      · simp [hsig, pending_insert]
      · simp
  · simp only [hsig, Option.pure_def, Option.some.injEq, Prod.mk.injEq] at h
    obtain ⟨hr, hw⟩ := h
    subst hw
    refine ⟨hr.symm, ?_, ?_, ?_, rfl, rfl, rfl, rfl, rfl, le_refl _, rfl, rfl, rfl⟩
    · simp [pending, hsig, pending_insert, wl_list_insert]
    · intro hlen
      simpa [pending_insert] using hlen
    · simp [pending_insert]

/-- What `tablet_bind_output(tablet, NULL)` does while the output list is not
empty. -/
theorem bind_none_nonempty (w : World) (t o : Nat) (os : List Nat) (tab : weston_tablet)
    (htab : w.tablets t = some tab) (hl : w.output_list = o :: os) :
    tablet_bind_output w t none =
      some (1, { w with
        bind_attempts := w.bind_attempts ++ [t]
        tablets := setAt w.tablets t (some { tab with output := some o }) }) := by
  simp only [tablet_bind_output, htab, Option.bind_eq_bind, Option.some_bind]
  cases tab.type <;> simp [hl, wl_list_empty]

/-- What the tablet part of `evdev_device_create` does: a fresh tablet of the
seat is made; with an empty output list it is put on the pending list, with a
non-empty one it is bound to the first output, put on the tablet list of the
seat and announced. -/
theorem create_tablet_spec (w w1 : World) (device : Nat) (ld : libinput_device)
    (seat t : Nat) (bound : Bool)
    (h : evdev_device_create_tablet w device ld seat = some (t, bound, w1)) :
    t = w.next_addr ∧ t < w1.next_addr ∧
      w1.devices = w.devices ∧ w1.device_user_data = w.device_user_data ∧
      w1.output_list = w.output_list ∧
      w1.bind_attempts = w.bind_attempts ++ [t] ∧
      (∃ tabf, w1.tablets = setAt w.tablets t (some tabf) ∧ tabf.seat = seat ∧
        tabf.device = some device ∧
        ((w.output_list = [] ∧ bound = false ∧ tabf.output = none ∧
            pending w1 = t :: pending w ∧
            (w.output_created_signal.length ≤ 1 → w1.output_created_signal.length ≤ 1) ∧
            w1.seats = w.seats ∧ w1.notifications = w.notifications ∧
            w1.pend_log = w.pend_log ++ [t]) ∨
          (∃ o os, w.output_list = o :: os ∧ bound = true ∧ tabf.output = some o ∧
            w1.output_created_signal = w.output_created_signal ∧
            (∀ s, (w1.seats s).tablet_list =
              if s = seat then t :: (w.seats s).tablet_list else (w.seats s).tablet_list) ∧
            w1.notifications = w.notifications ++ [.tablet_added t] ∧
            w1.pend_log = w.pend_log))) := by
  unfold evdev_device_create_tablet weston_seat_add_tablet at h
  rcases hm : malloc w with ⟨_ | a, w0⟩
  · simp [hm] at h
  · obtain ⟨ha, hw0⟩ := malloc_some w w0 a hm
    subst ha
    subst hw0
    simp only [hm, setAt_same, Option.bind_eq_bind, Option.some_bind] at h
    obtain ⟨⟨r, w2⟩, hb, h⟩ := Option.bind_eq_some.mp h
    rcases hol : w.output_list with _ | ⟨o, os⟩
    · obtain ⟨hr, hP, hL, -, hS, hT, hN, hB, hG, hA, hD, hU, hO⟩ :=
        bind_none_empty _ w2 w.next_addr r _ (setAt_same _ _ _) (by rfl) (by exact hol) hb
      subst hr
      simp only [ne_eq, not_true_eq_false, decide_False,
        Bool.false_eq_true, ↓reduceIte, hT, setAt_same, Option.pure_def, Option.some_bind,
        Option.some.injEq, Prod.mk.injEq] at h
      obtain ⟨ht, hbd, hw⟩ := h
      subst ht
      subst hw
      refine ⟨rfl, ?_, hD, hU, ?_, hB,
        { seat := seat, type := w.new_tablet_type, output := none, device := some device,
          name := ld.name, vid := ld.id_vendor, pid := ld.id_product },
        ?_, rfl, rfl, Or.inl ⟨by first | exact hol | rfl, hbd.symm, rfl, ?_, ?_, hS, hN, hG⟩⟩
      · simp only at hA ⊢
        omega
      · exact hO.trans hol
      · funext x
        by_cases hx : x = w.next_addr
        · subst hx
          simp [setAt]
        · simp [setAt, hx]
      · exact hP
      · exact hL
    · rw [bind_none_nonempty _ w.next_addr o os _ (setAt_same _ _ _) (by exact hol)] at hb
      simp only [Option.some.injEq, Prod.mk.injEq] at hb
      obtain ⟨hr, hw2⟩ := hb
      subst hr
      subst hw2
      simp only [Option.some_bind, ne_eq, one_ne_zero, not_false_eq_true, decide_True,
        ↓reduceIte, notify, seat_tablet_list_insert, setAt_same, Option.pure_def,
        Option.some.injEq, Prod.mk.injEq] at h
      obtain ⟨ht, hbd, hw⟩ := h
      subst ht
      subst hw
      refine ⟨rfl, by simp, rfl, rfl, hol, rfl,
        { seat := seat, type := w.new_tablet_type, output := some o, device := some device,
          name := ld.name, vid := ld.id_vendor, pid := ld.id_product },
        ?_, rfl, rfl, Or.inr ⟨o, os, by first | exact hol | rfl, hbd.symm, rfl, rfl, ?_, rfl, rfl⟩⟩
      · funext x
        by_cases hx : x = w.next_addr
        · subst hx
          simp [setAt]
        · simp [setAt, hx]
      · intro s
        by_cases hs : s = seat
        · subst hs
          simp [setAt, wl_list_insert]
        · simp [setAt, hs]

theorem agree_refl (w : World) : Agree w w :=
  ⟨rfl, rfl, fun _ => rfl, rfl, rfl, rfl, rfl⟩

theorem agree_trans {w w1 w2 : World} (h1 : Agree w w1) (h2 : Agree w1 w2) : Agree w w2 :=
  ⟨h2.output_list.trans h1.output_list, h2.signal.trans h1.signal,
    fun s => (h2.seats s).trans (h1.seats s), h2.tablets.trans h1.tablets,
    h2.notifications.trans h1.notifications, h2.bind_attempts.trans h1.bind_attempts,
    h2.pend_log.trans h1.pend_log⟩

theorem agree_pending {w w1 : World} (h : Agree w w1) : pending w1 = pending w := by
  unfold pending
  rw [h.signal]

theorem agree_seat_counts (w : World) (seat : Nat) (s0 : weston_seat)
    (h : s0.tablet_list = (w.seats seat).tablet_list) :
    Agree w { w with seats := setAt w.seats seat s0 } := by
  refine ⟨rfl, rfl, ?_, rfl, rfl, rfl, rfl⟩
  intro s
  by_cases hs : s = seat
  · subst hs
    simp [setAt, h]
  · simp [setAt, hs]

theorem agree_init_keyboard (w : World) (seat : Nat) :
    Agree w (weston_seat_init_keyboard w seat) := agree_seat_counts w seat _ rfl

theorem agree_init_pointer (w : World) (seat : Nat) :
    Agree w (weston_seat_init_pointer w seat) := agree_seat_counts w seat _ rfl

theorem agree_init_touch (w : World) (seat : Nat) :
    Agree w (weston_seat_init_touch w seat) := agree_seat_counts w seat _ rfl

theorem agree_release_keyboard (w : World) (seat : Nat) :
    Agree w (weston_seat_release_keyboard w seat) := agree_seat_counts w seat _ rfl

theorem agree_release_pointer (w : World) (seat : Nat) :
    Agree w (weston_seat_release_pointer w seat) := agree_seat_counts w seat _ rfl

theorem agree_release_touch (w : World) (seat : Nat) :
    Agree w (weston_seat_release_touch w seat) := agree_seat_counts w seat _ rfl

theorem agree_ite (w : World) (b : Bool) (f : World → World) (h : Agree w (f w)) :
    Agree w (if b then f w else w) := by
  cases b
  · exact agree_refl w
  · exact h

theorem Inv_agree (w w1 : World) (hi : Inv w) (h : Agree w w1)
    (hA : w.next_addr ≤ w1.next_addr) : Inv w1 :=
  Inv_transfer w w1 hi (agree_pending h) h.seats (fun x => by simp [tablet_seat, h.tablets]) hA
    (by rw [h.signal]; exact hi.one_listener) h.notifications h.pend_log

/-- The shape of `evdev_device_create`: it fails to allocate and changes only the
allocator script, or it makes device `next_addr` and, for a device with tablet
capability, runs the tablet part in a state that agrees with the first one. -/
theorem create_spec (w w1 : World) (ld : libinput_device) (seat : Nat) (r : Option Nat)
    (h : evdev_device_create w ld seat = some (r, w1)) :
    (r = none ∧ ∃ rest, w1 = { w with malloc_script := rest }) ∨
    (r = some w.next_addr ∧ ld.cap_tablet = false ∧ Agree w w1 ∧
      w1.next_addr = w.next_addr + 1 ∧
      w1.devices w.next_addr = some
        { seat := seat, device := ld.id,
          caps := { keyboard := ld.cap_keyboard, pointer := ld.cap_pointer,
                    touch := ld.cap_touch } }) ∨
    (r = some w.next_addr ∧ ld.cap_tablet = true ∧
      ∃ w4 t bound w5, Agree w w4 ∧ w4.next_addr = w.next_addr + 1 ∧
        w4.devices = w.devices ∧
        evdev_device_create_tablet w4 w.next_addr ld seat = some (t, bound, w5) ∧
        Agree w5 w1 ∧ w1.next_addr = w5.next_addr ∧
        w1.devices = setAt w5.devices w.next_addr (some
          { seat := seat, device := ld.id,
            caps := { keyboard := ld.cap_keyboard, pointer := ld.cap_pointer,
                      touch := ld.cap_touch, tablet := bound },
            tablet := some t })) := by
  unfold evdev_device_create at h
  rcases hm : malloc w with ⟨_ | a, w0⟩
  · obtain ⟨rest, hw0⟩ := malloc_none w w0 hm
    simp only [hm, Option.some.injEq, Prod.mk.injEq] at h
    left
    exact ⟨h.1.symm, rest, by rw [← h.2, hw0]⟩
  · obtain ⟨ha, hw0⟩ := malloc_some w w0 a hm
    subst ha
    right
    simp only [hm, Option.bind_eq_bind] at h
    have hag0 : Agree w w0 := by
      rw [hw0]
      exact ⟨rfl, rfl, fun _ => rfl, rfl, rfl, rfl, rfl⟩
    have hag : Agree w
        (if ld.cap_touch = true then
          weston_seat_init_touch
            (if ld.cap_pointer = true then
              weston_seat_init_pointer
                (if ld.cap_keyboard = true then weston_seat_init_keyboard w0 seat else w0) seat
            else if ld.cap_keyboard = true then weston_seat_init_keyboard w0 seat else w0) seat
        else
          if ld.cap_pointer = true then
            weston_seat_init_pointer
              (if ld.cap_keyboard = true then weston_seat_init_keyboard w0 seat else w0) seat
          else if ld.cap_keyboard = true then weston_seat_init_keyboard w0 seat else w0) := by
      refine agree_trans hag0 ?_
      refine agree_trans (agree_ite w0 ld.cap_keyboard (fun x => weston_seat_init_keyboard x seat)
        (agree_init_keyboard w0 seat)) ?_
      refine agree_trans (agree_ite _ ld.cap_pointer (fun x => weston_seat_init_pointer x seat)
        (agree_init_pointer _ seat)) ?_
      exact agree_ite _ ld.cap_touch (fun x => weston_seat_init_touch x seat)
        (agree_init_touch _ seat)
    have hnext : ∀ (k p t : Bool),
        (if t = true then
          weston_seat_init_touch
            (if p = true then
              weston_seat_init_pointer
                (if k = true then weston_seat_init_keyboard w0 seat else w0) seat
            else if k = true then weston_seat_init_keyboard w0 seat else w0) seat
        else
          if p = true then
            weston_seat_init_pointer
              (if k = true then weston_seat_init_keyboard w0 seat else w0) seat
          else if k = true then weston_seat_init_keyboard w0 seat else w0).next_addr =
          w.next_addr + 1 ∧
        (if t = true then
          weston_seat_init_touch
            (if p = true then
              weston_seat_init_pointer
                (if k = true then weston_seat_init_keyboard w0 seat else w0) seat
            else if k = true then weston_seat_init_keyboard w0 seat else w0) seat
        else
          if p = true then
            weston_seat_init_pointer
              (if k = true then weston_seat_init_keyboard w0 seat else w0) seat
          else if k = true then weston_seat_init_keyboard w0 seat else w0).devices =
          w.devices := by
      intro k p t
      subst hw0
      cases k <;> cases p <;> cases t <;> exact ⟨rfl, rfl⟩
    have hn4 := hnext ld.cap_keyboard ld.cap_pointer ld.cap_touch
    generalize (if ld.cap_touch = true then
          weston_seat_init_touch
            (if ld.cap_pointer = true then
              weston_seat_init_pointer
                (if ld.cap_keyboard = true then weston_seat_init_keyboard w0 seat else w0) seat
            else if ld.cap_keyboard = true then weston_seat_init_keyboard w0 seat else w0) seat
        else
          if ld.cap_pointer = true then
            weston_seat_init_pointer
              (if ld.cap_keyboard = true then weston_seat_init_keyboard w0 seat else w0) seat
          else if ld.cap_keyboard = true then weston_seat_init_keyboard w0 seat else w0) = w4
      at h hag hn4
    cases hc : ld.cap_tablet
    · left
      simp only [hc, Bool.false_eq_true, ↓reduceIte, Option.some_bind, Option.pure_def,
        Option.some.injEq, Prod.mk.injEq] at h
      obtain ⟨hr, hw⟩ := h
      subst hw
      refine ⟨hr.symm, rfl, agree_trans hag ⟨rfl, rfl, fun _ => rfl, rfl, rfl, rfl, rfl⟩, hn4.1, ?_⟩
      simp [setAt]
    · right
      simp only [hc, ↓reduceIte] at h
      obtain ⟨⟨ot, bound, w5⟩, hq, h⟩ := Option.bind_eq_some.mp h
      obtain ⟨⟨t, b2, w5b⟩, hct, hq2⟩ := Option.map_eq_some'.mp hq
      simp only [Prod.mk.injEq] at hq2
      obtain ⟨h1, h2, h3⟩ := hq2
      subst h1 h2 h3
      simp only [Option.pure_def, Option.some.injEq, Prod.mk.injEq] at h
      obtain ⟨hr, hw⟩ := h
      subst hw
      exact ⟨hr.symm, rfl, w4, t, b2, w5b, hag, hn4.1, hn4.2, hct,
        ⟨rfl, rfl, fun _ => rfl, rfl, rfl, rfl, rfl⟩, rfl, rfl⟩

theorem create_inv (w w1 : World) (ld : libinput_device) (seat : Nat) (r : Option Nat)
    (hi : Inv w) (h : evdev_device_create w ld seat = some (r, w1)) : Inv w1 := by
  rcases create_spec w w1 ld seat r h with ⟨-, rest, hw⟩ | ⟨-, -, hag, hn, -⟩ |
    ⟨-, -, w4, t, bound, w5, hag4, hn4, -, hct, hag5, hn5, -⟩
  · subst hw
    exact Inv_agree w _ hi ⟨rfl, rfl, fun _ => rfl, rfl, rfl, rfl, rfl⟩ (le_refl _)
  · exact Inv_agree w w1 hi hag (by omega)
  · have hi4 : Inv w4 := Inv_agree w w4 hi hag4 (by omega)
    obtain ⟨ht, hlt, -, -, -, -, tabf, htabs, hseat, -, hcase⟩ :=
      create_tablet_spec w4 w5 w.next_addr ld seat t bound hct
    have hT : ∀ x, tablet_seat w1 x = if x = t then some seat else tablet_seat w4 x := by
      intro x
      simp only [tablet_seat, hag5.tablets, htabs]
      by_cases hx : x = t
      · subst hx
        simp [setAt, hseat]
      · simp [setAt, hx]
    rcases hcase with ⟨-, -, -, hP, hL, hS, hN, hG⟩ | ⟨o, os, -, -, -, hsig, hS, hN, hG⟩
    · refine Inv_new_pending w4 w1 t seat hi4 (by omega) (by omega) ?_ ?_ hT ?_ ?_ ?_
      · rw [agree_pending hag5, hP]
      · intro s
        rw [hag5.seats s, hS]
      · rw [hag5.signal]
        exact hL hi4.one_listener
      · rw [hag5.notifications, hN]
      · rw [hag5.pend_log, hG]
    · refine Inv_new_active w4 w1 t seat hi4 (by omega) (by omega) ?_ ?_ hT ?_ ?_ ?_
      · rw [agree_pending hag5]
        unfold pending
        rw [hsig]
      · intro s
        rw [hag5.seats s, hS]
      · rw [hag5.signal, hsig]
        exact hi4.one_listener
      · rw [hag5.notifications, hN]
      · rw [hag5.pend_log, hG]

/-- The shape of `evdev_device_destroy`: the tablet of the device is released when
the device has the tablet capability bit, and left where it is otherwise. -/
theorem destroy_spec (w w1 : World) (d : Nat) (h : evdev_device_destroy w d = some w1) :
    ∃ dev, w.devices d = some dev ∧
      ((dev.caps.tablet = false ∧ Agree w w1 ∧ w1.next_addr = w.next_addr) ∨
       (dev.caps.tablet = true ∧ ∃ t tab, dev.tablet = some t ∧ w.tablets t = some tab ∧
          w1.output_created_signal = w.output_created_signal.map
            (fun l => { l with tablet_list := wl_list_remove l.tablet_list t }) ∧
          (∀ s, (w1.seats s).tablet_list =
            (w.seats s).tablet_list.filter (fun x => decide (x ≠ t))) ∧
          w1.tablets = setAt w.tablets t none ∧
          w1.notifications = w.notifications ∧ w1.pend_log = w.pend_log ∧
          w1.bind_attempts = w.bind_attempts ∧ w1.next_addr = w.next_addr)) := by
  unfold evdev_device_destroy at h
  cases hd : w.devices d with
  | none => simp [hd] at h
  | some dev =>
    simp only [hd, Option.bind_eq_bind, Option.some_bind] at h
    refine ⟨dev, rfl, ?_⟩
    have hag : Agree w
        (if dev.caps.touch = true then
          weston_seat_release_touch
            (if dev.caps.keyboard = true then
              weston_seat_release_keyboard
                (if dev.caps.pointer = true then weston_seat_release_pointer w dev.seat else w)
                dev.seat
            else if dev.caps.pointer = true then weston_seat_release_pointer w dev.seat else w)
            dev.seat
        else
          if dev.caps.keyboard = true then
            weston_seat_release_keyboard
              (if dev.caps.pointer = true then weston_seat_release_pointer w dev.seat else w)
              dev.seat
          else if dev.caps.pointer = true then weston_seat_release_pointer w dev.seat else w) := by
      refine agree_trans (agree_ite w dev.caps.pointer
        (fun x => weston_seat_release_pointer x dev.seat) (agree_release_pointer w dev.seat)) ?_
      refine agree_trans (agree_ite _ dev.caps.keyboard
        (fun x => weston_seat_release_keyboard x dev.seat) (agree_release_keyboard _ dev.seat)) ?_
      exact agree_ite _ dev.caps.touch
        (fun x => weston_seat_release_touch x dev.seat) (agree_release_touch _ dev.seat)
    have hn3 : ∀ (p k t : Bool),
        (if t = true then
          weston_seat_release_touch
            (if k = true then
              weston_seat_release_keyboard
                (if p = true then weston_seat_release_pointer w dev.seat else w)
                dev.seat
            else if p = true then weston_seat_release_pointer w dev.seat else w)
            dev.seat
        else
          if k = true then
            weston_seat_release_keyboard
              (if p = true then weston_seat_release_pointer w dev.seat else w)
              dev.seat
          else if p = true then weston_seat_release_pointer w dev.seat else w).next_addr =
        w.next_addr := by
      intro p k t
      cases p <;> cases k <;> cases t <;> rfl
    have hn3' := hn3 dev.caps.pointer dev.caps.keyboard dev.caps.touch
    generalize (if dev.caps.touch = true then
          weston_seat_release_touch
            (if dev.caps.keyboard = true then
              weston_seat_release_keyboard
                (if dev.caps.pointer = true then weston_seat_release_pointer w dev.seat else w)
                dev.seat
            else if dev.caps.pointer = true then weston_seat_release_pointer w dev.seat else w)
            dev.seat
        else
          if dev.caps.keyboard = true then
            weston_seat_release_keyboard
              (if dev.caps.pointer = true then weston_seat_release_pointer w dev.seat else w)
              dev.seat
          else if dev.caps.pointer = true then weston_seat_release_pointer w dev.seat else w) = w3
      at h hag hn3'
    obtain ⟨w4, h4, h⟩ := Option.bind_eq_some.mp h
    obtain ⟨w5, h5, h⟩ := Option.bind_eq_some.mp h
    simp only [Option.pure_def, Option.some.injEq] at h
    subst h
    have h54 : w5 = w4 ∨ w5 = output_destroy_listener_remove w4 d := by
      cases ho : dev.output with
      | none =>
        simp only [ho, Option.some.injEq] at h5
        exact Or.inl h5.symm
      | some o =>
        simp only [ho] at h5
        cases hl : dev.output_destroy_listener.link with
        | none => simp [hl] at h5
        | some l =>
          simp only [hl, Option.some.injEq] at h5
          exact Or.inr h5.symm
    cases hc : dev.caps.tablet
    · left
      simp only [hc, Bool.false_eq_true, ↓reduceIte, Option.some.injEq] at h4
      subst h4
      rcases h54 with rfl | rfl <;>
        exact ⟨rfl, agree_trans hag ⟨rfl, rfl, fun _ => rfl, rfl, rfl, rfl, rfl⟩, hn3'⟩
    · right
      simp only [hc, ↓reduceIte, weston_seat_release_tablet, Option.bind_eq_bind,
        Option.pure_def] at h4
      obtain ⟨t, ht, h4⟩ := Option.bind_eq_some.mp h4
      obtain ⟨tab, htab, h4⟩ := Option.bind_eq_some.mp h4
      simp only [Option.some.injEq] at h4
      subst h4
      rw [hag.tablets] at htab
      rcases h54 with rfl | rfl
      · refine ⟨rfl, t, tab, ht, htab, ?_, ?_, ?_, hag.notifications, hag.pend_log,
          hag.bind_attempts, hn3'⟩
        · simp [wl_list_remove_tablet, hag.signal]
        · intro s
          simp [wl_list_remove_tablet, wl_list_remove, hag.seats s]
        · simp [wl_list_remove_tablet, hag.tablets]
      · refine ⟨rfl, t, tab, ht, htab, ?_, ?_, ?_, hag.notifications, hag.pend_log,
          hag.bind_attempts, hn3'⟩
        · simp [wl_list_remove_tablet, output_destroy_listener_remove, hag.signal]
        · intro s
          simp [wl_list_remove_tablet, output_destroy_listener_remove, wl_list_remove,
            hag.seats s]
        · simp [wl_list_remove_tablet, output_destroy_listener_remove, hag.tablets]

theorem destroy_inv (w w1 : World) (d : Nat) (hi : Inv w)
    (h : evdev_device_destroy w d = some w1) : Inv w1 := by
  obtain ⟨dev, -, hcase⟩ := destroy_spec w w1 d h
  rcases hcase with ⟨-, hag, hn⟩ | ⟨-, t, tab, -, -, hsig, hS, hT, hN, hG, -, hn⟩
  · exact Inv_agree w w1 hi hag (by omega)
  · refine Inv_release w w1 t hi (pending_eq_of_signal w w1 t hsig) hS ?_ (by omega) ?_ hN hG
    · intro x
      simp only [tablet_seat, hT]
      by_cases hx : x = t
      · subst hx
        simp [setAt]
      · simp [setAt, hx]
    · rw [hsig, List.length_map]
      exact hi.one_listener

/-- What `evdev_device_set_output` does: the listener of the device is taken off
the list it is on, if its callback is set, and linked at the end of the destroy
signal of the new output; the device gets the new output. -/
theorem set_output_spec (w w1 : World) (d o : Nat)
    (h : evdev_device_set_output w d o = some w1) :
    ∃ dev, w.devices d = some dev ∧
      w1.devices = setAt w.devices d (some
        { dev with output := some o,
                   output_destroy_listener := { notify := true, link := some o } }) ∧
      (∀ x, w1.output_destroy_signal x =
        if x = o then
          (if dev.output_destroy_listener.notify then
            wl_list_remove (w.output_destroy_signal x) d
          else w.output_destroy_signal x) ++ [d]
        else
          (if dev.output_destroy_listener.notify then
            wl_list_remove (w.output_destroy_signal x) d
          else w.output_destroy_signal x)) ∧
      Agree w w1 ∧ w1.next_addr = w.next_addr ∧ w1.output_list = w.output_list ∧
      (∀ s, w1.seats s = w.seats s) := by
  unfold evdev_device_set_output at h
  cases hd : w.devices d with
  | none => simp [hd] at h
  | some dev =>
    simp only [hd, Option.bind_eq_bind, Option.some_bind] at h
    refine ⟨dev, rfl, ?_⟩
    cases hn : dev.output_destroy_listener.notify
    · simp only [hn, Bool.false_eq_true, ↓reduceIte, Option.some_bind, Option.pure_def,
        Option.some.injEq] at h
      subst h
      refine ⟨rfl, ?_, ⟨rfl, rfl, fun _ => rfl, rfl, rfl, rfl, rfl⟩, rfl, rfl, fun _ => rfl⟩
      intro x
      by_cases hx : x = o
      · subst hx
        simp [setAt]
      · simp [setAt, hx]
    · cases hl : dev.output_destroy_listener.link with
      | none => simp [hn, hl] at h
      | some l =>
        simp only [hn, ↓reduceIte, hl, Option.some_bind, Option.pure_def,
          Option.some.injEq] at h
        subst h
        refine ⟨rfl, ?_, ⟨rfl, rfl, fun _ => rfl, rfl, rfl, rfl, rfl⟩, rfl, rfl, fun _ => rfl⟩
        intro x
        by_cases hx : x = o
        · subst hx
          simp [setAt, output_destroy_listener_remove]
        · simp [setAt, hx, output_destroy_listener_remove]

/-- The two branches of `notify_output_destroy`. -/
theorem notify_output_destroy_cases (w w1 : World) (d : Nat)
    (h : notify_output_destroy w d = some w1) :
    ∃ dev, w.devices d = some dev ∧
      ((dev.output_name = none ∧ ∃ o os, w.output_list = o :: os ∧
          evdev_device_set_output w d o = some w1) ∨
       ((dev.output_name ≠ none ∨ w.output_list = []) ∧
          w1 = { w with devices := setAt w.devices d (some { dev with output := none }) })) := by
  unfold notify_output_destroy at h
  cases hd : w.devices d with
  | none => simp [hd] at h
  | some dev =>
    simp only [hd, Option.bind_eq_bind, Option.some_bind] at h
    refine ⟨dev, rfl, ?_⟩
    cases hname : dev.output_name with
    | some n =>
      right
      simp only [hname, Option.isNone_some, Bool.false_and, Bool.false_eq_true, ↓reduceIte,
        Option.pure_def, Option.some.injEq] at h
      exact ⟨Or.inl (by simp), h.symm⟩
    | none =>
      rcases hl : w.output_list with _ | ⟨o, os⟩
      · right
        simp only [hname, hl, wl_list_empty, Option.isNone_none, List.isEmpty_nil, Bool.not_true,
          Bool.and_false, Bool.false_eq_true, ↓reduceIte, Option.pure_def,
          Option.some.injEq] at h
        exact ⟨Or.inr rfl, h.symm⟩
      · left
        simp only [hname, hl, wl_list_empty, Option.isNone_none, List.isEmpty_cons,
          Bool.not_false, Bool.and_self, ↓reduceIte, List.head?_cons, Option.some_bind] at h
        exact ⟨rfl, o, os, rfl, h⟩

theorem step_inv (w w1 : World) (s : Step) (hi : Inv w) (h : step w s = some w1) : Inv w1 := by
  cases s with
  | create ld seat =>
    simp only [step, Option.map_eq_some'] at h
    obtain ⟨⟨r, w2⟩, hc, rfl⟩ := h
    exact create_inv w w2 ld seat r hi hc
  | destroy d => exact destroy_inv w w1 d hi h
  | output_created o => exact (emit_spec w w1 o hi h).1
  | output_list_insert o =>
    simp only [step, Option.some.injEq] at h
    subst h
    exact Inv_transfer w _ hi rfl (fun _ => rfl) (fun _ => rfl) (le_refl _) hi.one_listener rfl rfl
  | output_list_remove o =>
    simp only [step, Option.some.injEq] at h
    subst h
    exact Inv_transfer w _ hi rfl (fun _ => rfl) (fun _ => rfl) (le_refl _) hi.one_listener rfl rfl
  | set_malloc_script sc =>
    simp only [step, Option.some.injEq] at h
    subst h
    exact Inv_transfer w _ hi rfl (fun _ => rfl) (fun _ => rfl) (le_refl _) hi.one_listener rfl rfl
  | set_output d o =>
    obtain ⟨dev, -, -, -, hag, hn, -⟩ := set_output_spec w w1 d o h
    exact Inv_agree w w1 hi hag (by omega)
  | output_destroy_notify d =>
    obtain ⟨dev, -, hcase⟩ := notify_output_destroy_cases w w1 d h
    rcases hcase with ⟨-, o, os, -, hs⟩ | ⟨-, rfl⟩
    · obtain ⟨dev2, -, -, -, hag, hn, -⟩ := set_output_spec w w1 d o hs
      exact Inv_agree w w1 hi hag (by omega)
    · exact Inv_transfer w _ hi rfl (fun _ => rfl) (fun _ => rfl) (le_refl _) hi.one_listener
        rfl rfl

theorem run_inv (steps : List Step) :
    ∀ (w w1 : World), Inv w → run w steps = some w1 → Inv w1 := by
  induction steps with
  | nil =>
    intro w w1 hi h
    simp only [run, Option.some.injEq] at h
    exact h ▸ hi
  | cons s rest ih =>
    intro w w1 hi h
    simp only [run] at h
    cases hs : step w s with
    | none => simp [hs] at h
    | some w0 =>
      simp only [hs] at h
      exact ih w0 w1 (step_inv w w0 s hi hs) h

theorem start_inv (outputs : Nat → weston_output) (ty : wl_tablet_manager_tablet_type)
    (handles : Nat → libinput_tool) (script : List Bool) :
    Inv (World.start outputs ty handles script) := by
  constructor <;> simp [World.start, pending]

theorem reachable_inv (w : World) (h : Reachable w) : Inv w := by
  obtain ⟨outputs, ty, handles, script, steps, hr⟩ := h
  exact run_inv steps _ w (start_inv outputs ty handles script) hr

theorem reachable_step (w w1 : World) (s : Step) (h : Reachable w) (hs : step w s = some w1) :
    Reachable w1 := by
  obtain ⟨outputs, ty, handles, script, steps, hr⟩ := h
  refine ⟨outputs, ty, handles, script, steps ++ [s], ?_⟩
  have key : ∀ (l : List Step) (a b : World), run a l = some b → run a (l ++ [s]) = step b s := by
    intro l
    induction l with
    | nil =>
      intro a b hab
      simp only [run, Option.some.injEq] at hab
      subst hab
      simp only [List.nil_append, run]
      cases step a s <;> rfl
    | cons x xs ih =>
      intro a b hab
      simp only [run, List.cons_append] at hab ⊢
      cases hx : step a x with
      | none => simp [hx] at hab
      | some c =>
        simp only [hx] at hab ⊢
        exact ih c b hab
  rw [key steps _ w hr, hs]

theorem pair_sublist_total (a b : Nat) (hab : a ≠ b) :
    ∀ (P : List Nat), a ∈ P → b ∈ P → [a, b].Sublist P ∨ [b, a].Sublist P := by
  intro P
  induction P with
  | nil => intro h; simp at h
  | cons x xs ih =>
    intro ha hb
    by_cases hxa : x = a
    · subst hxa
      have hb1 : b ∈ xs := by
        rcases List.mem_cons.mp hb with e | h
        · exact absurd e.symm hab
        · exact h
      left
      exact (List.singleton_sublist.mpr hb1).cons₂ x
    · by_cases hxb : x = b
      · subst hxb
        have ha1 : a ∈ xs := by
          rcases List.mem_cons.mp ha with e | h
          · exact absurd e hab
          · exact h
        right
        exact (List.singleton_sublist.mpr ha1).cons₂ x
      · have ha1 : a ∈ xs := by
          rcases List.mem_cons.mp ha with e | h
          · exact absurd e.symm hxa
          · exact h
        have hb1 : b ∈ xs := by
          rcases List.mem_cons.mp hb with e | h
          · exact absurd e.symm hxb
          · exact h
        rcases ih ha1 hb1 with h | h
        · exact Or.inl (h.cons x)
        · exact Or.inr (h.cons x)

theorem pair_sublist_antisymm (a b : Nat) :
    ∀ (X : List Nat), X.Nodup → [a, b].Sublist X → [b, a].Sublist X → False := by
  intro X
  induction X with
  | nil => intro _ h; simp at h
  | cons x xs ih =>
    intro hnd h1 h2
    rw [List.nodup_cons] at hnd
    rcases List.sublist_cons_iff.mp h1 with h1 | ⟨r, hr, h1⟩
    · rcases List.sublist_cons_iff.mp h2 with h2 | ⟨r2, hr2, h2⟩
      · exact ih hnd.2 h1 h2
      · simp only [List.cons.injEq] at hr2
        obtain ⟨hbx, -⟩ := hr2
        have : b ∈ xs := h1.subset (by simp)
        exact hnd.1 (hbx ▸ this)
    · simp only [List.cons.injEq] at hr
      obtain ⟨hax, -⟩ := hr
      have : a ∈ xs := by
        rcases List.sublist_cons_iff.mp h2 with h2 | ⟨r2, hr2, h2⟩
        · exact h2.subset (by simp)
        · simp only [List.cons.injEq] at hr2
          obtain ⟨-, hr2⟩ := hr2
          subst hr2
          exact h2.subset (by simp)
      exact hnd.1 (hax ▸ this)

/-- A list that keeps its members in the reverse of the order of a
duplicate-free log has `b` before `a` whenever the log has `a` before `b`. -/
theorem pair_sublist_reverse (X P : List Nat) (a b : Nat) (hnd : X.Nodup)
    (hP : P.Sublist X.reverse) (ha : a ∈ P) (hb : b ∈ P) (hab : [a, b].Sublist X) :
    [b, a].Sublist P := by
  have hne : a ≠ b := by
    have := hab.nodup hnd
    simpa using this
  rcases pair_sublist_total a b hne P ha hb with h | h
  · exfalso
    have h1 : [a, b].Sublist X.reverse := h.trans hP
    have h2 : [b, a].Sublist X := by
      have := List.reverse_sublist.mpr h1
      simpa using this
    exact pair_sublist_antisymm a b X hnd hab h2
  · exact h

theorem body_total (w : World) (t o d : Nat) (tab : weston_tablet) (dev : evdev_device)
    (htab : w.tablets t = some tab) (hd : tab.device = some d) (hdev : w.devices d = some dev) :
    ∃ w1, bind_unbound_tablets_body (some o) w t = some w1 := by
  simp [bind_unbound_tablets_body, bind_some w t o tab htab, wl_list_remove_tablet,
    seat_tablet_list_insert, set_tablet_cap, setAt_same, hd, hdev]

theorem loop_total (o : Nat) (ts : List Nat) :
    ∀ (w : World),
      (∀ t, t ∈ ts → ∃ tab d dev,
        w.tablets t = some tab ∧ tab.device = some d ∧ w.devices d = some dev) →
      ∃ w1, bind_unbound_tablets_loop (some o) w ts = some w1 := by
  induction ts with
  | nil =>
    intro w _
    exact ⟨w, rfl⟩
  | cons t rest ih =>
    intro w hl
    obtain ⟨tab, d, dev, htab, hd, hdev⟩ := hl t (by simp)
    obtain ⟨w0, hb⟩ := body_total w t o d tab dev htab hd hdev
    obtain ⟨tab', d', dev', htab', hd', hdev', -, -, -, htabs, -, -, -, -, hdevs⟩ :=
      body_some w w0 t o hb
    simp only [bind_unbound_tablets_loop, hb]
    apply ih w0
    intro x hx
    obtain ⟨tabx, dx, devx, h1, h2, h3⟩ := hl x (by simp [hx])
    have hdevx : ∃ devx1, w0.devices dx = some devx1 := by
      rw [hdevs]
      by_cases he : dx = d'
      · subst he
        exact ⟨_, setAt_same _ _ _⟩
      · exact ⟨devx, by rw [setAt_other _ _ _ _ he]; exact h3⟩
    obtain ⟨devx1, h31⟩ := hdevx
    by_cases hxt : x = t
    · subst hxt
      rw [htab'] at h1
      simp only [Option.some.injEq] at h1
      subst h1
      exact ⟨{ tab' with output := some o }, dx, devx1, by rw [htabs, setAt_same], h2, h31⟩
    · exact ⟨tabx, dx, devx1, by rw [htabs, setAt_other _ _ _ _ hxt]; exact h1, h2, h31⟩

/-- An output-created event returns when the invariant holds and every pending
tablet points to a live device. -/
theorem emit_total (w : World) (o : Nat) (hi : Inv w) (hl : pending_devices_live w) :
    ∃ w1, output_created_emit w o = some w1 := by
  have hlen := hi.one_listener
  rcases hsig : w.output_created_signal with _ | ⟨l, rest⟩
  · exact ⟨w, by simp [output_created_emit, hsig, output_created_emit_loop]⟩
  · have hrest : rest = [] := by
      rw [hsig] at hlen
      simp only [List.length_cons] at hlen
      exact List.length_eq_zero.mp (by omega)
    subst hrest
    have hp : pending w = l.tablet_list := by simp [pending, hsig]
    obtain ⟨w0, h0⟩ := loop_total o l.tablet_list w (fun t ht => hl t (hp ▸ ht))
    obtain ⟨-, hsig0, -⟩ := loop_spec o l.tablet_list w w0 hi (hp ▸ hi.pending_nodup)
      (fun t ht => hp ▸ ht) h0
    have hsig0' : w0.output_created_signal = [{ l with tablet_list := [] }] := by
      rw [hsig0, hsig]
      simp
    refine ⟨{ w0 with output_created_signal := [] }, ?_⟩
    simp [output_created_emit, hsig, output_created_emit_loop, bind_unbound_tablets, h0,
      hsig0', wl_list_empty]

theorem count_added_map (t : Nat) (L : List Nat) :
    (L.map Notification.tablet_added).count (.tablet_added t) = L.count t := by
  induction L with
  | nil => rfl
  | cons x xs ih =>
    simp only [List.map_cons, List.count_cons, ih]
    by_cases hx : x = t
    · subst hx
      simp
    · simp [hx]

theorem demo_start_reachable : Reachable demo_start :=
  ⟨fun _ => { width := 800, height := 600 }, .EXTERNAL, fun _ => {}, [], [], rfl⟩

theorem demo_one_pending_reachable : Reachable demo_one_pending :=
  ⟨fun _ => { width := 800, height := 600 }, .EXTERNAL, fun _ => {}, [], demo_steps_one, rfl⟩

theorem demo_two_pending_reachable : Reachable demo_two_pending :=
  ⟨fun _ => { width := 800, height := 600 }, .EXTERNAL, fun _ => {}, [], demo_steps_two, rfl⟩

/-- C7: in a reachable state with an empty output list, a device with tablet
capability that `evdev_device_create` makes gets a tablet that is on the pending
list, on the tablet list of no seat, without output, and nothing is notified;
an output-created event that follows takes the tablet off the pending list,
puts it exactly once on the tablet list of its seat, sets its output to the new
output and emits exactly one `notify_tablet_added` for it. The event returns
whenever the tablets already pending point to live devices. -/
theorem tablet_pending_until_output (w w1 : World) (ld : libinput_device) (seat d : Nat)
    (hr : Reachable w) (hl : w.output_list = []) (hcap : ld.cap_tablet = true)
    (hc : evdev_device_create w ld seat = some (some d, w1)) :
    ∃ t dev tab, w1.devices d = some dev ∧ dev.tablet = some t ∧
      w1.tablets t = some tab ∧ tab.seat = seat ∧ tab.output = none ∧
      t ∈ pending w1 ∧ (∀ s, t ∉ (w1.seats s).tablet_list) ∧
      w1.notifications = w.notifications ∧
      (pending_devices_live w → ∀ o, ∃ w2, output_created_emit w1 o = some w2) ∧
      ∀ o w2, output_created_emit w1 o = some w2 →
        t ∉ pending w2 ∧ (w2.seats seat).tablet_list.count t = 1 ∧
        (∀ s, s ≠ seat → t ∉ (w2.seats s).tablet_list) ∧
        (∃ tab2, w2.tablets t = some tab2 ∧ tab2.output = some o) ∧
        ∃ new, w2.notifications = w1.notifications ++ new ∧
          new.count (.tablet_added t) = 1 := by
  have hi := reachable_inv w hr
  have hi1 := create_inv w w1 ld seat _ hi hc
  rcases create_spec w w1 ld seat _ hc with ⟨hn, -⟩ | ⟨-, hf, -⟩ |
    ⟨hd, -, w4, t, bound, w5, hag4, hn4, hdev4, hct, hag5, hn5, hdevs⟩
  · simp at hn
  · rw [hcap] at hf
    simp at hf
  · simp only [Option.some.injEq] at hd
    subst hd
    obtain ⟨ht, hlt, hdev5, -, -, -, tabf, htabs, hseat, hdevf, hcase⟩ :=
      create_tablet_spec w4 w5 w.next_addr ld seat t bound hct
    rcases hcase with ⟨-, -, hout, hP, -, hS, hN, -⟩ | ⟨o, os, hol, -⟩
    swap
    · rw [hag4.output_list, hl] at hol
      simp at hol
    have htab1 : w1.tablets t = some tabf := by
      rw [hag5.tablets, htabs, setAt_same]
    have hP1 : pending w1 = t :: pending w := by
      rw [agree_pending hag5, hP, agree_pending hag4]
    have hmem : t ∈ pending w1 := by
      rw [hP1]
      simp
    have hN1 : w1.notifications = w.notifications := by
      rw [hag5.notifications, hN, hag4.notifications]
    refine ⟨t, _, tabf, by rw [hdevs, setAt_same], rfl, htab1, hseat, hout, hmem, ?_, hN1, ?_, ?_⟩
    · intro s
      by_cases hs : s = tabf.seat
      · rw [hs]
        exact hi1.live_not_both t tabf htab1 hmem
      · exact hi1.live_seat t tabf s htab1 hs
    · intro hlive o
      apply emit_total w1 o hi1
      intro x hx
      rw [hP1] at hx
      rcases List.mem_cons.mp hx with e | hx
      · subst e
        exact ⟨tabf, w.next_addr, _, htab1, hdevf, by rw [hdevs, setAt_same]⟩
      · obtain ⟨tabx, dx, devx, h1, h2, h3⟩ := hlive x hx
        have hxt : x ≠ t := by
          intro e
          subst e
          have := hi.fresh x (by omega)
          rw [this] at h1
          simp at h1
        refine ⟨tabx, dx, ?_⟩
        have hx1 : w1.tablets x = some tabx := by
          rw [hag5.tablets, htabs, setAt_other _ _ _ _ hxt, hag4.tablets]
          exact h1
        by_cases hdx : dx = w.next_addr
        · exact ⟨_, hx1, h2, by rw [hdevs, hdx, setAt_same]⟩
        · exact ⟨devx, hx1, h2, by
            rw [hdevs, setAt_other _ _ _ _ hdx, hdev5, hdev4]
            exact h3⟩
    · intro o w2 he
      obtain ⟨hi2, hP2, -, hnot2, -, -, -, htabs2⟩ := emit_spec w1 w2 o hi1 he
      have htab2 : w2.tablets t = some { tabf with output := some o } := by
        rw [htabs2 t, if_pos hmem, htab1]
        rfl
      have hnp : t ∉ pending w2 := by
        rw [hP2]
        simp
      refine ⟨hnp, ?_, ?_, ⟨_, htab2, rfl⟩, _, hnot2, ?_⟩
      · have hin : t ∈ (w2.seats seat).tablet_list := by
          rcases hi2.live_one t _ htab2 with h1 | h1
          · exact absurd h1 hnp
          · rw [← hseat]
            exact h1
        exact List.count_eq_one_of_mem (hi2.seat_nodup seat) hin
      · intro s hs
        exact hi2.live_seat t _ s htab2 (by rw [← hseat] at hs; exact hs)
      · rw [count_added_map]
        exact List.count_eq_one_of_mem hi1.pending_nodup hmem

theorem demo_start_pending_live : pending_devices_live demo_start := by
  intro t ht
  simp [demo_start, World.start, pending] at ht

/-- Witness of C7: a tablet device created in the sample start state, where no
output exists, and an output-created event for output 7 after it. -/
theorem tablet_pending_until_output_witness :
    ∃ t, t ∈ pending demo_one_pending ∧
      demo_one_pending.notifications = demo_start.notifications ∧
      ∃ w2, output_created_emit demo_one_pending 7 = some w2 ∧
        t ∉ pending w2 ∧ (w2.seats 0).tablet_list.count t = 1 ∧
        (∃ tab2, w2.tablets t = some tab2 ∧ tab2.output = some 7) := by
  obtain ⟨t, dev, tab, -, -, -, -, -, hp, -, hn, htot, hemit⟩ :=
    tablet_pending_until_output demo_start demo_one_pending (demo_tablet_ld 10) 0 1
      demo_start_reachable rfl rfl rfl
  obtain ⟨w2, h2⟩ := htot demo_start_pending_live 7
  obtain ⟨h3, h4, -, h5, -⟩ := hemit 7 w2 h2
  exact ⟨t, hp, hn, w2, h2, h3, h4, h5⟩

/-- C8: in every state reachable through `evdev_device_create`, output-created
events and `evdev_device_destroy` (and changes of the output list), each live
tablet is exactly once on exactly one of the pending list and the tablet list
of its seat, and on the tablet list of no other seat; no list holds a tablet
twice. -/
theorem tablet_in_exactly_one_list (w : World) (hr : Reachable w) (t : Nat)
    (tab : weston_tablet) (ht : w.tablets t = some tab) :
    (pending w).count t + (w.seats tab.seat).tablet_list.count t = 1 ∧
      (t ∈ pending w ∨ t ∈ (w.seats tab.seat).tablet_list) ∧
      ¬ (t ∈ pending w ∧ t ∈ (w.seats tab.seat).tablet_list) ∧
      (∀ s, s ≠ tab.seat → (w.seats s).tablet_list.count t = 0) ∧
      (pending w).Nodup ∧ (∀ s, (w.seats s).tablet_list.Nodup) := by
  have hi := reachable_inv w hr
  refine ⟨?_, hi.live_one t tab ht, ?_, ?_, hi.pending_nodup, hi.seat_nodup⟩
  · rcases hi.live_one t tab ht with h | h
    · have h1 := List.count_eq_one_of_mem hi.pending_nodup h
      have h2 : (w.seats tab.seat).tablet_list.count t = 0 :=
        List.count_eq_zero.mpr (hi.live_not_both t tab ht h)
      omega
    · have h1 := List.count_eq_one_of_mem (hi.seat_nodup tab.seat) h
      have h2 : (pending w).count t = 0 :=
        List.count_eq_zero.mpr (fun hp => hi.live_not_both t tab ht hp h)
      omega
  · rintro ⟨h1, h2⟩
    exact hi.live_not_both t tab ht h1 h2
  · intro s hs
    exact List.count_eq_zero.mpr (hi.live_seat t tab s ht hs)

/-- Witness of C8: tablet 2 of the sample state with one pending tablet. -/
theorem tablet_in_exactly_one_list_witness :
    (pending demo_one_pending).count 2 + (demo_one_pending.seats 0).tablet_list.count 2 = 1 ∧
      (2 ∈ pending demo_one_pending ∨ 2 ∈ (demo_one_pending.seats 0).tablet_list) ∧
      ¬ (2 ∈ pending demo_one_pending ∧ 2 ∈ (demo_one_pending.seats 0).tablet_list) ∧
      (∀ s, s ≠ 0 → (demo_one_pending.seats s).tablet_list.count 2 = 0) ∧
      (pending demo_one_pending).Nodup ∧
      (∀ s, (demo_one_pending.seats s).tablet_list.Nodup) :=
  tablet_in_exactly_one_list demo_one_pending demo_one_pending_reachable 2
    { seat := 0, type := .EXTERNAL, device := some 1 } rfl

/-- C9: in every reachable state `notify_tablet_added` has been emitted at most
once for each tablet: not at all for a pending tablet and exactly once for a
tablet on the tablet list of its seat. An output-created event calls
`tablet_bind_output` once for each tablet of the pending list and for no other
tablet, and announces exactly those tablets, each once; a tablet that is live
and not pending (bound earlier) is neither bound nor announced again and its
record is left as it is. -/
theorem tablet_added_once (w : World) (hr : Reachable w) :
    (∀ t, w.notifications.count (.tablet_added t) ≤ 1) ∧
    (∀ t tab, w.tablets t = some tab →
      (t ∈ pending w → w.notifications.count (.tablet_added t) = 0) ∧
      (t ∈ (w.seats tab.seat).tablet_list → w.notifications.count (.tablet_added t) = 1)) ∧
    ∀ o w1, output_created_emit w o = some w1 →
      ∃ calls : List Nat,
        w1.bind_attempts = w.bind_attempts ++ calls ∧
        w1.notifications = w.notifications ++ calls.map .tablet_added ∧
        calls.Nodup ∧ (∀ t, t ∈ calls ↔ t ∈ pending w) ∧
        (∀ t, calls.count t ≤ 1) ∧
        (∀ t, (calls.map Notification.tablet_added).count (.tablet_added t) ≤ 1) ∧
        (∀ t, w1.notifications.count (.tablet_added t) ≤ 1) ∧
        (∀ t, t ∈ calls → ∃ tab, w1.tablets t = some tab ∧ tab.output = some o ∧
          t ∈ (w1.seats tab.seat).tablet_list ∧ t ∉ pending w1) ∧
        (∀ t tab, w.tablets t = some tab → t ∈ (w.seats tab.seat).tablet_list →
          t ∉ calls ∧ (calls.map Notification.tablet_added).count (.tablet_added t) = 0 ∧
          w1.tablets t = some tab) := by
  have hi := reachable_inv w hr
  refine ⟨hi.added_le, ?_, ?_⟩
  · intro t tab ht
    exact ⟨hi.added_pending t, hi.added_active t tab ht⟩
  · intro o w1 he
    obtain ⟨hi1, hP1, -, hnot, hba, -, -, htabs⟩ := emit_spec w w1 o hi he
    refine ⟨pending w, hba, hnot, hi.pending_nodup, fun _ => Iff.rfl, ?_, ?_, hi1.added_le,
      ?_, ?_⟩
    · exact List.nodup_iff_count_le_one.mp hi.pending_nodup
    · intro t
      rw [count_added_map]
      exact List.nodup_iff_count_le_one.mp hi.pending_nodup t
    · intro t ht
      have hlive : ∃ tab, w.tablets t = some tab := by
        cases h : w.tablets t with
        | none => exact absurd ht (hi.dead_out t h).1
        | some tab => exact ⟨tab, rfl⟩
      obtain ⟨tab, htab⟩ := hlive
      have h1 : w1.tablets t = some { tab with output := some o } := by
        rw [htabs t, if_pos ht, htab]
        rfl
      have hnp : t ∉ pending w1 := by
        rw [hP1]
        simp
      refine ⟨_, h1, rfl, ?_, hnp⟩
      rcases hi1.live_one t _ h1 with h | h
      · exact absurd h hnp
      · exact h
    · intro t tab ht hs
      have hnp : t ∉ pending w := fun hp => hi.live_not_both t tab ht hp hs
      refine ⟨hnp, ?_, ?_⟩
      · rw [count_added_map]
        exact List.count_eq_zero.mpr hnp
      · rw [htabs t, if_neg hnp]
        exact ht

/-- Witness of C9: the output-created event for output 7 in the sample state
with two pending tablets. -/
theorem tablet_added_once_witness :
    ∃ w1 calls, output_created_emit demo_two_pending 7 = some w1 ∧
      w1.bind_attempts = demo_two_pending.bind_attempts ++ calls ∧
      w1.notifications = demo_two_pending.notifications ++ calls.map .tablet_added ∧
      calls.Nodup ∧ (∀ t, t ∈ calls ↔ t ∈ pending demo_two_pending) ∧
      (∀ t, w1.notifications.count (.tablet_added t) ≤ 1) := by
  obtain ⟨w1, h1⟩ : ∃ w1, output_created_emit demo_two_pending 7 = some w1 :=
    ⟨(output_created_emit demo_two_pending 7).getD demo_start, rfl⟩
  obtain ⟨calls, h2, h3, h4, h5, -, -, h6, -⟩ :=
    (tablet_added_once demo_two_pending demo_two_pending_reachable).2.2 7 w1 h1
  exact ⟨w1, calls, h1, h2, h3, h4, h5, h6⟩

/-- Counterexample to C10 as stated: tablet 2 was put on the pending list before
tablet 5, yet the output-created event retries tablet 5 first and announces it
first; tablet 2 does not come before tablet 5 in either order. -/
theorem pending_retry_fifo_counterexample :
    demo_two_pending.pend_log = [2, 5] ∧ pending demo_two_pending = [5, 2] ∧
    (output_created_emit demo_two_pending 7).map
        (fun w => (w.bind_attempts.drop demo_two_pending.bind_attempts.length,
          w.notifications.drop demo_two_pending.notifications.length)) =
      some ([5, 2], [.tablet_added 5, .tablet_added 2]) ∧
    ¬ [2, 5].Sublist [5, 2] ∧
    ¬ [Notification.tablet_added 2, .tablet_added 5].Sublist
        [Notification.tablet_added 5, .tablet_added 2] := by
  refine ⟨by decide, by decide, by decide, by decide, by decide⟩

/-- C10 as amended: the pending tablets are retried last-in first-out. In a
reachable state, for two pending tablets `a` and `b` where `a` was put on the
pending list before `b`, an output-created event calls `tablet_bind_output`
for `b` before `a`, binds both and emits `notify_tablet_added` for `b` before
`a`; the calls and the announcements follow the pending list from its head. -/
theorem pending_retry_lifo (w w1 : World) (o a b : Nat) (hr : Reachable w)
    (ha : a ∈ pending w) (hb : b ∈ pending w) (hab : [a, b].Sublist w.pend_log)
    (he : output_created_emit w o = some w1) :
    ∃ calls : List Nat,
      calls = pending w ∧
      w1.bind_attempts = w.bind_attempts ++ calls ∧ [b, a].Sublist calls ∧
      ¬ [a, b].Sublist calls ∧
      w1.notifications = w.notifications ++ calls.map .tablet_added ∧
      [Notification.tablet_added b, .tablet_added a].Sublist (calls.map .tablet_added) ∧
      (∃ ta tb, w1.tablets a = some ta ∧ ta.output = some o ∧
        w1.tablets b = some tb ∧ tb.output = some o) := by
  have hi := reachable_inv w hr
  obtain ⟨-, -, -, hnot, hba, -, -, htabs⟩ := emit_spec w w1 o hi he
  have hsub : [b, a].Sublist (pending w) :=
    pair_sublist_reverse w.pend_log (pending w) a b hi.log_nodup hi.pending_log ha hb hab
  have live : ∀ x, x ∈ pending w → ∃ tab, w.tablets x = some tab := by
    intro x hx
    cases h : w.tablets x with
    | none => exact absurd hx (hi.dead_out x h).1
    | some tab => exact ⟨tab, rfl⟩
  obtain ⟨ta, hta⟩ := live a ha
  obtain ⟨tb, htb⟩ := live b hb
  refine ⟨pending w, rfl, hba, hsub, ?_, hnot, ?_, ?_⟩
  · intro h
    exact pair_sublist_antisymm a b (pending w) hi.pending_nodup h hsub
  · exact hsub.map Notification.tablet_added
  · refine ⟨{ ta with output := some o }, { tb with output := some o }, ?_, rfl, ?_, rfl⟩
    · rw [htabs a, if_pos ha, hta]
      rfl
    · rw [htabs b, if_pos hb, htb]
      rfl

/-- Witness of C10 as amended: tablets 2 and 5 of the sample state with two
pending tablets. -/
theorem pending_retry_lifo_witness :
    ∃ w1 calls, output_created_emit demo_two_pending 7 = some w1 ∧
      calls = pending demo_two_pending ∧
      w1.bind_attempts = demo_two_pending.bind_attempts ++ calls ∧ [5, 2].Sublist calls ∧
      w1.notifications = demo_two_pending.notifications ++ calls.map .tablet_added ∧
      [Notification.tablet_added 5, .tablet_added 2].Sublist (calls.map .tablet_added) := by
  obtain ⟨w1, h1⟩ : ∃ w1, output_created_emit demo_two_pending 7 = some w1 :=
    ⟨(output_created_emit demo_two_pending 7).getD demo_start, rfl⟩
  obtain ⟨calls, h2, h3, h4, -, h5, h6, -⟩ :=
    pending_retry_lifo demo_two_pending w1 7 2 5 demo_two_pending_reachable
      (by decide) (by decide) (by decide) h1
  exact ⟨w1, calls, h1, h2, h3, h4, h5, h6⟩

/-! ## Theorems: `tablet_bind_output` without a preferred output -/

theorem malloc_none_script (w w1 : World) (h : malloc w = (none, w1)) :
    w.malloc_script.head? = some false := by
  rcases malloc_cases w with ⟨rest, hr, -⟩ | ⟨hm, -⟩
  · rw [hr]
    rfl
  · rw [hm] at h
    simp at h

theorem bind_none_empty_total (w : World) (t : Nat) (tab : weston_tablet)
    (htab : w.tablets t = some tab) (hout : tab.output = none) (hl : w.output_list = [])
    (hok : w.output_created_signal ≠ [] ∨ w.malloc_script.head? ≠ some false) :
    ∃ w1, tablet_bind_output w t none = some (0, w1) := by
  have hout1 : (match tab.type with
      | .EXTERNAL | .INTERNAL | .DISPLAY =>
        match (none : Option Nat) with
        | some o => some o
        | none => if wl_list_empty ({ w with bind_attempts := w.bind_attempts ++ [t] } : World).output_list
            then tab.output else ({ w with bind_attempts := w.bind_attempts ++ [t] } : World).output_list.head?)
      = none := by
    cases tab.type <;> simp [hl, wl_list_empty, hout]
  simp only [tablet_bind_output, htab, Option.bind_eq_bind, Option.some_bind]
  rw [hout1]
  simp only
  rcases hsig : w.output_created_signal with _ | ⟨l, rest⟩
  · simp only
    split
    · rename_i w2 hm
      obtain ⟨rest, hw2⟩ := malloc_none _ _ hm
      rcases hok with h | h
      · exact absurd hsig h
      · exact absurd (malloc_none_script _ _ hm) h
    · exact ⟨_, rfl⟩
  · exact ⟨_, rfl⟩

/-- A tablet that is not live is on no list in a state that satisfies the
invariant; this is the state of the fresh tablet `evdev_device_create` passes
to `tablet_bind_output`. -/
theorem dead_tablet_unlinked (w : World) (t : Nat) (hi : Inv w) (h : w.tablets t = none) :
    tablet_unlinked w t :=
  hi.dead_out t h

/-- C11: for a live tablet without output whose link is on no list,
`tablet_bind_output(tablet, NULL)` returns 1 exactly when the output list of
the compositor is not empty. With a non-empty list it always returns 1, the
tablet gets the first output of the list and nothing else but the call history
changes, so the pending list is as before and the tablet is still on no list.
With an empty list it returns 0 whenever it returns, the tablet stays without
output and is put at the head of the pending list, where it is once, the tablet
lists of the seats staying as they are; it returns when a listener is
registered or the allocation of a new one does not fail. -/
theorem bind_null_output (w : World) (t : Nat) (tab : weston_tablet)
    (htab : w.tablets t = some tab) (hout : tab.output = none)
    (hun : tablet_unlinked w t) :
    (∀ r w1, tablet_bind_output w t none = some (r, w1) →
      ((r = 1 ↔ w.output_list ≠ []) ∧ (r = 0 ↔ w.output_list = []))) ∧
    (∀ o os, w.output_list = o :: os →
      tablet_bind_output w t none =
        some (1, { w with
          bind_attempts := w.bind_attempts ++ [t]
          tablets := setAt w.tablets t (some { tab with output := some o }) }) ∧
      ∀ w1, tablet_bind_output w t none = some (1, w1) →
        pending w1 = pending w ∧ w1.output_created_signal = w.output_created_signal ∧
        tablet_unlinked w1 t ∧
        (∃ tab1, w1.tablets t = some tab1 ∧ tab1.output = w.output_list.head?)) ∧
    (w.output_list = [] →
      (∀ r w1, tablet_bind_output w t none = some (r, w1) →
        r = 0 ∧ pending w1 = t :: pending w ∧ (pending w1).count t = 1 ∧
        (∀ s, t ∉ (w1.seats s).tablet_list) ∧
        (∃ tab1, w1.tablets t = some tab1 ∧ tab1.output = none)) ∧
      (w.output_created_signal ≠ [] ∨ w.malloc_script.head? ≠ some false →
        ∃ w1, tablet_bind_output w t none = some (0, w1))) := by
  refine ⟨?_, ?_, ?_⟩
  · intro r w1 h
    rcases hl : w.output_list with _ | ⟨o, os⟩
    · obtain ⟨hr, -⟩ := bind_none_empty w w1 t r tab htab hout hl h
      subst hr
      simp
    · rw [bind_none_nonempty w t o os tab htab hl] at h
      simp only [Option.some.injEq, Prod.mk.injEq] at h
      obtain ⟨hr, -⟩ := h
      subst hr
      simp
  · intro o os hl
    have hb := bind_none_nonempty w t o os tab htab hl
    refine ⟨hb, ?_⟩
    intro w1 h
    rw [hb] at h
    simp only [Option.some.injEq, Prod.mk.injEq, true_and] at h
    subst h
    refine ⟨rfl, rfl, hun, _, setAt_same _ _ _, ?_⟩
    simp [hl]
  · intro hl
    refine ⟨?_, bind_none_empty_total w t tab htab hout hl⟩
    intro r w1 h
    obtain ⟨hr, hP, -, -, hS, hT, -⟩ := bind_none_empty w w1 t r tab htab hout hl h
    refine ⟨hr, hP, ?_, ?_, _, by rw [hT, setAt_same], rfl⟩
    · rw [hP, List.count_cons_self, List.count_eq_zero.mpr hun.1]
    · intro s
      rw [hS]
      exact hun.2 s

/-- Witness of C11: tablet 2 is bound to output 7 in the sample state with one
output, and put on the pending list in the sample state without outputs. -/
theorem bind_null_output_witness :
    (tablet_unlinked demo_unbound_world 2 ∧
      tablet_bind_output demo_unbound_world 2 none =
        some (1, { demo_unbound_world with
          bind_attempts := demo_unbound_world.bind_attempts ++ [2]
          tablets := setAt demo_unbound_world.tablets 2
            (some { seat := 0, type := .INTERNAL, output := some 7 }) })) ∧
    (tablet_unlinked demo_unbound_no_output 2 ∧
      ∃ w1, tablet_bind_output demo_unbound_no_output 2 none = some (0, w1)) :=
  have h1 : tablet_unlinked demo_unbound_world 2 :=
    ⟨by decide, fun s => by simp [demo_unbound_world]⟩
  have h2 : tablet_unlinked demo_unbound_no_output 2 :=
    ⟨by decide, fun s => by simp [demo_unbound_no_output]⟩
  ⟨⟨h1, ((bind_null_output demo_unbound_world 2 { seat := 0, type := .INTERNAL } rfl rfl h1).2.1
      7 [] rfl).1⟩,
   ⟨h2, ((bind_null_output demo_unbound_no_output 2 { seat := 0, type := .DISPLAY } rfl rfl
      h2).2.2 rfl).2 (Or.inr (by decide))⟩⟩

/-! ## Theorems: destroying a device whose tablet is pending -/

/-- C13, the code at the failing input: device 1 is created while no output
exists, so its tablet 2 is pending and the tablet capability bit of the device is
not set. `evdev_device_destroy` then frees the device and leaves tablet 2 on
the pending list, still pointing to device 1. A later output-created event
calls `tablet_bind_output` for tablet 2, which succeeds, and then writes the
capability bit of the freed device, which the embedding reports as a fault. -/
theorem destroy_keeps_pending_tablet :
    Reachable demo_one_pending ∧ pending demo_one_pending = [2] ∧
    (demo_one_pending.devices 1).map (fun dev => (dev.tablet, dev.caps.tablet)) =
      some (some 2, false) ∧
    (evdev_device_destroy demo_one_pending 1).map
        (fun w => (pending w, w.devices 1, (w.tablets 2).map (fun tab => tab.device))) =
      some ([2], none, some (some 1)) ∧
    ((evdev_device_destroy demo_one_pending 1).bind
        (fun w => tablet_bind_output w 2 (some 7))).map (fun r => r.1) = some 1 ∧
    ((evdev_device_destroy demo_one_pending 1).bind
        (fun w => output_created_emit w 7)).isNone = true := by
  refine ⟨demo_one_pending_reachable, by decide, by decide, by decide, by decide, by decide⟩

/-! ## Theorems: tablet axis events on a pending tablet -/

/-- C16, the code at the failing input: in the state reached by creating one
tablet device while no output exists, the device has tablet 2 and tablet 2 has
no output; a tablet axis event with X changed makes `handle_tablet_axis` read
the mode of the absent output, which the embedding reports as a fault, while an
axis event with only pressure changed is handled. -/
theorem tablet_axis_on_pending_tablet :
    Reachable demo_one_pending ∧
    (get_device demo_one_pending 10).map (fun dev => dev.tablet) = some (some 2) ∧
    (demo_one_pending.tablets 2).map (fun tab => tab.output) = some none ∧
    (evdev_device_process_event demo_one_pending
      { type := .TABLET_AXIS, device := 10,
        axis_has_changed := fun a => decide (a = .X) }).isNone = true ∧
    (evdev_device_process_event demo_one_pending
      { type := .TABLET_AXIS, device := 10,
        axis_has_changed := fun a => decide (a = .PRESSURE) }).isSome = true := by
  refine ⟨demo_one_pending_reachable, by decide, by decide, by decide, by decide⟩

/-! ## Theorems: outputs of devices -/

theorem demo_bound_world_reachable : Reachable demo_bound_world :=
  ⟨fun _ => { width := 800, height := 600 }, .EXTERNAL, fun _ => {}, [], demo_steps_bound, rfl⟩

theorem demo_bound_alone_reachable : Reachable demo_bound_alone :=
  ⟨fun _ => { width := 800, height := 600 }, .EXTERNAL, fun _ => {}, [],
    demo_steps_bound_alone, rfl⟩

/-- C15, the code at the failing input: device 1 is bound to output 7 by
`evdev_device_set_output` while the output list is empty; when output 7 is
destroyed `notify_output_destroy` sets the output of the device to `NULL` and
leaves the listener on the destroy signal of output 7; `evdev_device_destroy`
then skips the removal, because it tests `device->output`, and frees the device
with its listener still on that list. A device destroyed while its output is
still set is taken off the list. -/
theorem destroy_leaves_listener_linked :
    Reachable demo_bound_alone ∧
    (demo_bound_alone.output_destroy_signal 7,
      (demo_bound_alone.devices 1).map (fun dev => (dev.output, dev.output_destroy_listener))) =
      ([1], some (some 7, { notify := true, link := some 7 })) ∧
    (notify_output_destroy demo_bound_alone 1).map
        (fun w => (w.output_destroy_signal 7,
          (w.devices 1).map (fun dev => (dev.output, dev.output_destroy_listener)))) =
      some ([1], some (none, { notify := true, link := some 7 })) ∧
    ((notify_output_destroy demo_bound_alone 1).bind
        (fun w => evdev_device_destroy w 1)).map
        (fun w => (w.output_destroy_signal 7, w.devices 1)) = some ([1], none) ∧
    (evdev_device_destroy demo_bound_alone 1).map
        (fun w => (w.output_destroy_signal 7, w.devices 1)) = some ([], none) := by
  refine ⟨demo_bound_alone_reachable, by decide, by decide, by decide, by decide⟩

/-! ## Theorems: the listener of the output-created signal -/

/-- What `tablet_bind_output` does to the output-created signal: on success
nothing; on failure it puts the tablet on the list of the first listener, which
it allocates and registers only when the signal has no listener. -/
theorem bind_signal (w w1 : World) (t : Nat) (output : Option Nat) (r : Int)
    (h : tablet_bind_output w t output = some (r, w1)) :
    (r = 1 ∧ w1.output_created_signal = w.output_created_signal ∧
      w1.next_addr = w.next_addr) ∨
    (r = 0 ∧
      ((w.output_created_signal = [] ∧
          w1.output_created_signal = [{ addr := w.next_addr, tablet_list := [t] }] ∧
          w1.next_addr = w.next_addr + 1) ∨
       (∃ l rest, w.output_created_signal = l :: rest ∧
          w1.output_created_signal = { l with tablet_list := t :: l.tablet_list } :: rest ∧
          w1.next_addr = w.next_addr))) := by
  unfold tablet_bind_output at h
  cases htab : w.tablets t with
  | none => simp [htab] at h
  | some tab =>
    simp only [htab, Option.bind_eq_bind, Option.some_bind] at h
    cases htype : tab.type
    all_goals
      cases output with
      | some o =>
        simp only [htype, Option.pure_def, Option.some.injEq, Prod.mk.injEq] at h
        obtain ⟨hr, hw⟩ := h
        subst hw
        exact Or.inl ⟨hr.symm, rfl, rfl⟩
      | none =>
        simp only [htype] at h
        generalize (if wl_list_empty w.output_list = true then tab.output
          else w.output_list.head?) = out at h
        cases out with
        | some o =>
          simp only [Option.pure_def, Option.some.injEq, Prod.mk.injEq] at h
          obtain ⟨hr, hw⟩ := h
          subst hw
          exact Or.inl ⟨hr.symm, rfl, rfl⟩
        | none =>
          right
          simp only at h
          rcases hsig : w.output_created_signal with _ | ⟨l, rest⟩
          · simp only [hsig] at h
            split at h
            · simp at h
            · rename_i listener w2 hm
              obtain ⟨ha, hw2⟩ := malloc_some _ _ _ hm
              simp only [Option.pure_def, Option.some.injEq, Prod.mk.injEq] at h
              obtain ⟨hr, hw⟩ := h
              subst hw
              subst hw2
              subst ha
              refine ⟨hr.symm, Or.inl ⟨rfl, ?_, rfl⟩⟩
              simp [hsig, pending_insert, wl_list_insert]
          · simp only [hsig, Option.pure_def, Option.some.injEq, Prod.mk.injEq] at h
            obtain ⟨hr, hw⟩ := h
            subst hw
            exact ⟨hr.symm, Or.inr ⟨l, rest, rfl, by simp [pending_insert, wl_list_insert], rfl⟩⟩

/-! ## Theorems: what the binding of tablets leaves alone -/

theorem frame_refl (w : World) : Frame w w :=
  ⟨fun _ => rfl, fun _ => rfl, fun _ => rfl, fun _ => rfl, le_refl _⟩

theorem frame_trans {w w1 w2 : World} (h1 : Frame w w1) (h2 : Frame w1 w2) : Frame w w2 :=
  ⟨fun d => (h2.devices d).trans (h1.devices d), fun s => (h2.keyboard s).trans (h1.keyboard s),
    fun s => (h2.pointer s).trans (h1.pointer s), fun s => (h2.touch s).trans (h1.touch s),
    le_trans h1.next_addr h2.next_addr⟩

theorem frame_of_eq (w w1 : World) (hd : w1.devices = w.devices) (hs : w1.seats = w.seats)
    (hn : w.next_addr ≤ w1.next_addr) : Frame w w1 :=
  ⟨fun d => by rw [hd], fun s => by rw [hs], fun s => by rw [hs], fun s => by rw [hs], hn⟩

theorem bind_frame (w w1 : World) (t : Nat) (output : Option Nat) (r : Int)
    (h : tablet_bind_output w t output = some (r, w1)) :
    w1.seats = w.seats ∧ w1.devices = w.devices ∧ w.next_addr ≤ w1.next_addr ∧
      w1.output_destroy_signal = w.output_destroy_signal := by
  unfold tablet_bind_output at h
  cases htab : w.tablets t with
  | none => simp [htab] at h
  | some tab =>
    simp only [htab, Option.bind_eq_bind, Option.some_bind] at h
    cases htype : tab.type
    all_goals
      cases output with
      | some o =>
        simp only [htype, Option.pure_def, Option.some.injEq, Prod.mk.injEq] at h
        obtain ⟨hr, hw⟩ := h
        subst hw
        exact ⟨rfl, rfl, le_refl _, rfl⟩
      | none =>
        simp only [htype] at h
        generalize (if wl_list_empty w.output_list = true then tab.output
          else w.output_list.head?) = out at h
        cases out with
        | some o =>
          simp only [Option.pure_def, Option.some.injEq, Prod.mk.injEq] at h
          obtain ⟨hr, hw⟩ := h
          subst hw
          exact ⟨rfl, rfl, le_refl _, rfl⟩
        | none =>
          simp only at h
          rcases hsig : w.output_created_signal with _ | ⟨l, rest⟩
          · simp only [hsig] at h
            split at h
            · simp at h
            · rename_i listener w2 hm
              obtain ⟨ha, hw2⟩ := malloc_some _ _ _ hm
              simp only [Option.pure_def, Option.some.injEq, Prod.mk.injEq] at h
              obtain ⟨hr, hw⟩ := h
              subst hw
              subst hw2
              exact ⟨rfl, rfl, by simp, rfl⟩
          · simp only [hsig, Option.pure_def, Option.some.injEq, Prod.mk.injEq] at h
            obtain ⟨hr, hw⟩ := h
            subst hw
            exact ⟨rfl, rfl, le_refl _, rfl⟩

theorem body_frame (data : Option Nat) (w w1 : World) (t : Nat)
    (h : bind_unbound_tablets_body data w t = some w1) :
    Frame w w1 ∧ w1.output_destroy_signal = w.output_destroy_signal := by
  unfold bind_unbound_tablets_body at h
  obtain ⟨⟨r, w0⟩, hb, h⟩ := Option.bind_eq_some.mp h
  obtain ⟨hs, hd, hn, ho⟩ := bind_frame w w0 t data r hb
  by_cases hr : r ≠ 0
  · simp only [hr, ne_eq, not_false_eq_true, ↓reduceIte, Option.bind_eq_bind,
      Option.pure_def] at h
    obtain ⟨tab, htab, h⟩ := Option.bind_eq_some.mp h
    obtain ⟨w4, h4, h⟩ := Option.bind_eq_some.mp h
    simp only [Option.some.injEq] at h
    subst h
    unfold set_tablet_cap at h4
    simp only [Option.bind_eq_bind, Option.pure_def] at h4
    obtain ⟨tab4, -, h4⟩ := Option.bind_eq_some.mp h4
    obtain ⟨d, -, h4⟩ := Option.bind_eq_some.mp h4
    obtain ⟨dev, hdev, h4⟩ := Option.bind_eq_some.mp h4
    simp only [Option.some.injEq] at h4
    subst h4
    refine ⟨⟨?_, ?_, ?_, ?_, hn⟩, ho⟩
    · intro x
      simp only [notify, seat_tablet_list_insert, wl_list_remove_tablet] at hdev ⊢
      by_cases hx : x = d
      · subst hx
        rw [hd] at hdev
        simp [setAt, hdev, device_view]
      · simp [setAt, hx, hd]
    all_goals
      intro s
      simp only [notify, seat_tablet_list_insert, wl_list_remove_tablet, hs]
      by_cases hx : s = tab.seat
      · subst hx
        simp [setAt]
      · simp [setAt, hx]
  · simp only [hr, ↓reduceIte, Option.pure_def, Option.some.injEq] at h
    subst h
    exact ⟨frame_of_eq w w0 hd hs hn, ho⟩

theorem loop_frame (data : Option Nat) (ts : List Nat) :
    ∀ (w w1 : World), bind_unbound_tablets_loop data w ts = some w1 →
      Frame w w1 ∧ w1.output_destroy_signal = w.output_destroy_signal := by
  induction ts with
  | nil =>
    intro w w1 h
    simp only [bind_unbound_tablets_loop, Option.some.injEq] at h
    subst h
    exact ⟨frame_refl w, rfl⟩
  | cons t rest ih =>
    intro w w1 h
    simp only [bind_unbound_tablets_loop] at h
    cases hb : bind_unbound_tablets_body data w t with
    | none => simp [hb] at h
    | some w0 =>
      simp only [hb] at h
      obtain ⟨f1, o1⟩ := body_frame data w w0 t hb
      obtain ⟨f2, o2⟩ := ih w0 w1 h
      exact ⟨frame_trans f1 f2, o2.trans o1⟩

theorem callback_frame (data : Option Nat) (w w1 : World) (listener : Nat)
    (h : bind_unbound_tablets w listener data = some w1) :
    Frame w w1 ∧ w1.output_destroy_signal = w.output_destroy_signal := by
  unfold bind_unbound_tablets at h
  simp only [Option.bind_eq_bind, Option.pure_def] at h
  obtain ⟨l, -, h⟩ := Option.bind_eq_some.mp h
  obtain ⟨w0, h0, h⟩ := Option.bind_eq_some.mp h
  obtain ⟨l1, -, h⟩ := Option.bind_eq_some.mp h
  obtain ⟨f0, o0⟩ := loop_frame data l.tablet_list w w0 h0
  split at h
  · simp only [Option.some.injEq] at h
    subst h
    exact ⟨frame_trans f0 (frame_of_eq w0 _ rfl rfl (le_refl _)), o0⟩
  · simp only [Option.some.injEq] at h
    subst h
    exact ⟨f0, o0⟩

theorem emit_loop_frame (data : Option Nat) (ls : List Nat) :
    ∀ (w w1 : World), output_created_emit_loop data w ls = some w1 →
      Frame w w1 ∧ w1.output_destroy_signal = w.output_destroy_signal := by
  induction ls with
  | nil =>
    intro w w1 h
    simp only [output_created_emit_loop, Option.some.injEq] at h
    subst h
    exact ⟨frame_refl w, rfl⟩
  | cons a rest ih =>
    intro w w1 h
    simp only [output_created_emit_loop] at h
    cases hb : bind_unbound_tablets w a data with
    | none => simp [hb] at h
    | some w0 =>
      simp only [hb] at h
      obtain ⟨f1, o1⟩ := callback_frame data w w0 a hb
      obtain ⟨f2, o2⟩ := ih w0 w1 h
      exact ⟨frame_trans f1 f2, o2.trans o1⟩

theorem emit_frame (w w1 : World) (o : Nat) (h : output_created_emit w o = some w1) :
    Frame w w1 ∧ w1.output_destroy_signal = w.output_destroy_signal :=
  emit_loop_frame (some o) _ w w1 h

/-! ## Theorems: device counts of the seats -/

theorem create_tablet_frame (w w1 : World) (device : Nat) (ld : libinput_device)
    (seat t : Nat) (bound : Bool)
    (h : evdev_device_create_tablet w device ld seat = some (t, bound, w1)) :
    Frame w w1 ∧ w1.devices = w.devices ∧
      w1.output_destroy_signal = w.output_destroy_signal := by
  unfold evdev_device_create_tablet weston_seat_add_tablet at h
  rcases hm : malloc w with ⟨_ | a, w0⟩
  · simp [hm] at h
  · obtain ⟨ha, hw0⟩ := malloc_some w w0 a hm
    subst ha
    subst hw0
    simp only [hm, setAt_same, Option.bind_eq_bind, Option.some_bind] at h
    obtain ⟨⟨r, w2⟩, hb, h⟩ := Option.bind_eq_some.mp h
    obtain ⟨hs, hd, hn, ho⟩ := bind_frame _ w2 _ none r hb
    obtain ⟨tab3, -, h⟩ := Option.bind_eq_some.mp h
    simp only [Option.pure_def, Option.some.injEq, Prod.mk.injEq] at h
    obtain ⟨-, -, hw⟩ := h
    subst hw
    simp only at hs hd hn ho
    by_cases hr : r ≠ 0
    · simp only [hr, ne_eq, not_false_eq_true, decide_True, ↓reduceIte, notify,
        seat_tablet_list_insert]
      refine ⟨⟨fun d => by rw [hd], ?_, ?_, ?_, by simp only; omega⟩, hd, ho⟩
      all_goals
        intro s
        simp only [hs]
        by_cases hx : s = seat
        · subst hx
          simp [setAt]
        · simp [setAt, hx]
    · simp only [hr, decide_False, Bool.false_eq_true, ↓reduceIte]
      exact ⟨⟨fun d => by rw [hd], fun s => by rw [hs], fun s => by rw [hs],
        fun s => by rw [hs], by simp only; omega⟩, hd, ho⟩

theorem seat_inits_counts (w0 : World) (seat : Nat) (k p t : Bool) :
    let w4 := (if t = true then
          weston_seat_init_touch
            (if p = true then
              weston_seat_init_pointer
                (if k = true then weston_seat_init_keyboard w0 seat else w0) seat
            else if k = true then weston_seat_init_keyboard w0 seat else w0) seat
        else
          if p = true then
            weston_seat_init_pointer
              (if k = true then weston_seat_init_keyboard w0 seat else w0) seat
          else if k = true then weston_seat_init_keyboard w0 seat else w0)
    w4.devices = w0.devices ∧ w4.next_addr = w0.next_addr ∧
      w4.output_destroy_signal = w0.output_destroy_signal ∧
      (∀ s, (w4.seats s).keyboard_device_count =
        (w0.seats s).keyboard_device_count + if s = seat ∧ k = true then 1 else 0) ∧
      (∀ s, (w4.seats s).pointer_device_count =
        (w0.seats s).pointer_device_count + if s = seat ∧ p = true then 1 else 0) ∧
      (∀ s, (w4.seats s).touch_device_count =
        (w0.seats s).touch_device_count + if s = seat ∧ t = true then 1 else 0) := by
  intro w4
  refine ⟨?_, ?_, ?_, ?_, ?_, ?_⟩
  · cases k <;> cases p <;> cases t <;> rfl
  · cases k <;> cases p <;> cases t <;> rfl
  · cases k <;> cases p <;> cases t <;> rfl
  all_goals
    intro s
    by_cases hs : s = seat
    · subst hs
      cases k <;> cases p <;> cases t <;>
        simp [w4, weston_seat_init_keyboard, weston_seat_init_pointer, weston_seat_init_touch,
          setAt]
    · cases k <;> cases p <;> cases t <;>
        simp [w4, weston_seat_init_keyboard, weston_seat_init_pointer, weston_seat_init_touch,
          setAt, hs]

/-- What `evdev_device_create` does to the devices and the device counts: a
failed allocation changes only the allocator script; otherwise one device
record is added, with the seat and the capabilities asked for, and each count
of that seat goes up by one exactly for a capability the device has. -/
theorem create_counts (w w1 : World) (ld : libinput_device) (seat : Nat) (r : Option Nat)
    (h : evdev_device_create w ld seat = some (r, w1)) :
    (r = none ∧ ∃ rest, w1 = { w with malloc_script := rest }) ∨
    (r = some w.next_addr ∧ w.next_addr < w1.next_addr ∧
      (∃ dev1, w1.devices = setAt w.devices w.next_addr (some dev1) ∧ dev1.seat = seat ∧
        dev1.caps.keyboard = ld.cap_keyboard ∧ dev1.caps.pointer = ld.cap_pointer ∧
        dev1.caps.touch = ld.cap_touch ∧ dev1.output = none ∧
        dev1.output_destroy_listener = {}) ∧
      w1.output_destroy_signal = w.output_destroy_signal ∧
      (∀ s, (w1.seats s).keyboard_device_count =
        (w.seats s).keyboard_device_count + if s = seat ∧ ld.cap_keyboard = true then 1 else 0) ∧
      (∀ s, (w1.seats s).pointer_device_count =
        (w.seats s).pointer_device_count + if s = seat ∧ ld.cap_pointer = true then 1 else 0) ∧
      (∀ s, (w1.seats s).touch_device_count =
        (w.seats s).touch_device_count + if s = seat ∧ ld.cap_touch = true then 1 else 0)) := by
  unfold evdev_device_create at h
  rcases hm : malloc w with ⟨_ | a, w0⟩
  · obtain ⟨rest, hw0⟩ := malloc_none w w0 hm
    simp only [hm, Option.some.injEq, Prod.mk.injEq] at h
    left
    exact ⟨h.1.symm, rest, by rw [← h.2, hw0]⟩
  · obtain ⟨ha, hw0⟩ := malloc_some w w0 a hm
    subst ha
    right
    simp only [hm, Option.bind_eq_bind] at h
    obtain ⟨hd4, hn4, ho4, hk4, hp4, ht4⟩ :=
      seat_inits_counts w0 seat ld.cap_keyboard ld.cap_pointer ld.cap_touch
    generalize (if ld.cap_touch = true then
          weston_seat_init_touch
            (if ld.cap_pointer = true then
              weston_seat_init_pointer
                (if ld.cap_keyboard = true then weston_seat_init_keyboard w0 seat else w0) seat
            else if ld.cap_keyboard = true then weston_seat_init_keyboard w0 seat else w0) seat
        else
          if ld.cap_pointer = true then
            weston_seat_init_pointer
              (if ld.cap_keyboard = true then weston_seat_init_keyboard w0 seat else w0) seat
          else if ld.cap_keyboard = true then weston_seat_init_keyboard w0 seat else w0) = w4
      at h hd4 hn4 ho4 hk4 hp4 ht4
    have e0d : w0.devices = w.devices := by rw [hw0]
    have e0n : w0.next_addr = w.next_addr + 1 := by rw [hw0]
    have e0o : w0.output_destroy_signal = w.output_destroy_signal := by rw [hw0]
    have e0s : w0.seats = w.seats := by rw [hw0]
    rw [e0s] at hk4 hp4 ht4
    cases hc : ld.cap_tablet
    · simp only [hc, Bool.false_eq_true, ↓reduceIte, Option.some_bind, Option.pure_def,
        Option.some.injEq, Prod.mk.injEq] at h
      obtain ⟨hr, hw⟩ := h
      subst hw
      refine ⟨hr.symm, by simp only; omega,
        ⟨{ seat := seat, device := ld.id,
           caps := { keyboard := ld.cap_keyboard, pointer := ld.cap_pointer,
                     touch := ld.cap_touch, tablet := false },
           tablet := none }, ?_, rfl, rfl, rfl, rfl, rfl, rfl⟩, ?_,
        hk4, hp4, ht4⟩
      · simp only [hd4, e0d]
      · simp only [ho4, e0o]
    · simp only [hc, ↓reduceIte] at h
      obtain ⟨⟨ot, bound, w5⟩, hq, h⟩ := Option.bind_eq_some.mp h
      obtain ⟨⟨t, b2, w5b⟩, hct, hq2⟩ := Option.map_eq_some'.mp hq
      simp only [Prod.mk.injEq] at hq2
      obtain ⟨h1, h2, h3⟩ := hq2
      subst h1 h2 h3
      simp only [Option.pure_def, Option.some.injEq, Prod.mk.injEq] at h
      obtain ⟨hr, hw⟩ := h
      subst hw
      obtain ⟨f5, hd5, ho5⟩ := create_tablet_frame w4 w5b w.next_addr ld seat t b2 hct
      have hn5 := f5.next_addr
      refine ⟨hr.symm, by simp only; omega,
        ⟨{ seat := seat, device := ld.id,
           caps := { keyboard := ld.cap_keyboard, pointer := ld.cap_pointer,
                     touch := ld.cap_touch, tablet := b2 },
           tablet := some t }, ?_, rfl, rfl, rfl, rfl, rfl, rfl⟩, ?_, ?_, ?_, ?_⟩
      · simp only [hd5, hd4, e0d]
      · simp only [ho5, ho4, e0o]
      · intro s
        simp only [f5.keyboard s, hk4 s]
      · intro s
        simp only [f5.pointer s, hp4 s]
      · intro s
        simp only [f5.touch s, ht4 s]

theorem seat_releases_counts (w : World) (seat : Nat) (p k t : Bool) :
    let w3 := (if t = true then
          weston_seat_release_touch
            (if k = true then
              weston_seat_release_keyboard
                (if p = true then weston_seat_release_pointer w seat else w) seat
            else if p = true then weston_seat_release_pointer w seat else w) seat
        else
          if k = true then
            weston_seat_release_keyboard
              (if p = true then weston_seat_release_pointer w seat else w) seat
          else if p = true then weston_seat_release_pointer w seat else w)
    w3.devices = w.devices ∧ w3.next_addr = w.next_addr ∧
      w3.output_destroy_signal = w.output_destroy_signal ∧
      (∀ s, (w3.seats s).keyboard_device_count =
        (w.seats s).keyboard_device_count - if s = seat ∧ k = true then 1 else 0) ∧
      (∀ s, (w3.seats s).pointer_device_count =
        (w.seats s).pointer_device_count - if s = seat ∧ p = true then 1 else 0) ∧
      (∀ s, (w3.seats s).touch_device_count =
        (w.seats s).touch_device_count - if s = seat ∧ t = true then 1 else 0) := by
  intro w3
  refine ⟨?_, ?_, ?_, ?_, ?_, ?_⟩
  · cases k <;> cases p <;> cases t <;> rfl
  · cases k <;> cases p <;> cases t <;> rfl
  · cases k <;> cases p <;> cases t <;> rfl
  all_goals
    intro s
    by_cases hs : s = seat
    · subst hs
      cases k <;> cases p <;> cases t <;>
        simp [w3, weston_seat_release_keyboard, weston_seat_release_pointer,
          weston_seat_release_touch, setAt]
    · cases k <;> cases p <;> cases t <;>
        simp [w3, weston_seat_release_keyboard, weston_seat_release_pointer,
          weston_seat_release_touch, setAt, hs]

/-- What `evdev_device_destroy` does to the devices, the device counts and the
destroy signals of the outputs: the device record is freed, each count of its
seat goes down by one exactly for a capability bit the device has, and the
listener of the device is unlinked exactly when the output of the device is
set. -/
theorem destroy_counts (w w1 : World) (d : Nat) (h : evdev_device_destroy w d = some w1) :
    ∃ dev, w.devices d = some dev ∧ w1.devices = setAt w.devices d none ∧
      w1.next_addr = w.next_addr ∧
      (w1.output_destroy_signal =
        if dev.output.isSome then fun o => wl_list_remove (w.output_destroy_signal o) d
        else w.output_destroy_signal) ∧
      (∀ s, (w1.seats s).keyboard_device_count =
        (w.seats s).keyboard_device_count -
          if s = dev.seat ∧ dev.caps.keyboard = true then 1 else 0) ∧
      (∀ s, (w1.seats s).pointer_device_count =
        (w.seats s).pointer_device_count -
          if s = dev.seat ∧ dev.caps.pointer = true then 1 else 0) ∧
      (∀ s, (w1.seats s).touch_device_count =
        (w.seats s).touch_device_count -
          if s = dev.seat ∧ dev.caps.touch = true then 1 else 0) := by
  unfold evdev_device_destroy at h
  cases hd : w.devices d with
  | none => simp [hd] at h
  | some dev =>
    simp only [hd, Option.bind_eq_bind, Option.some_bind] at h
    refine ⟨dev, rfl, ?_⟩
    obtain ⟨hd3, hn3, ho3, hk3, hp3, ht3⟩ :=
      seat_releases_counts w dev.seat dev.caps.pointer dev.caps.keyboard dev.caps.touch
    generalize (if dev.caps.touch = true then
          weston_seat_release_touch
            (if dev.caps.keyboard = true then
              weston_seat_release_keyboard
                (if dev.caps.pointer = true then weston_seat_release_pointer w dev.seat else w)
                dev.seat
            else if dev.caps.pointer = true then weston_seat_release_pointer w dev.seat else w)
            dev.seat
        else
          if dev.caps.keyboard = true then
            weston_seat_release_keyboard
              (if dev.caps.pointer = true then weston_seat_release_pointer w dev.seat else w)
              dev.seat
          else if dev.caps.pointer = true then weston_seat_release_pointer w dev.seat else w) = w3
      at h hd3 hn3 ho3 hk3 hp3 ht3
    obtain ⟨w4, h4, h⟩ := Option.bind_eq_some.mp h
    obtain ⟨w5, h5, h⟩ := Option.bind_eq_some.mp h
    simp only [Option.pure_def, Option.some.injEq] at h
    subst h
    have e4 : w4.devices = w3.devices ∧ w4.next_addr = w3.next_addr ∧
        w4.output_destroy_signal = w3.output_destroy_signal ∧
        (∀ s, (w4.seats s).keyboard_device_count = (w3.seats s).keyboard_device_count) ∧
        (∀ s, (w4.seats s).pointer_device_count = (w3.seats s).pointer_device_count) ∧
        (∀ s, (w4.seats s).touch_device_count = (w3.seats s).touch_device_count) := by
      cases hc : dev.caps.tablet
      · simp only [hc, Bool.false_eq_true, ↓reduceIte, Option.some.injEq] at h4
        subst h4
        exact ⟨rfl, rfl, rfl, fun _ => rfl, fun _ => rfl, fun _ => rfl⟩
      · simp only [hc, ↓reduceIte, weston_seat_release_tablet, Option.bind_eq_bind,
          Option.pure_def] at h4
        obtain ⟨t, -, h4⟩ := Option.bind_eq_some.mp h4
        obtain ⟨tab, -, h4⟩ := Option.bind_eq_some.mp h4
        simp only [Option.some.injEq] at h4
        subst h4
        exact ⟨rfl, rfl, rfl, fun _ => rfl, fun _ => rfl, fun _ => rfl⟩
    obtain ⟨hd4, hn4, ho4, hk4, hp4, ht4⟩ := e4
    have e5 : w5.devices = w4.devices ∧ w5.next_addr = w4.next_addr ∧ w5.seats = w4.seats ∧
        w5.output_destroy_signal =
          if dev.output.isSome then fun o => wl_list_remove (w4.output_destroy_signal o) d
          else w4.output_destroy_signal := by
      cases ho : dev.output with
      | none =>
        simp only [ho, Option.some.injEq] at h5
        subst h5
        exact ⟨rfl, rfl, rfl, rfl⟩
      | some o =>
        simp only [ho] at h5
        cases hl : dev.output_destroy_listener.link with
        | none => simp [hl] at h5
        | some l =>
          simp only [hl, Option.some.injEq] at h5
          subst h5
          exact ⟨rfl, rfl, rfl, rfl⟩
    obtain ⟨hd5, hn5, hs5, ho5⟩ := e5
    refine ⟨?_, ?_, ?_, ?_, ?_, ?_⟩
    · simp only [hd5, hd4, hd3]
    · simp only [hn5, hn4, hn3]
    · simp only [ho5, ho4, ho3]
    · intro s
      simp only [hs5, hk4 s, hk3 s]
    · intro s
      simp only [hs5, hp4 s, hp3 s]
    · intro s
      simp only [hs5, ht4 s, ht3 s]

theorem countP_range_extend (f : Nat → Bool) (n : Nat) (hf : ∀ i, n ≤ i → f i = false) :
    ∀ k, (List.range (n + k)).countP f = (List.range n).countP f := by
  intro k
  induction k with
  | zero => rfl
  | succ k ih =>
    rw [← Nat.add_assoc, List.range_succ, List.countP_append, ih]
    simp [hf (n + k) (by omega)]

theorem countP_range_congr (f g : Nat → Bool) (n : Nat) (h : ∀ i, i < n → f i = g i) :
    (List.range n).countP f = (List.range n).countP g := by
  apply List.countP_congr
  intro i hi
  rw [h i (List.mem_range.mp hi)]

theorem countP_range_update (f g : Nat → Bool) (i : Nat) (hg : ∀ j, j ≠ i → g j = f j) :
    ∀ n, i < n →
      (List.range n).countP g + (if f i = true then 1 else 0) =
        (List.range n).countP f + (if g i = true then 1 else 0) := by
  intro n
  induction n with
  | zero => intro h; omega
  | succ n ih =>
    intro hi
    rw [List.range_succ, List.countP_append, List.countP_append]
    by_cases hin : i = n
    · subst hin
      have hc : (List.range i).countP g = (List.range i).countP f :=
        countP_range_congr g f i (fun j hj => hg j (by omega))
      rw [hc]
      cases hfi : f i <;> cases hgi : g i <;> simp [hfi, hgi]
    · have := ih (by omega)
      have hn : g n = f n := hg n (fun e => hin e.symm)
      simp only [List.countP_cons, List.countP_nil, hn] at this ⊢
      omega

theorem has_cap_frame (w w1 : World) (s d : Nat)
    (h : (w1.devices d).map device_view = (w.devices d).map device_view) :
    has_cap w1 (fun c => c.keyboard) s d = has_cap w (fun c => c.keyboard) s d ∧
    has_cap w1 (fun c => c.pointer) s d = has_cap w (fun c => c.pointer) s d ∧
    has_cap w1 (fun c => c.touch) s d = has_cap w (fun c => c.touch) s d := by
  unfold has_cap
  cases h1 : w1.devices d with
  | none =>
    cases h0 : w.devices d with
    | none => simp
    | some dev0 => simp [h1, h0] at h
  | some dev1 =>
    cases h0 : w.devices d with
    | none => simp [h1, h0] at h
    | some dev0 =>
      simp only [h1, h0, Option.map_some', Option.some.injEq, device_view,
        Prod.mk.injEq] at h
      obtain ⟨e1, e2, e3, e4, -⟩ := h
      simp [e1, e2, e3, e4]

theorem live_count_frame (w w1 : World) (hi : CountInv w) (hf : Frame w w1) (s : Nat) :
    live_count w1 (fun c => c.keyboard) s = live_count w (fun c => c.keyboard) s ∧
    live_count w1 (fun c => c.pointer) s = live_count w (fun c => c.pointer) s ∧
    live_count w1 (fun c => c.touch) s = live_count w (fun c => c.touch) s := by
  have hk : ∀ cap : seat_caps → Bool,
      (∀ d, has_cap w1 cap s d = has_cap w cap s d) →
      live_count w1 cap s = live_count w cap s := by
    intro cap hcap
    unfold live_count
    obtain ⟨k, hk⟩ : ∃ k, w1.next_addr = w.next_addr + k :=
      ⟨w1.next_addr - w.next_addr, by have := hf.next_addr; omega⟩
    rw [hk, countP_range_extend _ _ _ k]
    · exact countP_range_congr _ _ _ (fun i _ => hcap i)
    · intro i hi'
      rw [hcap i]
      simp [has_cap, hi.fresh i hi']
  exact ⟨hk _ (fun d => (has_cap_frame w w1 s d (hf.devices d)).1),
    hk _ (fun d => (has_cap_frame w w1 s d (hf.devices d)).2.1),
    hk _ (fun d => (has_cap_frame w w1 s d (hf.devices d)).2.2)⟩

theorem countinv_frame (w w1 : World) (hi : CountInv w) (hf : Frame w w1) : CountInv w1 := by
  constructor
  · intro d hd
    have h0 := hi.fresh d (le_trans hf.next_addr hd)
    have := hf.devices d
    rw [h0] at this
    simpa using this
  · intro s
    rw [hf.keyboard s, hi.keyboard s, (live_count_frame w w1 hi hf s).1]
  · intro s
    rw [hf.pointer s, hi.pointer s, (live_count_frame w w1 hi hf s).2.1]
  · intro s
    rw [hf.touch s, hi.touch s, (live_count_frame w w1 hi hf s).2.2]

theorem live_count_add (w w1 : World) (cap : seat_caps → Bool) (s : Nat) (dev1 : evdev_device)
    (hi : CountInv w) (hn : w.next_addr < w1.next_addr)
    (hd : w1.devices = setAt w.devices w.next_addr (some dev1)) :
    live_count w1 cap s =
      live_count w cap s + if dev1.seat = s ∧ cap dev1.caps = true then 1 else 0 := by
  unfold live_count
  have hg : ∀ j, j ≠ w.next_addr → has_cap w1 cap s j = has_cap w cap s j := by
    intro j hj
    simp [has_cap, hd, setAt, hj]
  have hf0 : has_cap w cap s w.next_addr = false := by
    simp [has_cap, hi.fresh w.next_addr (le_refl _)]
  have hg1 : has_cap w1 cap s w.next_addr = (decide (dev1.seat = s) && cap dev1.caps) := by
    simp [has_cap, hd, setAt]
  have hu := countP_range_update (has_cap w cap s) (has_cap w1 cap s) w.next_addr hg
    w1.next_addr hn
  obtain ⟨k, hk⟩ : ∃ k, w1.next_addr = w.next_addr + k :=
    ⟨w1.next_addr - w.next_addr, by omega⟩
  have he := countP_range_extend (has_cap w cap s) w.next_addr
    (fun i hi' => by simp [has_cap, hi.fresh i hi']) k
  rw [← hk] at he
  rw [hf0, hg1, he] at hu
  simp only [Bool.false_eq_true, ↓reduceIte, Nat.add_zero, Bool.and_eq_true,
    decide_eq_true_eq] at hu
  exact hu

theorem live_count_remove (w w1 : World) (cap : seat_caps → Bool) (s d : Nat)
    (dev : evdev_device) (hi : CountInv w) (hn : w1.next_addr = w.next_addr)
    (hdev : w.devices d = some dev) (hd : w1.devices = setAt w.devices d none) :
    live_count w1 cap s + (if dev.seat = s ∧ cap dev.caps = true then 1 else 0) =
      live_count w cap s := by
  unfold live_count
  have hlt : d < w.next_addr := by
    by_contra hge
    have := hi.fresh d (by omega)
    rw [this] at hdev
    simp at hdev
  have hg : ∀ j, j ≠ d → has_cap w1 cap s j = has_cap w cap s j := by
    intro j hj
    simp [has_cap, hd, setAt, hj]
  have hf0 : has_cap w cap s d = (decide (dev.seat = s) && cap dev.caps) := by
    simp [has_cap, hdev]
  have hg1 : has_cap w1 cap s d = false := by
    simp [has_cap, hd, setAt]
  have hu := countP_range_update (has_cap w cap s) (has_cap w1 cap s) d hg w.next_addr hlt
  rw [hf0, hg1] at hu
  rw [hn]
  simp only [Bool.false_eq_true, ↓reduceIte, Nat.add_zero, Bool.and_eq_true,
    decide_eq_true_eq] at hu
  exact hu

theorem countinv_create (w w1 : World) (ld : libinput_device) (seat : Nat) (r : Option Nat)
    (hi : CountInv w) (h : evdev_device_create w ld seat = some (r, w1)) : CountInv w1 := by
  rcases create_counts w w1 ld seat r h with ⟨-, rest, hw⟩ |
    ⟨-, hn, ⟨dev1, hd, hseat, hk, hp, ht, -, -⟩, -, ck, cp, ct⟩
  · subst hw
    exact countinv_frame w _ hi (frame_of_eq w _ rfl rfl (le_refl _))
  · constructor
    · intro d hd'
      rw [hd, setAt_other _ _ _ _ (by omega)]
      exact hi.fresh d (by omega)
    · intro s
      rw [ck s, hi.keyboard s, live_count_add w w1 _ s dev1 hi hn hd, hseat, hk]
      by_cases hs : s = seat
      · subst hs
        cases hcap : ld.cap_keyboard <;> simp [hcap]
      · have : ¬ seat = s := fun e => hs e.symm
        simp [hs, this]
    · intro s
      rw [cp s, hi.pointer s, live_count_add w w1 _ s dev1 hi hn hd, hseat, hp]
      by_cases hs : s = seat
      · subst hs
        cases hcap : ld.cap_pointer <;> simp [hcap]
      · have : ¬ seat = s := fun e => hs e.symm
        simp [hs, this]
    · intro s
      rw [ct s, hi.touch s, live_count_add w w1 _ s dev1 hi hn hd, hseat, ht]
      by_cases hs : s = seat
      · subst hs
        cases hcap : ld.cap_touch <;> simp [hcap]
      · have : ¬ seat = s := fun e => hs e.symm
        simp [hs, this]

theorem countinv_destroy (w w1 : World) (d : Nat) (hi : CountInv w)
    (h : evdev_device_destroy w d = some w1) : CountInv w1 := by
  obtain ⟨dev, hdev, hd, hn, -, ck, cp, ct⟩ := destroy_counts w w1 d h
  constructor
  · intro x hx
    rw [hd]
    by_cases hxd : x = d
    · subst hxd
      exact setAt_same _ _ _
    · rw [setAt_other _ _ _ _ hxd]
      exact hi.fresh x (by omega)
  · intro s
    have := live_count_remove w w1 (fun c => c.keyboard) s d dev hi hn hdev hd
    rw [ck s, hi.keyboard s, ← this]
    by_cases hs : s = dev.seat
    · subst hs
      cases hcap : dev.caps.keyboard <;> simp [hcap]
    · have : ¬ dev.seat = s := fun e => hs e.symm
      simp [hs, this]
  · intro s
    have := live_count_remove w w1 (fun c => c.pointer) s d dev hi hn hdev hd
    rw [cp s, hi.pointer s, ← this]
    by_cases hs : s = dev.seat
    · subst hs
      cases hcap : dev.caps.pointer <;> simp [hcap]
    · have : ¬ dev.seat = s := fun e => hs e.symm
      simp [hs, this]
  · intro s
    have := live_count_remove w w1 (fun c => c.touch) s d dev hi hn hdev hd
    rw [ct s, hi.touch s, ← this]
    by_cases hs : s = dev.seat
    · subst hs
      cases hcap : dev.caps.touch <;> simp [hcap]
    · have : ¬ dev.seat = s := fun e => hs e.symm
      simp [hs, this]

theorem set_output_frame (w w1 : World) (d o : Nat)
    (h : evdev_device_set_output w d o = some w1) : Frame w w1 := by
  obtain ⟨dev, hdev, hd, -, -, hn, -, hs⟩ := set_output_spec w w1 d o h
  refine ⟨?_, fun s => by rw [hs s], fun s => by rw [hs s], fun s => by rw [hs s], by omega⟩
  intro x
  rw [hd]
  by_cases hx : x = d
  · subst hx
    simp [setAt, hdev, device_view]
  · simp [setAt, hx]

theorem notify_output_destroy_frame (w w1 : World) (d : Nat)
    (h : notify_output_destroy w d = some w1) : Frame w w1 := by
  obtain ⟨dev, hdev, hcase⟩ := notify_output_destroy_cases w w1 d h
  rcases hcase with ⟨-, o, os, -, hs⟩ | ⟨-, rfl⟩
  · exact set_output_frame w w1 d o hs
  · refine ⟨?_, fun _ => rfl, fun _ => rfl, fun _ => rfl, le_refl _⟩
    intro x
    by_cases hx : x = d
    · subst hx
      simp [setAt, hdev, device_view]
    · simp [setAt, hx]

theorem countinv_step (w w1 : World) (s : Step) (hi : CountInv w) (h : step w s = some w1) :
    CountInv w1 := by
  cases s with
  | create ld seat =>
    simp only [step, Option.map_eq_some'] at h
    obtain ⟨⟨r, w2⟩, hc, rfl⟩ := h
    exact countinv_create w w2 ld seat r hi hc
  | destroy d => exact countinv_destroy w w1 d hi h
  | output_created o => exact countinv_frame w w1 hi (emit_frame w w1 o h).1
  | output_list_insert o =>
    simp only [step, Option.some.injEq] at h
    subst h
    exact countinv_frame w _ hi (frame_of_eq w _ rfl rfl (le_refl _))
  | output_list_remove o =>
    simp only [step, Option.some.injEq] at h
    subst h
    exact countinv_frame w _ hi (frame_of_eq w _ rfl rfl (le_refl _))
  | set_malloc_script sc =>
    simp only [step, Option.some.injEq] at h
    subst h
    exact countinv_frame w _ hi (frame_of_eq w _ rfl rfl (le_refl _))
  | set_output d o => exact countinv_frame w w1 hi (set_output_frame w w1 d o h)
  | output_destroy_notify d =>
    exact countinv_frame w w1 hi (notify_output_destroy_frame w w1 d h)

theorem countinv_run (steps : List Step) :
    ∀ (w w1 : World), CountInv w → run w steps = some w1 → CountInv w1 := by
  induction steps with
  | nil =>
    intro w w1 hi h
    simp only [run, Option.some.injEq] at h
    exact h ▸ hi
  | cons s rest ih =>
    intro w w1 hi h
    simp only [run] at h
    cases hs : step w s with
    | none => simp [hs] at h
    | some w0 =>
      simp only [hs] at h
      exact ih w0 w1 (countinv_step w w0 s hi hs) h

theorem countinv_start (outputs : Nat → weston_output) (ty : wl_tablet_manager_tablet_type)
    (handles : Nat → libinput_tool) (script : List Bool) :
    CountInv (World.start outputs ty handles script) := by
  have hz : ∀ (cap : seat_caps → Bool) (s : Nat),
      live_count (World.start outputs ty handles script) cap s = 0 := by
    intro cap s
    unfold live_count
    rw [List.countP_eq_zero]
    intro a _
    simp [has_cap, World.start]
  constructor
  · intro d _
    rfl
  · intro s
    rw [hz]
    rfl
  · intro s
    rw [hz]
    rfl
  · intro s
    rw [hz]
    rfl

theorem reachable_countinv (w : World) (h : Reachable w) : CountInv w := by
  obtain ⟨outputs, ty, handles, script, steps, hr⟩ := h
  exact countinv_run steps _ w (countinv_start outputs ty handles script) hr

theorem create_total_no_tablet (w : World) (ld : libinput_device) (seat : Nat)
    (hm : w.malloc_script.head? ≠ some false) (hc : ld.cap_tablet = false) :
    ∃ w1, evdev_device_create w ld seat = some (some w.next_addr, w1) := by
  unfold evdev_device_create
  rcases malloc_cases w with ⟨rest, hr, -⟩ | ⟨h1, -⟩
  · rw [hr] at hm
    exact absurd rfl hm
  · simp [h1, hc]

theorem live_count_no_devices (w : World) (cap : seat_caps → Bool) (s : Nat)
    (h : ∀ x dev, w.devices x = some dev → dev.seat ≠ s) : live_count w cap s = 0 := by
  unfold live_count
  rw [List.countP_eq_zero]
  intro a _
  unfold has_cap
  cases hd : w.devices a with
  | none => simp
  | some dev => simp [h a dev hd]

/-- C12: in every reachable state each of the keyboard, pointer and touch
counts of a seat is the number of live devices of the seat with that capability,
so it is not negative; `evdev_device_create` raises each count of the seat of
the new device by one exactly for a capability the device has and
`evdev_device_destroy` lowers it by one exactly for a capability the destroyed
device has, the counts of other seats staying as they are. Creating a device
with keyboard and pointer capability only on a seat without devices succeeds
when the allocation does and takes the keyboard and pointer counts from 0 to 1
and leaves the touch count at 0. -/
theorem seat_counts_match_devices (w : World) (hr : Reachable w) (s : Nat) :
    ((w.seats s).keyboard_device_count = ((live_count w (fun c => c.keyboard) s : Nat) : Int) ∧
      (w.seats s).pointer_device_count = ((live_count w (fun c => c.pointer) s : Nat) : Int) ∧
      (w.seats s).touch_device_count = ((live_count w (fun c => c.touch) s : Nat) : Int)) ∧
    (0 ≤ (w.seats s).keyboard_device_count ∧ 0 ≤ (w.seats s).pointer_device_count ∧
      0 ≤ (w.seats s).touch_device_count) ∧
    (∀ ld seat d w1, evdev_device_create w ld seat = some (some d, w1) →
      (w1.seats s).keyboard_device_count =
        (w.seats s).keyboard_device_count + (if s = seat ∧ ld.cap_keyboard = true then 1 else 0) ∧
      (w1.seats s).pointer_device_count =
        (w.seats s).pointer_device_count + (if s = seat ∧ ld.cap_pointer = true then 1 else 0) ∧
      (w1.seats s).touch_device_count =
        (w.seats s).touch_device_count + (if s = seat ∧ ld.cap_touch = true then 1 else 0)) ∧
    (∀ d w1, evdev_device_destroy w d = some w1 →
      ∃ dev, w.devices d = some dev ∧ w1.devices d = none ∧
        (w1.seats s).keyboard_device_count =
          (w.seats s).keyboard_device_count -
            (if s = dev.seat ∧ dev.caps.keyboard = true then 1 else 0) ∧
        (w1.seats s).pointer_device_count =
          (w.seats s).pointer_device_count -
            (if s = dev.seat ∧ dev.caps.pointer = true then 1 else 0) ∧
        (w1.seats s).touch_device_count =
          (w.seats s).touch_device_count -
            (if s = dev.seat ∧ dev.caps.touch = true then 1 else 0)) ∧
    (∀ ld, (∀ x dev, w.devices x = some dev → dev.seat ≠ s) →
      ld.cap_keyboard = true → ld.cap_pointer = true → ld.cap_touch = false →
      ld.cap_tablet = false →
      ((w.seats s).keyboard_device_count = 0 ∧ (w.seats s).pointer_device_count = 0 ∧
        (w.seats s).touch_device_count = 0) ∧
      (w.malloc_script.head? ≠ some false →
        ∃ d w1, evdev_device_create w ld s = some (some d, w1)) ∧
      ∀ d w1, evdev_device_create w ld s = some (some d, w1) →
        (w1.seats s).keyboard_device_count = 1 ∧ (w1.seats s).pointer_device_count = 1 ∧
        (w1.seats s).touch_device_count = 0) := by
  have hi := reachable_countinv w hr
  have hcreate : ∀ ld seat d w1, evdev_device_create w ld seat = some (some d, w1) →
      (w1.seats s).keyboard_device_count =
        (w.seats s).keyboard_device_count + (if s = seat ∧ ld.cap_keyboard = true then 1 else 0) ∧
      (w1.seats s).pointer_device_count =
        (w.seats s).pointer_device_count + (if s = seat ∧ ld.cap_pointer = true then 1 else 0) ∧
      (w1.seats s).touch_device_count =
        (w.seats s).touch_device_count + (if s = seat ∧ ld.cap_touch = true then 1 else 0) := by
    intro ld seat d w1 h
    rcases create_counts w w1 ld seat _ h with ⟨hn, -⟩ | ⟨-, -, -, -, ck, cp, ct⟩
    · simp at hn
    · exact ⟨ck s, cp s, ct s⟩
  refine ⟨⟨hi.keyboard s, hi.pointer s, hi.touch s⟩, ?_, hcreate, ?_, ?_⟩
  · rw [hi.keyboard s, hi.pointer s, hi.touch s]
    exact ⟨Int.ofNat_nonneg _, Int.ofNat_nonneg _, Int.ofNat_nonneg _⟩
  · intro d w1 h
    obtain ⟨dev, hdev, hd, -, -, ck, cp, ct⟩ := destroy_counts w w1 d h
    exact ⟨dev, hdev, by rw [hd, setAt_same], ck s, cp s, ct s⟩
  · intro ld hno hk hp ht hc
    have z1 : (w.seats s).keyboard_device_count = 0 := by
      rw [hi.keyboard s, live_count_no_devices w _ s hno]
      rfl
    have z2 : (w.seats s).pointer_device_count = 0 := by
      rw [hi.pointer s, live_count_no_devices w _ s hno]
      rfl
    have z3 : (w.seats s).touch_device_count = 0 := by
      rw [hi.touch s, live_count_no_devices w _ s hno]
      rfl
    refine ⟨⟨z1, z2, z3⟩, ?_, ?_⟩
    · intro hm
      obtain ⟨w1, h1⟩ := create_total_no_tablet w ld s hm hc
      exact ⟨_, w1, h1⟩
    · intro d w1 h
      obtain ⟨c1, c2, c3⟩ := hcreate ld s d w1 h
      rw [c1, c2, c3, z1, z2, z3]
      simp [hk, hp, ht]

/-- Witness of C12: a device with keyboard and pointer capability created in the
sample start state. -/
theorem seat_counts_match_devices_witness :
    ((demo_start.seats 0).keyboard_device_count = 0 ∧
      (demo_start.seats 0).pointer_device_count = 0 ∧
      (demo_start.seats 0).touch_device_count = 0) ∧
    ∃ d w1,
      evdev_device_create demo_start { id := 10, cap_keyboard := true, cap_pointer := true } 0 =
        some (some d, w1) ∧
      (w1.seats 0).keyboard_device_count = 1 ∧ (w1.seats 0).pointer_device_count = 1 ∧
      (w1.seats 0).touch_device_count = 0 := by
  obtain ⟨hz, htot, hres⟩ :=
    (seat_counts_match_devices demo_start demo_start_reachable 0).2.2.2.2
      { id := 10, cap_keyboard := true, cap_pointer := true }
      (by intro x dev h; simp [demo_start, World.start] at h) rfl rfl rfl rfl
  obtain ⟨d, w1, h1⟩ := htot (by decide)
  exact ⟨hz, d, w1, h1, hres d w1 h1⟩

/-- C17: in every reachable state the output-created signal has at most one
listener and every pending tablet is on the list of that listener;
`tablet_bind_output` leaves the signal alone when it binds, and when it does
not it allocates and registers a listener only if the signal has none and
otherwise puts the tablet on the list of the listener that is there, so the
signal keeps at most one listener; an output-created event, which returns when
every pending tablet has a live device, ends with the listener registered if and
only if the pending list is non-empty: the list is empty and the listener
removed. -/
theorem single_output_listener (w : World) (hr : Reachable w) :
    w.output_created_signal.length ≤ 1 ∧
    (∀ t, t ∈ pending w → ∃ l, w.output_created_signal = [l] ∧ t ∈ l.tablet_list) ∧
    (∀ t output r w1, tablet_bind_output w t output = some (r, w1) →
      w1.output_created_signal.length ≤ 1 ∧
      ((r = 1 ∧ w1.output_created_signal = w.output_created_signal ∧
          w1.next_addr = w.next_addr) ∨
        (r = 0 ∧
          ((w.output_created_signal = [] ∧
              w1.output_created_signal = [{ addr := w.next_addr, tablet_list := [t] }] ∧
              w1.next_addr = w.next_addr + 1) ∨
            (∃ l, w.output_created_signal = [l] ∧
              w1.output_created_signal = [{ l with tablet_list := t :: l.tablet_list }] ∧
              w1.next_addr = w.next_addr))))) ∧
    (∀ o, pending_devices_live w → ∃ w1, output_created_emit w o = some w1) ∧
    (∀ o w1, output_created_emit w o = some w1 →
      (w1.output_created_signal ≠ [] ↔ pending w1 ≠ []) ∧
      (∀ l, l ∈ w1.output_created_signal → l.tablet_list ≠ []) ∧
      w1.output_created_signal = [] ∧ pending w1 = []) := by
  have hi := reachable_inv w hr
  have hlen := hi.one_listener
  refine ⟨hlen, ?_, ?_, ?_, ?_⟩
  · intro t ht
    rcases hsig : w.output_created_signal with _ | ⟨l, rest⟩
    · simp [pending, hsig] at ht
    · rw [hsig] at hlen
      have hrest : rest = [] := by
        cases rest with
        | nil => rfl
        | cons a b => simp at hlen
      subst hrest
      refine ⟨l, rfl, ?_⟩
      simpa [pending, hsig] using ht
  · intro t output r w1 h
    rcases bind_signal w w1 t output r h with ⟨h1, h2, h3⟩ | ⟨h0, ⟨h2, h3, h4⟩ | ⟨l, rest, h2, h3, h4⟩⟩
    · exact ⟨by rw [h2]; exact hlen, Or.inl ⟨h1, h2, h3⟩⟩
    · exact ⟨by rw [h3]; simp, Or.inr ⟨h0, Or.inl ⟨h2, h3, h4⟩⟩⟩
    · rw [h2] at hlen
      have hrest : rest = [] := by
        cases rest with
        | nil => rfl
        | cons a b => simp at hlen
      subst hrest
      exact ⟨by rw [h3]; simp, Or.inr ⟨h0, Or.inr ⟨l, h2, h3, h4⟩⟩⟩
  · intro o hl
    exact emit_total w o hi hl
  · intro o w1 h
    obtain ⟨-, hp, hs, -⟩ := emit_spec w w1 o hi h
    refine ⟨by simp [hs, hp], ?_, hs, hp⟩
    intro l hl
    rw [hs] at hl
    simp at hl

/-- Witness of C17: the state with one pending tablet has one listener that
holds it, and an output-created event removes the listener. -/
theorem single_output_listener_witness :
    Reachable demo_one_pending ∧
    demo_one_pending.output_created_signal.map (fun l => l.tablet_list.length) = [1] ∧
    ∃ w1, output_created_emit demo_one_pending 7 = some w1 ∧
      w1.output_created_signal = [] ∧ pending w1 = [] := by
  have hs : (output_created_emit demo_one_pending 7).isSome = true := by decide
  obtain ⟨w1, h1⟩ := Option.isSome_iff_exists.mp hs
  have h := (single_output_listener demo_one_pending demo_one_pending_reachable).2.2.2.2 7 w1 h1
  exact ⟨demo_one_pending_reachable, by decide, w1, h1, h.2.2.1, h.2.2.2⟩

/-! ## Theorems: keyboard focus -/

theorem key_bit_test (x i : Nat) :
    (x &&& (1 <<< (i &&& 7)) ≠ 0) ↔ x.testBit (i % 8) = true := by
  have h7 : i &&& 7 = i % 8 := Nat.and_pow_two_sub_one_eq_mod i 3
  rw [h7, Nat.one_shiftLeft, Nat.and_two_pow]
  cases x.testBit (i % 8) <;> simp

theorem key_byte_index (i : Nat) : i >>> 3 = i / 8 := Nat.shiftRight_eq_div_pow i 3

/-- The bound on the rounds of the growth loop of `wl_array_add` is never
reached: the loop ends with room for the new entry. -/
theorem wl_array_add_alloc_done (fuel : Nat) :
    ∀ alloc need, need ≤ alloc * 2 ^ fuel → need ≤ wl_array_add_alloc fuel alloc need := by
  induction fuel with
  | zero =>
    intro alloc need h
    simpa [wl_array_add_alloc] using h
  | succ n ih =>
    intro alloc need h
    unfold wl_array_add_alloc
    by_cases hlt : alloc < need
    · rw [if_pos hlt]
      apply ih
      rw [pow_succ] at h
      calc need ≤ alloc * (2 ^ n * 2) := h
        _ = alloc * 2 * 2 ^ n := by ring
    · rw [if_neg hlt]
      exact not_lt.mp hlt

theorem wl_array_add_alloc_enough (array : wl_array) :
    array.size + 4 ≤ wl_array_add_alloc (array.size + 4)
      (if array.alloc > 0 then array.alloc else 16) (array.size + 4) := by
  apply wl_array_add_alloc_done
  have h1 : 1 ≤ (if array.alloc > 0 then array.alloc else 16) := by
    split <;> omega
  have h2 : array.size + 4 < 2 ^ (array.size + 4) := Nat.lt_two_pow _
  calc array.size + 4 ≤ 1 * 2 ^ (array.size + 4) := by omega
    _ ≤ _ := Nat.mul_le_mul_right _ h1

theorem wl_array_add_ok (w : World) (a : wl_array) (v : Nat) (h : no_malloc_failure w) :
    ∃ a1 w1, wl_array_add w a v = some (a1, w1) ∧ a1.data = a.data ++ [v] ∧
      no_malloc_failure w1 ∧ w1.notifications = w.notifications ∧ w1.log = w.log := by
  unfold wl_array_add
  simp only []
  generalize wl_array_add_alloc (a.size + 4) (if a.alloc > 0 then a.alloc else 16)
    (a.size + 4) = alloc
  by_cases hg : a.alloc < alloc
  · rw [if_pos hg, malloc_ok w h]
    exact ⟨_, _, rfl, rfl, no_malloc_failure_tail w _ h rfl, rfl, rfl⟩
  · rw [if_neg hg]
    exact ⟨_, _, rfl, rfl, h, rfl, rfl⟩

theorem keyboard_focus_keys_spec (all_keys : Nat → Nat) (codes : List Nat) :
    ∀ (w : World) (keys : wl_array), no_malloc_failure w →
      ∃ w2 keys1, keyboard_focus_keys all_keys w keys codes = some (w2, keys1) ∧
        keys1.data =
          keys.data ++ codes.filter (fun i => (all_keys (i / 8)).testBit (i % 8)) ∧
        no_malloc_failure w2 ∧ w2.notifications = w.notifications ∧ w2.log = w.log := by
  induction codes with
  | nil =>
    intro w keys h
    exact ⟨w, keys, rfl, by simp, h, rfl, rfl⟩
  | cons i rest ih =>
    intro w keys h
    by_cases hb : (all_keys (i / 8)).testBit (i % 8) = true
    · have hset : all_keys (i >>> 3) &&& (1 <<< (i &&& 7)) ≠ 0 := by
        rw [key_byte_index]
        exact (key_bit_test _ _).mpr hb
      obtain ⟨a1, w1, e1, d1, m1, n1, l1⟩ := wl_array_add_ok w keys i h
      obtain ⟨w2, k2, e2, d2, m2, n2, l2⟩ := ih w1 a1 m1
      refine ⟨w2, k2, ?_, ?_, m2, n2.trans n1, l2.trans l1⟩
      · simp only [keyboard_focus_keys, hset, ne_eq, not_false_eq_true, if_true, e1]
        exact e2
      · rw [d2, d1]
        simp [List.filter_cons, hb]
    · have hset : ¬ (all_keys (i >>> 3) &&& (1 <<< (i &&& 7)) ≠ 0) := by
        rw [key_byte_index]
        exact fun hne => hb ((key_bit_test _ _).mp hne)
      obtain ⟨w2, k2, e2, d2, m2, n2, l2⟩ := ih w keys h
      refine ⟨w2, k2, ?_, ?_, m2, n2, l2⟩
      · simp only [keyboard_focus_keys, hset, if_false]
        exact e2
      · rw [d2]
        simp [List.filter_cons, hb]

theorem keyboard_focus_devices_spec (ds : List Nat) :
    ∀ (w : World) (all_keys : Nat → Nat), (∀ d, d ∈ ds → ∃ dev, w.devices d = some dev) →
      ∃ w1 all1, keyboard_focus_devices w all_keys ds = some (w1, all1) ∧
        w1.notifications = w.notifications ∧ w1.malloc_script = w.malloc_script ∧
        w1.devices = w.devices ∧ w1.device_keys = w.device_keys ∧
        ∀ j b, b < 8 → ((all1 j).testBit b = true ↔
          ((all_keys j).testBit b = true ∨
            (j < evdev_keys_length ∧ ∃ d dev, d ∈ ds ∧ w.devices d = some dev ∧
              0 ≤ (w.device_keys dev.device).1 ∧
              ((w.device_keys dev.device).2 j).testBit b = true))) := by
  induction ds with
  | nil =>
    intro w all_keys _
    exact ⟨w, all_keys, rfl, rfl, rfl, rfl, rfl, by simp⟩
  | cons d rest ih =>
    intro w all_keys hlive
    obtain ⟨dev, hdev⟩ := hlive d (List.mem_cons_self d rest)
    have hrest : ∀ x, x ∈ rest → ∃ dev, w.devices x = some dev :=
      fun x hx => hlive x (List.mem_cons_of_mem d hx)
    by_cases hret : (w.device_keys dev.device).1 < 0
    · obtain ⟨w1, all1, e1, n1, m1, d1, k1, b1⟩ :=
        ih (weston_log w (failed_keys_msg dev.devnode)) all_keys hrest
      refine ⟨w1, all1, ?_, n1, m1, d1, k1, ?_⟩
      · simp only [keyboard_focus_devices, hdev, hret, if_true]
        exact e1
      · intro j b hb
        rw [b1 j b hb]
        constructor
        · rintro (h | ⟨hj, x, xdev, hx, hxd, hr, ht⟩)
          · exact Or.inl h
          · exact Or.inr ⟨hj, x, xdev, List.mem_cons_of_mem d hx, hxd, hr, ht⟩
        · rintro (h | ⟨hj, x, xdev, hx, hxd, hr, ht⟩)
          · exact Or.inl h
          · rcases List.mem_cons.mp hx with rfl | hx
            · rw [hdev] at hxd
              cases hxd
              exact absurd hret (not_lt.mpr hr)
            · exact Or.inr ⟨hj, x, xdev, hx, hxd, hr, ht⟩
    · obtain ⟨w1, all1, e1, n1, m1, d1, k1, b1⟩ :=
        ih w (fun i => if i < evdev_keys_length then
          all_keys i ||| (if i < evdev_keys_length then (w.device_keys dev.device).2 i % 256 else 0)
          else all_keys i) hrest
      refine ⟨w1, all1, ?_, n1, m1, d1, k1, ?_⟩
      · simp only [keyboard_focus_devices, hdev, hret, if_false]
        exact e1
      · intro j b hb
        rw [b1 j b hb]
        have hmod : ((w.device_keys dev.device).2 j % 256).testBit b =
            ((w.device_keys dev.device).2 j).testBit b := by
          have := Nat.testBit_mod_two_pow ((w.device_keys dev.device).2 j) 8 b
          simpa [hb] using this
        constructor
        · rintro (h | ⟨hj, x, xdev, hx, hxd, hr, ht⟩)
          · by_cases hj : j < evdev_keys_length
            · simp only [hj, if_true, Nat.testBit_lor, Bool.or_eq_true, hmod] at h
              rcases h with h | h
              · exact Or.inl h
              · exact Or.inr ⟨hj, d, dev, List.mem_cons_self d rest, hdev, not_lt.mp hret, h⟩
            · simp only [hj, if_false] at h
              exact Or.inl h
          · exact Or.inr ⟨hj, x, xdev, List.mem_cons_of_mem d hx, hxd, hr, ht⟩
        · rintro (h | ⟨hj, x, xdev, hx, hxd, hr, ht⟩)
          · left
            by_cases hj : j < evdev_keys_length
            · simp only [hj, if_true, Nat.testBit_lor, Bool.or_eq_true]
              exact Or.inl h
            · simp only [hj, if_false]
              exact h
          · rcases List.mem_cons.mp hx with rfl | hx
            · rw [hdev] at hxd
              cases hxd
              left
              simp only [hj, if_true, Nat.testBit_lor, Bool.or_eq_true, hmod]
              exact Or.inr ht
            · exact Or.inr ⟨hj, x, xdev, hx, hxd, hr, ht⟩

/-- C18: `evdev_notify_keyboard_focus` returns the state as it is, so without a
notification, when the keyboard count of the seat is 0. Otherwise, when every
device of the list is live and no allocation fails, it returns and the
notifications it adds are exactly one `keyboard_focus_in` for the seat with
`STATE_UPDATE_AUTOMATIC` whose key array is strictly ascending, holds only codes
below `KEY_CNT`, and holds a code `k` if and only if `k` is below `KEY_CNT` and
bit `k mod 8` of byte `k / 8` is set in the key bitmap of a device of the list
whose query did not return a negative value. -/
theorem keyboard_focus_sends_held_keys (w : World) (seat : Nat) (evdev_devices : List Nat) :
    ((w.seats seat).keyboard_device_count = 0 →
      evdev_notify_keyboard_focus w seat evdev_devices = some w) ∧
    ((w.seats seat).keyboard_device_count ≠ 0 →
      (∀ d, d ∈ evdev_devices → ∃ dev, w.devices d = some dev) → no_malloc_failure w →
      ∃ w1 keys, evdev_notify_keyboard_focus w seat evdev_devices = some w1 ∧
        w1.notifications =
          w.notifications ++ [.keyboard_focus_in seat keys .STATE_UPDATE_AUTOMATIC] ∧
        keys.Pairwise (fun a b => a < b) ∧ keys.Nodup ∧ (∀ k, k ∈ keys → k < KEY_CNT) ∧
        ∀ k, k ∈ keys ↔
          (k < KEY_CNT ∧ ∃ d dev, d ∈ evdev_devices ∧ w.devices d = some dev ∧
            0 ≤ (w.device_keys dev.device).1 ∧
            ((w.device_keys dev.device).2 (k / 8)).testBit (k % 8) = true)) := by
  constructor
  · intro h0
    simp [evdev_notify_keyboard_focus, h0]
  · intro hc hlive hm
    obtain ⟨w1, all1, e1, n1, m1, -, -, b1⟩ :=
      keyboard_focus_devices_spec evdev_devices w (fun _ => 0) hlive
    have hm1 : no_malloc_failure w1 := by
      intro b hb
      rw [m1] at hb
      exact hm b hb
    obtain ⟨w2, keys, e2, d2, -, n2, -⟩ :=
      keyboard_focus_keys_spec all1 (List.range KEY_CNT) w1 {} hm1
    have hd : keys.data =
        (List.range KEY_CNT).filter (fun i => (all1 (i / 8)).testBit (i % 8)) := by
      rw [d2]
      exact List.nil_append _
    have hpw : keys.data.Pairwise (fun a b => a < b) := by
      rw [hd]
      exact List.Pairwise.filter _ (List.pairwise_lt_range KEY_CNT)
    have hmem : ∀ k, k ∈ keys.data ↔
        (k < KEY_CNT ∧ ∃ d dev, d ∈ evdev_devices ∧ w.devices d = some dev ∧
          0 ≤ (w.device_keys dev.device).1 ∧
          ((w.device_keys dev.device).2 (k / 8)).testBit (k % 8) = true) := by
      intro k
      rw [hd, List.mem_filter, List.mem_range, b1 (k / 8) (k % 8) (Nat.mod_lt k (by decide))]
      constructor
      · rintro ⟨hk, h | ⟨-, h⟩⟩
        · simp at h
        · exact ⟨hk, h⟩
      · rintro ⟨hk, h⟩
        refine ⟨hk, Or.inr ⟨?_, h⟩⟩
        unfold evdev_keys_length
        unfold KEY_CNT at hk ⊢
        omega
    refine ⟨notify w2 (.keyboard_focus_in seat keys.data .STATE_UPDATE_AUTOMATIC), keys.data,
      ?_, ?_, hpw, ?_, fun k hk => ((hmem k).mp hk).1, hmem⟩
    · have hnc : ¬ ((if (w.seats seat).keyboard_device_count = 0 then (1 : Int) else 0) > 0) := by
        simp [hc]
      simp only [evdev_notify_keyboard_focus, hnc, if_false, e1, e2]
    · simp only [notify, n2, n1]
    · exact hpw.imp (fun h => Nat.ne_of_lt h)

set_option maxRecDepth 1000000 in
/-- Witness of C18: three keyboards, the second of which cannot be read; the
keys of the first and the third are sent in ascending order, each once. -/
theorem keyboard_focus_sends_held_keys_witness :
    ∃ w1 keys, evdev_notify_keyboard_focus demo_keys_world 0 [1, 2, 3] = some w1 ∧
      w1.notifications = [.keyboard_focus_in 0 keys .STATE_UPDATE_AUTOMATIC] ∧
      (∀ k, k ∈ keys ↔ k ∈ [1, 2, 24, 767]) := by
  obtain ⟨w1, keys, h1, h2, -, -, -, h3⟩ :=
    (keyboard_focus_sends_held_keys demo_keys_world 0 [1, 2, 3]).2 (by decide)
      (by
        intro d hd
        simp only [List.mem_cons, List.mem_singleton, List.not_mem_nil, or_false] at hd
        exact ⟨{ seat := 0, device := d + 10, caps := { keyboard := true } }, by
          simp [demo_keys_world, hd]⟩)
      (by intro b hb; simp [demo_keys_world] at hb)
  refine ⟨w1, keys, h1, h2, ?_⟩
  have hn : (evdev_notify_keyboard_focus demo_keys_world 0 [1, 2, 3]).map
      (fun w => w.notifications) =
      some [.keyboard_focus_in 0 [1, 2, 24, 767] .STATE_UPDATE_AUTOMATIC] := by
    decide
  rw [h1, Option.map_some', h2] at hn
  simp only [demo_keys_world, List.nil_append, Option.some.injEq, List.cons.injEq,
    Notification.keyboard_focus_in.injEq, and_true, true_and] at hn
  intro k
  rw [hn]

end Weston
